import Mathlib

/-!
Path node topology engine (`NodeList`) of enve.

A shallow embedding of `src/app/Animators/PathAnimators/nodelist.cpp`.

* `qreal` is modelled by `ℚ` (exact arithmetic), `QPointF`/`SkPoint` by pairs of
  rationals, `qPointToSk` by the identity.
* `int` node ids are `Int`; the "none" link is `-1`, as in the source
  (`insertedNode.isMove() ? -1 : insertId`, `return -1`).
* `QList<Node>` is `List Node`.  Indexing outside the list (`mNodes.at(i)`,
  `mNodes[i]` with `i` out of range, which is undefined behaviour behind a Qt
  assertion) is the failure `Err.IndexOutOfRange`.
* `RuntimeThrow` is the failure carrying the thrown condition.
* `while(true)` loops take a fuel argument; running out of fuel is the failure
  `Err.OutOfFuel`, which no C++ behaviour produces.
-/

namespace Enve

/-! ## Data model -/

/-- Failure outcomes of the embedded code. -/
inductive Err where
  | NodePointsToItself
  | UnrecognizedNodeType
  | IndexOutOfRange
  | NullNode
  | OutOfFuel
  deriving DecidableEq, Repr

/-- Modelled from the spec: `QPointF` (Qt) with exact rational coordinates. -/
structure QPointF where
  x : ℚ
  y : ℚ
  deriving DecidableEq, Repr

/-- Modelled from the spec: `Node::Type` of node.h (not among the sources), the four
kinds NORMAL, MOVE, DISSOLVED, DUMMY. -/
inductive NodeType where
  | DUMMY
  | DISSOLVED
  | NORMAL
  | MOVE
  deriving DecidableEq, Repr

/-- Modelled from the spec: `struct Node` of node.h (not among the sources): anchor `fP1`,
in-handle `fC0`, out-handle `fC2`, parameter `fT`, type tag and the two link ids. -/
structure Node where
  fC0 : QPointF
  fP1 : QPointF
  fC2 : QPointF
  fT : ℚ
  mType : NodeType
  mPrevNodeId : Int
  mNextNodeId : Int
  deriving DecidableEq, Repr

namespace Node

/-- Modelled from the spec: `Node()` of node.h, the blank blueprint: a DUMMY node without links. -/
def blank : Node := ⟨⟨0, 0⟩, ⟨0, 0⟩, ⟨0, 0⟩, 0, NodeType.DUMMY, -1, -1⟩

/-- Modelled from the spec: `Node(Node::MOVE)` of node.h, a MOVE node without links. -/
def move : Node := ⟨⟨0, 0⟩, ⟨0, 0⟩, ⟨0, 0⟩, 0, NodeType.MOVE, -1, -1⟩

/-- Modelled from the spec: `Node::getType` of node.h. -/
def getType (n : Node) : NodeType := n.mType

/-- Modelled from the spec: `Node::setType` of node.h. -/
def setType (n : Node) (t : NodeType) : Node := { n with mType := t }

/-- Modelled from the spec: `Node::isMove` of node.h. -/
def isMove (n : Node) : Bool := n.mType == NodeType.MOVE

/-- Modelled from the spec: `Node::isNormal` of node.h. -/
def isNormal (n : Node) : Bool := n.mType == NodeType.NORMAL

/-- Modelled from the spec: `Node::isDummy` of node.h. -/
def isDummy (n : Node) : Bool := n.mType == NodeType.DUMMY

/-- Modelled from the spec: `Node::isDissolved` of node.h. -/
def isDissolved (n : Node) : Bool := n.mType == NodeType.DISSOLVED

/-- Modelled from the spec: `Node::getPrevNodeId` of node.h. -/
def getPrevNodeId (n : Node) : Int := n.mPrevNodeId

/-- Modelled from the spec: `Node::getNextNodeId` of node.h. -/
def getNextNodeId (n : Node) : Int := n.mNextNodeId

/-- Modelled from the spec: `Node::hasPreviousNode` of node.h: the previous link is not the
"none" sentinel, that is, it is a non-negative id. -/
def hasPreviousNode (n : Node) : Bool := decide (0 ≤ n.mPrevNodeId)

/-- Modelled from the spec: `Node::hasNextNode` of node.h: if a node's next is absent it is a
terminal end. -/
def hasNextNode (n : Node) : Bool := decide (0 ≤ n.mNextNodeId)

/-- Modelled from the spec: `Node::setPrevNodeId` of node.h. -/
def setPrevNodeId (n : Node) (prevId : Int) : Node := { n with mPrevNodeId := prevId }

/-- Modelled from the spec: `Node::setNextNodeId` of node.h. -/
def setNextNodeId (n : Node) (nextId : Int) : Node := { n with mNextNodeId := nextId }

/-- Modelled from the spec: `Node::switchPrevAndNext` of node.h: swap prev/next. -/
def switchPrevAndNext (n : Node) : Node :=
  { n with mPrevNodeId := n.mNextNodeId, mNextNodeId := n.mPrevNodeId }

/-- Modelled from the spec: `Node::shiftIdsGreaterThan` of node.h: every stored link index
greater than `greater` is shifted by `shiftBy`. -/
def shiftIdsGreaterThan (n : Node) (greater shiftBy : Int) : Node :=
  { n with
    mPrevNodeId := if n.mPrevNodeId > greater then n.mPrevNodeId + shiftBy else n.mPrevNodeId,
    mNextNodeId := if n.mNextNodeId > greater then n.mNextNodeId + shiftBy else n.mNextNodeId }

end Node

/-! ## `QList<Node>` primitives -/

/-- `mNodes.at(i)` / `mNodes[i]` read: the node stored at `i`, a failure outside the list. -/
def nodeAt (mNodes : List Node) (i : Int) : Except Err Node :=
  if i < 0 then Except.error Err.IndexOutOfRange
  else match mNodes[i.toNat]? with
    | some n => Except.ok n
    | none => Except.error Err.IndexOutOfRange

/-- Write through a reference `Node& r = mNodes[i]` that has been obtained successfully. -/
def updateAt (mNodes : List Node) (i : Int) (f : Node → Node) : List Node :=
  if i < 0 then mNodes
  else match mNodes[i.toNat]? with
    | some n => mNodes.set i.toNat (f n)
    | none => mNodes

/-- `QList::insert(i, value)`: prepends for `i <= 0`, appends for `i >= size()`. -/
def qlistInsert (mNodes : List Node) (i : Int) (node : Node) : List Node :=
  mNodes.take i.toNat ++ node :: mNodes.drop i.toNat

/-- `QList::removeAt(i)`: removes the item at index `i`; nothing happens outside the list. -/
def qlistRemoveAt (mNodes : List Node) (i : Int) : List Node :=
  if i < 0 then mNodes else mNodes.eraseIdx i.toNat

/-- `QList::removeOne(value)` on the id work list of `toSkPath`. -/
def qlistRemoveOne (ids : List Int) (v : Int) : List Int := ids.erase v

/-! ## Link setters of `NodeList` (nodelist.h) -/

/-- Modelled from the spec: `NodeList::setNodePrevId(nodeId, prevId)` of nodelist.h (not among
the sources): sets the previous link of node `nodeId`; an id that names no node (the "none"
sentinel in particular) is ignored. -/
def setNodePrevId (mNodes : List Node) (nodeId prevId : Int) : List Node :=
  updateAt mNodes nodeId (fun n => n.setPrevNodeId prevId)

/-- Modelled from the spec: `NodeList::setNodeNextId(nodeId, nextId)` of nodelist.h (not among
the sources): sets the next link of node `nodeId`; an id that names no node (the "none"
sentinel in particular) is ignored. -/
def setNodeNextId (mNodes : List Node) (nodeId nextId : Int) : List Node :=
  updateAt mNodes nodeId (fun n => n.setNextNodeId nextId)

/-- Modelled from the spec: `NodeList::setNodePrevAndNextId(nodeId, node, prevId, nextId)` of
nodelist.h (not among the sources), `node` being the reference to `mNodes[nodeId]`. -/
def setNodePrevAndNextId (mNodes : List Node) (nodeId prevId nextId : Int) : List Node :=
  updateAt mNodes nodeId (fun n => (n.setPrevNodeId prevId).setNextNodeId nextId)

/-- Modelled from the spec: `NodeList::setNodeType(nodeId, node, type)` of nodelist.h (not among
the sources), `node` being the reference to `mNodes[nodeId]`. -/
def setNodeType (mNodes : List Node) (nodeId : Int) (type : NodeType) : List Node :=
  updateAt mNodes nodeId (fun n => n.setType type)

/-! ## Structural edits (nodelist.cpp) -/

/-- `NodeList::moveNodeAfter` (nodelist.cpp 6-17).  `moveNode` and `afterNode` are the
references `mNodes[moveNodeId]` and `mNodes[afterNodeId]`; `afterNode.getNextNodeId()` is read
through the reference after the first two writes. -/
def moveNodeAfter (mNodes : List Node) (moveNodeId afterNodeId : Int) :
    Except Err (List Node) := do
  let moveNode ← nodeAt mNodes moveNodeId
  let _ ← nodeAt mNodes afterNodeId
  let movePrevId := moveNode.getPrevNodeId
  let moveNextId := moveNode.getNextNodeId
  let l1 := setNodeNextId mNodes movePrevId moveNextId
  let l2 := setNodePrevId l1 moveNextId movePrevId
  let afterNode ← nodeAt l2 afterNodeId
  let afterNextId := afterNode.getNextNodeId
  let l3 := setNodeNextId l2 afterNodeId moveNodeId
  let l4 := setNodePrevAndNextId l3 moveNodeId afterNodeId afterNextId
  pure (setNodePrevId l4 afterNextId moveNodeId)

/-- `NodeList::moveNodeBefore` (nodelist.cpp 19-30), references as in `moveNodeAfter`. -/
def moveNodeBefore (mNodes : List Node) (moveNodeId beforeNodeId : Int) :
    Except Err (List Node) := do
  let moveNode ← nodeAt mNodes moveNodeId
  let _ ← nodeAt mNodes beforeNodeId
  let movePrevId := moveNode.getPrevNodeId
  let moveNextId := moveNode.getNextNodeId
  let l1 := setNodeNextId mNodes movePrevId moveNextId
  let l2 := setNodePrevId l1 moveNextId movePrevId
  let beforeNode ← nodeAt l2 beforeNodeId
  let beforePrevId := beforeNode.getPrevNodeId
  let l3 := setNodePrevId l2 beforeNodeId moveNodeId
  let l4 := setNodePrevAndNextId l3 moveNodeId beforePrevId beforeNodeId
  pure (setNodeNextId l4 beforePrevId moveNodeId)

/-- The `while(true)` loop of `NodeList::firstSegmentNode` (nodelist.cpp 38-48). -/
def firstSegmentNodeLoop (mNodes : List Node) :
    Nat → Node → Int → Int → Except Err Int
  | 0, _, _, _ => Except.error Err.OutOfFuel
  | fuel + 1, currNode, smallestId, currId =>
    if !currNode.hasPreviousNode then Except.ok currId
    else
      let prevId := currNode.getPrevNodeId
      if prevId = currId then Except.error Err.NodePointsToItself
      else if prevId = smallestId then Except.ok smallestId
      else
        match nodeAt mNodes prevId with
        | Except.error e => Except.error e
        | Except.ok prevNode =>
          if prevNode.isMove then Except.ok currId
          else firstSegmentNodeLoop mNodes fuel prevNode (min prevId smallestId) prevId

/-- `NodeList::firstSegmentNode` (nodelist.cpp 32-49). -/
def firstSegmentNode (fuel : Nat) (mNodes : List Node) (nodeId : Int) : Except Err Int :=
  if nodeId < 0 then Except.ok (-1)
  else if nodeId ≥ mNodes.length then Except.ok (-1)
  else
    match nodeAt mNodes nodeId with
    | Except.error e => Except.error e
    | Except.ok currNode => firstSegmentNodeLoop mNodes fuel currNode nodeId nodeId

/-- The `while(true)` loop of `NodeList::lastSegmentNode` (nodelist.cpp 57-66). -/
def lastSegmentNodeLoop (mNodes : List Node) :
    Nat → Node → Int → Int → Except Err Int
  | 0, _, _, _ => Except.error Err.OutOfFuel
  | fuel + 1, currNode, smallestId, currId =>
    if currNode.isMove then Except.ok currId
    else
      let nextId := currNode.getNextNodeId
      if nextId = currId then Except.error Err.NodePointsToItself
      else if nextId = smallestId then Except.ok currId
      else
        match nodeAt mNodes nextId with
        | Except.error e => Except.error e
        | Except.ok nextNode =>
          lastSegmentNodeLoop mNodes fuel nextNode (min nextId smallestId) nextId

/-- `NodeList::lastSegmentNode` (nodelist.cpp 51-67). -/
def lastSegmentNode (fuel : Nat) (mNodes : List Node) (nodeId : Int) : Except Err Int :=
  if nodeId < 0 then Except.ok (-1)
  else if nodeId ≥ mNodes.length then Except.ok (-1)
  else
    match nodeAt mNodes nodeId with
    | Except.error e => Except.error e
    | Except.ok currNode => lastSegmentNodeLoop mNodes fuel currNode nodeId nodeId

/-- `NodeList::removeNodeFromList` (nodelist.cpp 70-85).  `nodeToRemove` is a reference into
`mNodes`, so it is read again after the first write. -/
def removeNodeFromList (mNodes : List Node) (nodeId : Int) : Except Err (List Node) := do
  let nodeToRemove ← nodeAt mNodes nodeId
  let l1 :=
    if nodeToRemove.hasPreviousNode then
      setNodePrevId mNodes nodeToRemove.getPrevNodeId nodeToRemove.getNextNodeId
    else mNodes
  let nodeToRemove1 ← nodeAt l1 nodeId
  let l2 :=
    if nodeToRemove1.hasNextNode then
      setNodePrevId l1 nodeToRemove1.getNextNodeId nodeToRemove1.getPrevNodeId
    else l1
  let l3 := qlistRemoveAt l2 nodeId
  pure (l3.map (fun iNode => iNode.shiftIdsGreaterThan nodeId (-1)))

/-- `NodeList::insertNodeToList` (nodelist.cpp 87-94): the list after the insertion; the
returned reference is `mNodes[nodeId]` of that list. -/
def insertNodeToList (mNodes : List Node) (nodeId : Int) (node : Node) :
    Except Err (List Node) := do
  let l1 := (qlistInsert mNodes nodeId node).map
    (fun iNode => iNode.shiftIdsGreaterThan (nodeId - 1) 1)
  let _ ← nodeAt l1 nodeId
  pure l1

/-- `NodeList::nodesInSameSagment` (nodelist.cpp 96-101); the `int` result is the `bool`
value of `firstSegment1 && firstSegment1 == firstSegment2`. -/
def nodesInSameSagment (fuel : Nat) (mNodes : List Node) (node1Id node2Id : Int) :
    Except Err Bool := do
  let firstSegment1 ← firstSegmentNode fuel mNodes node1Id
  let firstSegment2 ← firstSegmentNode fuel mNodes node2Id
  pure (decide (firstSegment1 ≠ 0) && decide (firstSegment1 = firstSegment2))

/-- The loop of `NodeList::reverseSegment` (nodelist.cpp 109-114):
`while(const int currNodeId = nextSegId)` runs as long as the id is non-zero. -/
def reverseSegmentLoop (firstNodeId : Int) : Nat → List Node → Int → Except Err (List Node)
  | 0, _, _ => Except.error Err.OutOfFuel
  | fuel + 1, mNodes, nextSegId =>
    let currNodeId := nextSegId
    if currNodeId = 0 then Except.ok mNodes
    else if currNodeId = firstNodeId then Except.ok mNodes
    else
      match nodeAt mNodes nextSegId with
      | Except.error e => Except.error e
      | Except.ok currNode =>
        reverseSegmentLoop firstNodeId fuel
          (updateAt mNodes nextSegId Node.switchPrevAndNext) currNode.getNextNodeId

/-- `NodeList::reverseSegment` (nodelist.cpp 103-115). -/
def reverseSegment (fuel : Nat) (mNodes : List Node) (nodeId : Int) :
    Except Err (List Node) := do
  let firstNodeId ← firstSegmentNode fuel mNodes nodeId
  if firstNodeId = -1 then pure mNodes
  else do
    let firstNode ← nodeAt mNodes firstNodeId
    let nextSegId := firstNode.getNextNodeId
    reverseSegmentLoop firstNodeId fuel
      (updateAt mNodes firstNodeId Node.switchPrevAndNext) nextSegId

/-- `NodeList::segmentClosed` (nodelist.cpp 117-121). -/
def segmentClosed (fuel : Nat) (mNodes : List Node) (nodeId : Int) : Except Err Bool := do
  let firstNodeId ← firstSegmentNode fuel mNodes nodeId
  if firstNodeId = -1 then pure false
  else do
    let firstNode ← nodeAt mNodes firstNodeId
    pure firstNode.hasPreviousNode

/-! ## Insertion with propagation to the mirrored sibling lists -/

/-- Modelled from the spec: `NodeList::Neighbour` of nodelist.h (not among the sources), the
propagate flags; `neigh & NEXT` holds for NEXT and BOTH, `neigh & PREV` for PREV and BOTH. -/
inductive Neighbour where
  | NONE
  | NEXT
  | PREV
  | BOTH
  deriving DecidableEq, Repr

/-- The value of `neigh & NEXT`. -/
def Neighbour.hasNext : Neighbour → Bool
  | Neighbour.NEXT => true
  | Neighbour.BOTH => true
  | _ => false

/-- The value of `neigh & PREV`. -/
def Neighbour.hasPrev : Neighbour → Bool
  | Neighbour.PREV => true
  | Neighbour.BOTH => true
  | _ => false

/-- A `NodeList` with the sibling lists it can reach: `mPrev` holds the nodes of `mPrev`,
`mPrev->mPrev`, ... (empty when `mPrev` is null), `mNext` those of `mNext`, `mNext->mNext`,
... .  The siblings are not owned; only these two chains are ever followed. -/
structure NodeList where
  mNodes : List Node
  mPrev : List (List Node)
  mNext : List (List Node)
  deriving DecidableEq, Repr

/-- Lines 126-133 of `NodeList::insertNodeBefore`: the edit of this list's own `mNodes`. -/
def insertNodeBeforeThis (mNodes : List Node) (nextId : Int) (nodeBlueprint : Node) :
    Except Err (List Node × Int) := do
  let insertId := nextId
  let l1 ← insertNodeToList mNodes insertId nodeBlueprint
  let shiftedNextId := nextId + 1
  let nextNode ← nodeAt l1 shiftedNextId
  let prevId := nextNode.getPrevNodeId
  let l2 := setNodeNextId l1 prevId insertId
  let l3 := setNodePrevId l2 shiftedNextId insertId
  let l4 := setNodePrevAndNextId l3 insertId prevId shiftedNextId
  pure (l4, insertId)

/-- The call `m->insertNodeBefore(nextId, Node(), NEXT)` (or `PREV`) seen from the chain of
siblings in that direction: each list edits itself, then calls the next one. -/
def insertNodeBeforeChain (nextId : Int) : List (List Node) → Except Err (List (List Node))
  | [] => pure []
  | s :: rest => do
    let r ← insertNodeBeforeThis s nextId Node.blank
    let rest1 ← insertNodeBeforeChain nextId rest
    pure (r.1 :: rest1)

/-- `NodeList::insertNodeBefore` (nodelist.cpp 123-139). -/
def insertNodeBefore (self : NodeList) (nextId : Int) (nodeBlueprint : Node)
    (neigh : Neighbour) : Except Err (NodeList × Int) := do
  let r ← insertNodeBeforeThis self.mNodes nextId nodeBlueprint
  let next1 ← if neigh.hasNext then insertNodeBeforeChain nextId self.mNext else pure self.mNext
  let prev1 ← if neigh.hasPrev then insertNodeBeforeChain nextId self.mPrev else pure self.mPrev
  pure (⟨r.1, prev1, next1⟩, r.2)

/-- Lines 144-151 of `NodeList::insertNodeAfter`: the edit of this list's own `mNodes`,
with the inserted id and the local `nextId`.  `prevNode` is the reference `mNodes[prevId]`
taken before the insertion; the node it refers to stays at index `prevId`. -/
def insertNodeAfterThis (mNodes : List Node) (prevId : Int) (nodeBlueprint : Node) :
    Except Err (List Node × Int × Int) := do
  let _ ← nodeAt mNodes prevId
  let insertId := prevId + 1
  let l1 ← insertNodeToList mNodes insertId nodeBlueprint
  let prevNode ← nodeAt l1 prevId
  let insertedNode ← nodeAt l1 insertId
  let nextId := prevNode.getNextNodeId
  let l2 := setNodePrevId l1 nextId (if insertedNode.isMove then -1 else insertId)
  let l3 := setNodeNextId l2 prevId insertId
  let l4 := setNodePrevAndNextId l3 insertId prevId (if insertedNode.isMove then -1 else nextId)
  pure (l4, insertId, nextId)

/-- The call `m->insertNodeAfter(nextId, Node(), NEXT)` (or `PREV`) seen from the chain of
siblings in that direction; each list passes its own local `nextId` on. -/
def insertNodeAfterChain : Int → List (List Node) → Except Err (List (List Node))
  | _, [] => pure []
  | prevId, s :: rest => do
    let r ← insertNodeAfterThis s prevId Node.blank
    let rest1 ← insertNodeAfterChain r.2.2 rest
    pure (r.1 :: rest1)

/-- `NodeList::insertNodeAfter` (nodelist.cpp 141-157). -/
def insertNodeAfter (self : NodeList) (prevId : Int) (nodeBlueprint : Node)
    (neigh : Neighbour) : Except Err (NodeList × Int) := do
  let r ← insertNodeAfterThis self.mNodes prevId nodeBlueprint
  let nextId := r.2.2
  let next1 ← if neigh.hasNext then insertNodeAfterChain nextId self.mNext else pure self.mNext
  let prev1 ← if neigh.hasPrev then insertNodeAfterChain nextId self.mPrev else pure self.mPrev
  pure (⟨r.1, prev1, next1⟩, r.2.1)

/-- Lines 161-162 of `NodeList::appendNode`: the edit of this list's own `mNodes`. -/
def appendNodeThis (mNodes : List Node) (nodeBlueprint : Node) :
    Except Err (List Node × Int) := do
  let insertId : Int := mNodes.length
  let l1 ← insertNodeToList mNodes insertId nodeBlueprint
  pure (l1, insertId)

/-- The call `m->appendNode(Node(), NEXT)` (or `PREV`) seen from the chain of siblings. -/
def appendNodeChain : List (List Node) → Except Err (List (List Node))
  | [] => pure []
  | s :: rest => do
    let r ← appendNodeThis s Node.blank
    let rest1 ← appendNodeChain rest
    pure (r.1 :: rest1)

/-- `NodeList::appendNode` (nodelist.cpp 159-168). -/
def appendNode (self : NodeList) (nodeBlueprint : Node) (neigh : Neighbour) :
    Except Err (NodeList × Int) := do
  let r ← appendNodeThis self.mNodes nodeBlueprint
  let next1 ← if neigh.hasNext then appendNodeChain self.mNext else pure self.mNext
  let prev1 ← if neigh.hasPrev then appendNodeChain self.mPrev else pure self.mPrev
  pure (⟨r.1, prev1, next1⟩, r.2)

/-! ## Segment geometry -/

/-- Modelled from the spec: `qCubicSegment2D` (not among the sources), the cubic curve with
end points `p0`, `p1` and control points `c1`, `c2`. -/
structure qCubicSegment2D where
  p0 : QPointF
  c1 : QPointF
  c2 : QPointF
  p1 : QPointF
  deriving DecidableEq, Repr

/-- Linear interpolation between two points. -/
def lerp (a b : QPointF) (t : ℚ) : QPointF :=
  ⟨a.x + (b.x - a.x) * t, a.y + (b.y - a.y) * t⟩

/-- Modelled from the spec: `qCubicSegment2D::dividedAtT` (not among the sources): the cubic
split at the parametric position `t` (de Casteljau) into its first and second half. -/
def qCubicSegment2D.dividedAtT (seg : qCubicSegment2D) (t : ℚ) :
    qCubicSegment2D × qCubicSegment2D :=
  let q0 := lerp seg.p0 seg.c1 t
  let q1 := lerp seg.c1 seg.c2 t
  let q2 := lerp seg.c2 seg.p1 t
  let r0 := lerp q0 q1 t
  let r1 := lerp q1 q2 t
  let s := lerp r0 r1 t
  (⟨seg.p0, q0, r0, s⟩, ⟨s, r1, q2, seg.p1⟩)

/-- Modelled from the spec: `gMapTToFragment` of pointhelpers.h (not among the sources): the
position of `t` within the sub-range `[minT, maxT]`. -/
def gMapTToFragment (minT maxT t : ℚ) : ℚ := (t - minT) / (maxT - minT)

/-- `gSegmentFromNodes` (nodelist.cpp 170-174). -/
def gSegmentFromNodes (prevNode nextNode : Node) : qCubicSegment2D :=
  ⟨prevNode.fP1, prevNode.fC2, nextNode.fC0, nextNode.fP1⟩

/-! ## Neighbour searches -/

/-- The loop of `NodeList::prevNormalId` (nodelist.cpp 364-369). -/
def prevNormalIdLoop (mNodes : List Node) : Nat → Node → Except Err Int
  | 0, _ => Except.error Err.OutOfFuel
  | fuel + 1, currNode =>
    if currNode.hasPreviousNode then
      let currId := currNode.getPrevNodeId
      match nodeAt mNodes currId with
      | Except.error e => Except.error e
      | Except.ok node =>
        if node.isNormal then Except.ok currId else prevNormalIdLoop mNodes fuel node
    else Except.ok (-1)

/-- `NodeList::prevNormalId` (nodelist.cpp 362-370). -/
def prevNormalId (fuel : Nat) (mNodes : List Node) (nodeId : Int) : Except Err Int := do
  let currNode ← nodeAt mNodes nodeId
  prevNormalIdLoop mNodes fuel currNode

/-- The loop of `NodeList::nextNormalId` (nodelist.cpp 374-379). -/
def nextNormalIdLoop (mNodes : List Node) : Nat → Node → Except Err Int
  | 0, _ => Except.error Err.OutOfFuel
  | fuel + 1, currNode =>
    if currNode.hasNextNode then
      let currId := currNode.getNextNodeId
      match nodeAt mNodes currId with
      | Except.error e => Except.error e
      | Except.ok node =>
        if node.isNormal then Except.ok currId else nextNormalIdLoop mNodes fuel node
    else Except.ok (-1)

/-- `NodeList::nextNormalId` (nodelist.cpp 372-380). -/
def nextNormalId (fuel : Nat) (mNodes : List Node) (nodeId : Int) : Except Err Int := do
  let currNode ← nodeAt mNodes nodeId
  nextNormalIdLoop mNodes fuel currNode

/-- The loop of `NodeList::prevNonDummyId` (nodelist.cpp 384-389). -/
def prevNonDummyIdLoop (mNodes : List Node) : Nat → Node → Except Err Int
  | 0, _ => Except.error Err.OutOfFuel
  | fuel + 1, currNode =>
    if currNode.hasPreviousNode then
      let currId := currNode.getPrevNodeId
      match nodeAt mNodes currId with
      | Except.error e => Except.error e
      | Except.ok node =>
        if !node.isDummy then Except.ok currId else prevNonDummyIdLoop mNodes fuel node
    else Except.ok (-1)

/-- `NodeList::prevNonDummyId` (nodelist.cpp 382-390). -/
def prevNonDummyId (fuel : Nat) (mNodes : List Node) (nodeId : Int) : Except Err Int := do
  let currNode ← nodeAt mNodes nodeId
  prevNonDummyIdLoop mNodes fuel currNode

/-- The loop of `NodeList::nextNonDummyId` (nodelist.cpp 394-399). -/
def nextNonDummyIdLoop (mNodes : List Node) : Nat → Node → Except Err Int
  | 0, _ => Except.error Err.OutOfFuel
  | fuel + 1, currNode =>
    if currNode.hasNextNode then
      let currId := currNode.getNextNodeId
      match nodeAt mNodes currId with
      | Except.error e => Except.error e
      | Except.ok node =>
        if !node.isDummy then Except.ok currId else nextNonDummyIdLoop mNodes fuel node
    else Except.ok (-1)

/-- `NodeList::nextNonDummyId` (nodelist.cpp 392-400). -/
def nextNonDummyId (fuel : Nat) (mNodes : List Node) (nodeId : Int) : Except Err Int := do
  let currNode ← nodeAt mNodes nodeId
  nextNonDummyIdLoop mNodes fuel currNode

/-- `NodeList::prevT` (nodelist.cpp 348-353). -/
def prevT (fuel : Nat) (mNodes : List Node) (nodeId : Int) : Except Err ℚ := do
  let prevId ← prevNonDummyId fuel mNodes nodeId
  let node ← nodeAt mNodes prevId
  if node.isNormal then pure 0 else pure node.fT

/-- `NodeList::nextT` (nodelist.cpp 355-360). -/
def nextT (fuel : Nat) (mNodes : List Node) (nodeId : Int) : Except Err ℚ := do
  let nextId ← nextNonDummyId fuel mNodes nodeId
  let node ← nodeAt mNodes nextId
  if node.isNormal then pure 1 else pure node.fT

/-! ## Split / promote -/

/-- The ids `a, a+1, ..., b-1` of a loop `for(int i = a; i < b; i++)`. -/
def idRange (a b : Int) : List Int :=
  (List.range (b - a).toNat).map (fun j => a + (j : Int))

/-- `NodeList::promoteDissolvedNodeToNormal` (nodelist.cpp 176-209); `node` is the reference
to `mNodes[nodeId]`, `prevNormal` and `nextNormal` are references into `mNodes` too. -/
def promoteDissolvedNodeToNormal (fuel : Nat) (mNodes : List Node) (nodeId : Int) :
    Except Err (List Node) := do
  let node ← nodeAt mNodes nodeId
  let prevNormalIdV ← prevNormalId fuel mNodes nodeId
  let nextNormalIdV ← nextNormalId fuel mNodes nodeId
  let prevNormal ← nodeAt mNodes prevNormalIdV
  let nextNormal ← nodeAt mNodes nextNormalIdV
  let seg := gSegmentFromNodes prevNormal nextNormal
  let div := seg.dividedAtT node.fT
  let first := div.1
  let second := div.2
  let l1 := updateAt mNodes prevNormalIdV (fun n => { n with fC2 := first.c1 })
  let l2 := updateAt l1 nodeId (fun n => { n with fC0 := first.c2 })
  let l3 := updateAt l2 nodeId (fun n => { n with fP1 := first.p1 })
  let l4 := updateAt l3 nodeId (fun n => { n with fC2 := second.c1 })
  let l5 := setNodeType l4 nodeId NodeType.NORMAL
  let l6 := updateAt l5 nextNormalIdV (fun n => { n with fC0 := second.c2 })
  let nodeT ← (nodeAt l6 nodeId).map (fun n => n.fT)
  let l7 := (idRange (prevNormalIdV + 1) nodeId).foldl
    (fun l i => updateAt l i (fun iNode =>
      if iNode.isDissolved then { iNode with fT := gMapTToFragment 0 nodeT iNode.fT }
      else iNode)) l6
  let l8 := (idRange (nodeId + 1) nextNormalIdV).foldl
    (fun l i => updateAt l i (fun iNode =>
      if iNode.isDissolved then { iNode with fT := gMapTToFragment nodeT 1 iNode.fT }
      else iNode)) l7
  pure l8

/-- `NodeList::splitNode` (nodelist.cpp 211-219); `insertNodeAfter(nodeId, newNode)` is called
without a propagate flag. -/
def splitNode (self : NodeList) (nodeId : Int) : Except Err NodeList := do
  let node ← nodeAt self.mNodes nodeId
  let newNode := node
  let l1 :=
    if node.isNormal then updateAt self.mNodes nodeId (fun n => { n with fC2 := n.fP1 })
    else self.mNodes
  let newNode1 := if node.isNormal then { newNode with fC0 := newNode.fP1 } else newNode
  let r ← insertNodeAfter { self with mNodes := l1 } nodeId newNode1 Neighbour.NONE
  pure r.1

/-- `NodeList::splitNodeAndDisconnect` (nodelist.cpp 221-224). -/
def splitNodeAndDisconnect (self : NodeList) (nodeId : Int) : Except Err NodeList := do
  let s1 ← splitNode self nodeId
  let r ← insertNodeAfter s1 nodeId Node.move Neighbour.NONE
  pure r.1

/-- `NodeList::shouldSplitThisNode` (nodelist.cpp 226-253); `thisNodes` and `neighNodes` are
the node sequences of the two lists. -/
def shouldSplitThisNode (fuel : Nat) (nodeId : Int) (thisNode neighNode : Node)
    (thisNodes neighNodes : List Node) : Except Err Bool := do
  let thisPrevId := thisNode.getPrevNodeId
  let thisNextId := thisNode.getNextNodeId
  let neighPrevId := neighNode.getPrevNodeId
  let neighNextId := neighNode.getNextNodeId
  let prevDiffers := decide (thisPrevId ≠ neighPrevId) && decide (thisPrevId ≠ neighNextId)
  let nextDiffers := decide (thisNextId ≠ neighNextId) && decide (thisNextId ≠ neighPrevId)
  if thisNode.isNormal && (thisNode.hasNextNode && thisNode.hasPreviousNode) then
    let thisNextNormal ← nextNormalId fuel thisNodes nodeId
    let stop ←
      if thisNextNormal = -1 then do
        let neighNextNormal ← nextNormalId fuel neighNodes nodeId
        pure (decide (neighNextNormal ≠ -1))
      else pure false
    if stop then pure true
    else do
      let thisNextNode ← nodeAt thisNodes thisNode.getNextNodeId
      if !thisNextNode.isMove then pure (prevDiffers && nextDiffers)
      else pure (prevDiffers || nextDiffers)
  else pure (prevDiffers || nextDiffers)

/-- `NodeList::nodesConnected` (nodelist.cpp 255-261). -/
def nodesConnected (mNodes : List Node) (node1Id node2Id : Int) : Except Err Bool := do
  let node1 ← nodeAt mNodes node1Id
  if node1.getNextNodeId = node2Id then pure true
  else if node1.getPrevNodeId = node2Id then pure true
  else pure false

/-! ## Path compiler -/

/-- The drawing commands an `SkPath` receives: `moveTo`, `cubicTo`, `close`. -/
inductive PathCmd where
  | moveTo (p : QPointF)
  | cubicTo (c1 c2 p : QPointF)
  | close
  deriving DecidableEq, Repr

/-- The `for` loop of `gCubicTo` (nodelist.cpp 267-278) over the pending `t`s: the remaining
segment and the path after it. -/
def gCubicToLoop : List ℚ → qCubicSegment2D → ℚ → List PathCmd → qCubicSegment2D × List PathCmd
  | [], seg, _, result => (seg, result)
  | t :: ts, seg, lastT, result =>
    let mappedT := gMapTToFragment lastT 1 t
    let div := seg.dividedAtT mappedT
    let first := div.1
    gCubicToLoop ts div.2 t (result ++ [PathCmd.cubicTo first.c1 first.c2 first.p1])

/-- `gCubicTo` (nodelist.cpp 263-284): the path after the call; `dissolvedTs` is empty
afterwards (`dissolvedTs.clear()`). -/
def gCubicTo (prevNode nextNode : Node) (dissolvedTs : List ℚ) (result : List PathCmd) :
    List PathCmd :=
  let seg : qCubicSegment2D := ⟨prevNode.fP1, prevNode.fC2, nextNode.fC0, nextNode.fP1⟩
  let r := gCubicToLoop dissolvedTs seg 0 result
  r.2 ++ [PathCmd.cubicTo r.1.c1 r.1.c2 r.1.p1]

/-- The variables of `NodeList::toSkPath` that live across the walk of one segment. -/
structure WalkState where
  srcIds : List Int
  dissolvedTs : List ℚ
  firstNode : Option Node
  prevNormalNode : Option Node
  currPath : List PathCmd
  close : Bool
  move : Bool
  deriving DecidableEq, Repr

/-- The inner `while(true)` loop of `NodeList::toSkPath` (nodelist.cpp 309-335). -/
def toSkPathWalk (mNodes : List Node) (firstSrcId : Int) :
    Nat → WalkState → Int → Except Err WalkState
  | 0, _, _ => Except.error Err.OutOfFuel
  | fuel + 1, st, nextSrcId =>
    let st1 := { st with srcIds := qlistRemoveOne st.srcIds nextSrcId }
    match nodeAt mNodes nextSrcId with
    | Except.error e => Except.error e
    | Except.ok node =>
      let step : Except Err (Option WalkState) :=
        if node.isDummy then Except.ok (some st1)
        else if node.isDissolved then
          Except.ok (some { st1 with dissolvedTs := st1.dissolvedTs ++ [node.fT] })
        else if node.isMove then Except.ok none
        else if node.isNormal then
          if st1.move then
            Except.ok (some { st1 with
              firstNode := some node,
              close := node.hasPreviousNode,
              currPath := st1.currPath ++ [PathCmd.moveTo node.fP1],
              move := false,
              prevNormalNode := some node })
          else
            match st1.prevNormalNode with
            | none => Except.error Err.NullNode
            | some prevNormalNode =>
              Except.ok (some { st1 with
                currPath := gCubicTo prevNormalNode node st1.dissolvedTs st1.currPath,
                dissolvedTs := [],
                prevNormalNode := some node })
        else Except.error Err.UnrecognizedNodeType
      match step with
      | Except.error e => Except.error e
      | Except.ok none => Except.ok st1
      | Except.ok (some st2) =>
        if !node.hasNextNode then Except.ok st2
        else
          let nextSrcId1 := node.getNextNodeId
          if nextSrcId1 = firstSrcId then Except.ok st2
          else toSkPathWalk mNodes firstSrcId fuel st2 nextSrcId1

/-- The variables of `NodeList::toSkPath` that live across segments. -/
structure PathState where
  result : List PathCmd
  firstNode : Option Node
  prevNormalNode : Option Node
  dissolvedTs : List ℚ
  srcIds : List Int
  deriving DecidableEq, Repr

/-- The outer `while(!srcIds.isEmpty())` loop of `NodeList::toSkPath` (nodelist.cpp 299-344). -/
def toSkPathLoop (mNodes : List Node) (innerFuel : Nat) : Nat → PathState → Except Err PathState
  | 0, _ => Except.error Err.OutOfFuel
  | fuel + 1, ps =>
    match ps.srcIds with
    | [] => Except.ok ps
    | firstId :: restIds =>
      match firstSegmentNode innerFuel mNodes firstId with
      | Except.error e => Except.error e
      | Except.ok firstSrcId =>
        if firstSrcId = -1 then toSkPathLoop mNodes innerFuel fuel { ps with srcIds := restIds }
        else
          match toSkPathWalk mNodes firstSrcId innerFuel
              ⟨ps.srcIds, ps.dissolvedTs, ps.firstNode, ps.prevNormalNode, [], false, true⟩
              firstSrcId with
          | Except.error e => Except.error e
          | Except.ok st =>
            if !st.currPath.isEmpty then
              if st.close then
                match st.prevNormalNode, st.firstNode with
                | some prevNormalNode, some firstNode =>
                  toSkPathLoop mNodes innerFuel fuel
                    ⟨ps.result ++
                      (gCubicTo prevNormalNode firstNode st.dissolvedTs st.currPath ++
                        [PathCmd.close]),
                     st.firstNode, st.prevNormalNode, [], st.srcIds⟩
                | _, _ => Except.error Err.NullNode
              else
                toSkPathLoop mNodes innerFuel fuel
                  ⟨ps.result ++ st.currPath, st.firstNode, st.prevNormalNode,
                   st.dissolvedTs, st.srcIds⟩
            else
              toSkPathLoop mNodes innerFuel fuel
                ⟨ps.result, st.firstNode, st.prevNormalNode, st.dissolvedTs, st.srcIds⟩

/-- `NodeList::toSkPath` (nodelist.cpp 286-346): the commands of the resulting path. -/
def toSkPath (fuel : Nat) (mNodes : List Node) : Except Err (List PathCmd) :=
  match toSkPathLoop mNodes fuel fuel
      ⟨[], none, none, [], (List.range mNodes.length).map (fun i => (i : Int))⟩ with
  | Except.error e => Except.error e
  | Except.ok ps => Except.ok ps.result

/-! ## Placeholder classification -/

/-- `NodeList::updateNodeTypeAfterNeighbourChanged` (nodelist.cpp 410-448): the list after the
call and the returned flag; `mPrev` and `mNext` are the heads of the sibling chains. -/
def updateNodeTypeAfterNeighbourChanged (fuel : Nat) (self : NodeList) (nodeId : Int) :
    Except Err (NodeList × Bool) := do
  let node ← nodeAt self.mNodes nodeId
  if node.isNormal || node.isMove then pure (self, false)
  else do
    let prevInfo : NodeType × Int × Int ←
      match self.mPrev with
      | [] => pure (NodeType.DUMMY, -1, -1)
      | p :: _ => do
        let prevNode ← nodeAt p nodeId
        pure (prevNode.getType, prevNode.getNextNodeId, prevNode.getPrevNodeId)
    let prevType := prevInfo.1
    let prevNextId := prevInfo.2.1
    let prevPrevId := prevInfo.2.2
    let nextInfo : NodeType × Int × Int ←
      match self.mNext with
      | [] => pure (NodeType.DUMMY, -1, -1)
      | n :: _ => do
        let nextNode ← nodeAt n nodeId
        pure (nextNode.getType, nextNode.getNextNodeId, nextNode.getPrevNodeId)
    let nextType := nextInfo.1
    let nextNextId := nextInfo.2.1
    let nextPrevId := nextInfo.2.2
    let nodeNextId := node.getNextNodeId
    if prevType = NodeType.NORMAL ∨ nextType = NodeType.NORMAL ∨
        prevType = NodeType.MOVE ∨ nextType = NodeType.MOVE ∨
        ((nodeNextId ≠ nextNextId ∧ nodeNextId ≠ nextPrevId) ∧ nextType ≠ NodeType.DUMMY) ∨
        ((nodeNextId ≠ prevNextId ∧ nodeNextId ≠ prevPrevId) ∧ prevType ≠ NodeType.DUMMY) then
      if node.getType ≠ NodeType.DISSOLVED then do
        let pT ← prevT fuel self.mNodes nodeId
        let nT ← nextT fuel self.mNodes nodeId
        let l1 := updateAt self.mNodes nodeId (fun n => { n with fT := (1 / 2) * (pT + nT) })
        let l2 := updateAt l1 nodeId (fun n => n.setType NodeType.DISSOLVED)
        pure ({ self with mNodes := l2 }, true)
      else pure (self, false)
    else if node.getType ≠ NodeType.DUMMY then
      pure ({ self with mNodes := updateAt self.mNodes nodeId (fun n => n.setType NodeType.DUMMY) },
        true)
    else pure (self, false)

/-- The `for` loop of `NodeList::updateAllNodesTypeAfterNeighbourChanged` (nodelist.cpp
404-406) over the ids still to visit. -/
def updateAllNodesTypeLoop (fuel : Nat) : List Int → NodeList → List Int →
    Except Err (NodeList × List Int)
  | [], self, changed => pure (self, changed)
  | i :: is, self, changed => do
    let r ← updateNodeTypeAfterNeighbourChanged fuel self i
    updateAllNodesTypeLoop fuel is r.1 (if r.2 then changed ++ [i] else changed)

/-- `NodeList::updateAllNodesTypeAfterNeighbourChanged` (nodelist.cpp 402-408). -/
def updateAllNodesTypeAfterNeighbourChanged (fuel : Nat) (self : NodeList) :
    Except Err (NodeList × List Int) :=
  updateAllNodesTypeLoop fuel (idRange 0 self.mNodes.length) self []

/-! ## Well-formedness predicates and link views -/

/-- The next link stored at index `i`, if there is a node. -/
def nextAt (L : List Node) (i : Nat) : Option Int := (L[i]?).map Node.mNextNodeId

/-- The previous link stored at index `i`, if there is a node. -/
def prevAt (L : List Node) (i : Nat) : Option Int := (L[i]?).map Node.mPrevNodeId

/-- The type stored at index `i`, if there is a node. -/
def typeAt (L : List Node) (i : Nat) : Option NodeType := (L[i]?).map Node.mType

/-- Every link is the none sentinel or the index of a node of the list. -/
def LinksInRange (L : List Node) : Prop :=
  ∀ n ∈ L, (n.mPrevNodeId = -1 ∨ (0 ≤ n.mPrevNodeId ∧ n.mPrevNodeId < L.length)) ∧
    (n.mNextNodeId = -1 ∨ (0 ≤ n.mNextNodeId ∧ n.mNextNodeId < L.length))

instance (L : List Node) : Decidable (LinksInRange L) := by
  unfold LinksInRange; infer_instance

/-- Link symmetry: whenever node `a` has next link `b` and `b` is not MOVE, the previous link
of `b` is `a`. -/
def LinkSymmetry (L : List Node) : Prop :=
  ∀ a < L.length, ∀ b < L.length,
    nextAt L a = some (b : Int) → typeAt L b ≠ some NodeType.MOVE → prevAt L b = some (a : Int)

instance (L : List Node) : Decidable (LinkSymmetry L) := by
  unfold LinkSymmetry; infer_instance


/-- The renumbering of a link by an insertion at `k`: links `≥ k` move up by one. -/
def shiftUp (k : Int) (v : Int) : Int := if v > k - 1 then v + 1 else v

/-- The new storage index of the old node `i` after an insertion at `k`. -/
def shiftIdx (k i : Nat) : Nat := if i < k then i else i + 1


/-! ## Closed loops of NORMAL nodes and their path -/

/-- A closed loop of NORMAL nodes stored in link order: `0 -> 1 -> ... -> n-1 -> 0` with
symmetric links, `n >= 2`. -/
def IsNormalLoop (L : List Node) : Prop :=
  2 ≤ L.length ∧ ∀ i < L.length,
    typeAt L i = some NodeType.NORMAL ∧
    prevAt L i = some (if i = 0 then (L.length : Int) - 1 else (i : Int) - 1) ∧
    nextAt L i = some (if i + 1 = L.length then 0 else (i : Int) + 1)

instance (L : List Node) : Decidable (IsNormalLoop L) := by
  unfold IsNormalLoop; infer_instance

/-- The node stored at index `i` (the blank node outside the list). -/
def nodeD (L : List Node) (i : Nat) : Node := L.getD i Node.blank

/-- The command `cubicTo(out-handle of node j, in-handle of node k, anchor of node k)`. -/
def cubicBetween (L : List Node) (j k : Nat) : PathCmd :=
  PathCmd.cubicTo (nodeD L j).fC2 (nodeD L k).fC0 (nodeD L k).fP1

/-- The path of a closed loop as the specification words it: `moveTo` the anchor of node 0,
a `cubicTo` into each node `1 .. n-1` from its predecessor, the closing `cubicTo` from node
`n-1` back to node 0, and `close`. -/
def loopPath (L : List Node) : List PathCmd :=
  [PathCmd.moveTo (nodeD L 0).fP1] ++
    (List.range (L.length - 1)).map (fun j => cubicBetween L j (j + 1)) ++
    [cubicBetween L (L.length - 1) 0, PathCmd.close]

/-- The ids still to visit when the walk of the loop arrives at node `i`. -/
def idsFrom (i n : Nat) : List Int := (List.range' i (n - i)).map (fun j => (j : Int))

/-- The command of `loopPath L` at position `j`. -/
def loopCmd (L : List Node) (j : Nat) : PathCmd :=
  if j = 0 then PathCmd.moveTo (nodeD L 0).fP1
  else if j < L.length then cubicBetween L (j - 1) j
  else if j = L.length then cubicBetween L (L.length - 1) 0
  else PathCmd.close

/-! ## Concrete inputs -/

/-- A node with the given type and links and all geometry at the origin. -/
def linkNode (t : NodeType) (p n : Int) : Node := ⟨⟨0, 0⟩, ⟨0, 0⟩, ⟨0, 0⟩, 0, t, p, n⟩

/-- The `(prevId, nextId)` pairs of a list, in storage order. -/
def linksOf (L : List Node) : List (Int × Int) :=
  L.map (fun n => (n.mPrevNodeId, n.mNextNodeId))

/-- The open chain `0 -> 1 -> 2` of NORMAL nodes. -/
def openChain3 : List Node :=
  [linkNode NodeType.NORMAL (-1) 1, linkNode NodeType.NORMAL 0 2, linkNode NodeType.NORMAL 1 (-1)]

/-- The open chain `0 -> 2 -> 1` of NORMAL nodes: node 2 is stored last and linked between
nodes 0 and 1. -/
def openChain021 : List Node :=
  [linkNode NodeType.NORMAL (-1) 2, linkNode NodeType.NORMAL 2 (-1), linkNode NodeType.NORMAL 0 1]

/-- The closed square `A(0,0) -> B(10,0) -> C(10,10) -> D(0,10) -> A` of NORMAL nodes whose
handles lie on the edges. -/
def square : List Node :=
  [⟨⟨0, 3⟩, ⟨0, 0⟩, ⟨3, 0⟩, 0, NodeType.NORMAL, 3, 1⟩,
   ⟨⟨7, 0⟩, ⟨10, 0⟩, ⟨10, 3⟩, 0, NodeType.NORMAL, 0, 2⟩,
   ⟨⟨10, 7⟩, ⟨10, 10⟩, ⟨7, 10⟩, 0, NodeType.NORMAL, 1, 3⟩,
   ⟨⟨3, 10⟩, ⟨0, 10⟩, ⟨0, 7⟩, 0, NodeType.NORMAL, 2, 0⟩]

/-- The simple open segment `prevNormal(0) -> dissolved(1) -> nextNormal(2)` with the geometry
of `p`, `d`, `n` and the parameter `d.fT` on the dissolved node. -/
def openSegment3 (p d n : Node) : List Node :=
  [{ p with mType := NodeType.NORMAL, mPrevNodeId := -1, mNextNodeId := 1 },
   { d with mType := NodeType.DISSOLVED, mPrevNodeId := 0, mNextNodeId := 2 },
   { n with mType := NodeType.NORMAL, mPrevNodeId := 1, mNextNodeId := -1 }]

/-- The list `openSegment3 p d n` after the dissolved node has been promoted. -/
def promotedSegment3 (p d n : Node) : List Node :=
  let div := (gSegmentFromNodes p n).dividedAtT d.fT
  [{ p with fC2 := div.1.c1, mType := NodeType.NORMAL, mPrevNodeId := -1, mNextNodeId := 1 },
   { d with fC0 := div.1.c2, fP1 := div.1.p1, fC2 := div.2.c1, mType := NodeType.NORMAL,
            mPrevNodeId := 0, mNextNodeId := 2 },
   { n with fC0 := div.2.c2, mType := NodeType.NORMAL, mPrevNodeId := 1, mNextNodeId := -1 }]

/-- The two halves of the cubic from `p` to `n` split at `t`, as drawing commands after the
`moveTo` of the anchor of `p`. -/
def splitPath (p n : Node) (t : ℚ) : List PathCmd :=
  let div := (gSegmentFromNodes p n).dividedAtT t
  [PathCmd.moveTo p.fP1, PathCmd.cubicTo div.1.c1 div.1.c2 div.1.p1,
    PathCmd.cubicTo div.2.c1 div.2.c2 div.2.p1]

/-- Geometry of a sample arc: the start node. -/
def arcStart : Node := ⟨⟨0, 0⟩, ⟨0, 0⟩, ⟨1, 2⟩, 0, NodeType.NORMAL, -1, -1⟩

/-- Geometry of a sample arc: the marker at `t = 1/2`. -/
def arcMarker : Node := ⟨⟨0, 0⟩, ⟨0, 0⟩, ⟨0, 0⟩, 1 / 2, NodeType.DISSOLVED, -1, -1⟩

/-- Geometry of a sample arc: the end node. -/
def arcEnd : Node := ⟨⟨3, 2⟩, ⟨4, 0⟩, ⟨4, 0⟩, 0, NodeType.NORMAL, -1, -1⟩

/-! ## Walks along the previous links -/

/-- Link symmetry in both directions: node `a` has next link `b` exactly when node `b` has
previous link `a`. -/
def LinkSymmetryBoth (L : List Node) : Prop :=
  ∀ a < L.length, ∀ b < L.length,
    nextAt L a = some (b : Int) ↔ prevAt L b = some (a : Int)

instance (L : List Node) : Decidable (LinkSymmetryBoth L) := by
  unfold LinkSymmetryBoth; infer_instance

/-- The list has no MOVE node. -/
def NoMoveNode (L : List Node) : Prop := ∀ n ∈ L, n.mType ≠ NodeType.MOVE

instance (L : List Node) : Decidable (NoMoveNode L) := by
  unfold NoMoveNode; infer_instance

/-- No node has itself as previous node. -/
def NoSelfLink (L : List Node) : Prop := ∀ i < L.length, prevAt L i ≠ some (i : Int)

instance (L : List Node) : Decidable (NoSelfLink L) := by
  unfold NoSelfLink; infer_instance

/-- One step along the previous link: the id of the previous node of node `c`, if `c` is a
node with a previous link. -/
def prevStep (L : List Node) (c : Nat) : Option Nat :=
  match L[c]? with
  | some N => if 0 ≤ N.mPrevNodeId then some N.mPrevNodeId.toNat else none
  | none => none

/-- The node reached from `n` by following the previous link `k` times, if all these links
exist. -/
def prevWalk (L : List Node) (n : Nat) : Nat → Option Nat
  | 0 => some n
  | k + 1 => (prevWalk L n k).bind (prevStep L)

/-- The smallest id among the first `i + 1` nodes of the walk from `n` along the previous
links: the value of `smallestId` of `firstSegmentNode` after `i` iterations. -/
def walkMin (L : List Node) (n : Nat) : Nat → Nat
  | 0 => n
  | i + 1 => min ((prevWalk L n (i + 1)).getD 0) (walkMin L n i)

/-! ## Further concrete inputs -/

/-- A single NORMAL node that is its own previous and next node. -/
def selfLoop : List Node := [linkNode NodeType.NORMAL 0 0]

/-- The open chain `1 -> 0` of NORMAL nodes: node 1 is the first node, node 0 the last. -/
def openChain10 : List Node :=
  [linkNode NodeType.NORMAL 1 (-1), linkNode NodeType.NORMAL (-1) 0]

/-- A MOVE node (id 0, no previous link) followed by a NORMAL node (id 1) without next link. -/
def moveThenNormal : List Node :=
  [linkNode NodeType.MOVE (-1) 1, linkNode NodeType.NORMAL 0 (-1)]

/-- The chain `0 -> 1 -> 2` whose middle node is a MOVE node with a next link. -/
def chainWithMove : List Node :=
  [linkNode NodeType.NORMAL (-1) 1, linkNode NodeType.MOVE 0 2, linkNode NodeType.NORMAL 1 (-1)]

/-- A node with the given type, links and parameter `t`, all geometry at the origin. -/
def markerNode (t : NodeType) (p n : Int) (fT : ℚ) : Node :=
  ⟨⟨0, 0⟩, ⟨0, 0⟩, ⟨0, 0⟩, fT, t, p, n⟩

/-- The closed loop `0 -> 1 -> 2 -> 3 -> 0` stored in link order: NORMAL nodes 0 and 1, then
DISSOLVED markers at `t = 1/2` (id 2) and `t = 3/4` (id 3). -/
def loopWithMarkers : List Node :=
  [linkNode NodeType.NORMAL 3 1, linkNode NodeType.NORMAL 0 2,
   markerNode NodeType.DISSOLVED 1 3 (1 / 2), markerNode NodeType.DISSOLVED 2 0 (3 / 4)]

/-- The closed loop `0 -> 1 -> 0` of one NORMAL node (id 0) and one DISSOLVED marker at
`t = 1/2` (id 1). -/
def loopOneNormal : List Node :=
  [⟨⟨1, 1⟩, ⟨0, 0⟩, ⟨2, 3⟩, 0, NodeType.NORMAL, 1, 1⟩,
   ⟨⟨0, 0⟩, ⟨0, 0⟩, ⟨0, 0⟩, 1 / 2, NodeType.DISSOLVED, 0, 0⟩]

/-- The chain `0 -> 1 -> 2` of two NORMAL nodes and a trailing DUMMY node. -/
def chainDummyEnd : List Node :=
  [linkNode NodeType.NORMAL (-1) 1, linkNode NodeType.NORMAL 0 2, linkNode NodeType.DUMMY 1 (-1)]

/-- The writes of `promoteDissolvedNodeToNormal` (nodelist.cpp 187-204) once the two
enclosing NORMAL nodes and the two halves of the split are known. -/
def promoteWrites (L : List Node) (nodeId prevNormalIdV nextNormalIdV : Int) (nodeT : ℚ)
    (first second : qCubicSegment2D) : List Node :=
  let l1 := updateAt L prevNormalIdV (fun n => { n with fC2 := first.c1 })
  let l2 := updateAt l1 nodeId (fun n => { n with fC0 := first.c2 })
  let l3 := updateAt l2 nodeId (fun n => { n with fP1 := first.p1 })
  let l4 := updateAt l3 nodeId (fun n => { n with fC2 := second.c1 })
  let l5 := setNodeType l4 nodeId NodeType.NORMAL
  let l6 := updateAt l5 nextNormalIdV (fun n => { n with fC0 := second.c2 })
  let l7 := (idRange (prevNormalIdV + 1) nodeId).foldl
    (fun l i => updateAt l i (fun iNode =>
      if iNode.isDissolved then { iNode with fT := gMapTToFragment 0 nodeT iNode.fT }
      else iNode)) l6
  (idRange (nodeId + 1) nextNormalIdV).foldl
    (fun l i => updateAt l i (fun iNode =>
      if iNode.isDissolved then { iNode with fT := gMapTToFragment nodeT 1 iNode.fT }
      else iNode)) l7

/-! ## Definitions for the termination, relinking and classification claims -/

/-- The four exits of the loop of `firstSegmentNode` in its iteration number `i` (counted
from 0) on the walk from `n`: the current node has no previous link (the result is its id);
its previous link is its own id (the failure "Node points to itself"); its previous link is
the smallest id seen so far (the result is that id); its previous node is a MOVE node (the
result is the current id). -/
def StopsAt (L : List Node) (n i : Nat) (res : Except Err Int) : Prop :=
  ∃ c, prevWalk L n i = some c ∧
    ((prevStep L c = none ∧ res = Except.ok (c : Int)) ∨
     (prevStep L c = some c ∧ res = Except.error Err.NodePointsToItself) ∨
     (∃ p, prevStep L c = some p ∧ p ≠ c ∧ p = walkMin L n i ∧ res = Except.ok (p : Int)) ∨
     (∃ p P, prevStep L c = some p ∧ p ≠ c ∧ p ≠ walkMin L n i ∧ L[p]? = some P ∧
        P.isMove = true ∧ res = Except.ok (c : Int)))

/-- The fields of the node stored at index `i` other than its links: handles, anchor, `t`
and type. -/
def payloadAt (L : List Node) (i : Nat) :
    Option (QPointF × QPointF × QPointF × ℚ × NodeType) :=
  (L[i]?).map (fun n => (n.fC0, n.fP1, n.fC2, n.fT, n.mType))

/-- Three NORMAL nodes: the chain `0 -> 1`, and node 2 whose previous link names node 0 while
node 0 has next link 1.  Every link is in range and link symmetry holds. -/
def danglingPrev : List Node :=
  [linkNode NodeType.NORMAL (-1) 1, linkNode NodeType.NORMAL 0 (-1),
   linkNode NodeType.NORMAL 0 (-1)]

/-- Lines 417-422 (resp. 425-430) of `updateNodeTypeAfterNeighbourChanged`: type, next link
and previous link of the sibling's node at `nodeId`, the defaults when the sibling is absent. -/
def siblingInfo (sib : List (List Node)) (nodeId : Int) : Except Err (NodeType × Int × Int) :=
  match sib with
  | [] => pure (NodeType.DUMMY, -1, -1)
  | p :: _ => do
    let prevNode ← nodeAt p nodeId
    pure (prevNode.getType, prevNode.getNextNodeId, prevNode.getPrevNodeId)

/-- The nodes at index `i` of the present siblings (the previous one first). -/
def siblingNodes (self : NodeList) (i : Nat) : List Node :=
  (match self.mPrev with
    | [] => []
    | s :: _ => (s[i]?).toList) ++
  (match self.mNext with
    | [] => []
    | s :: _ => (s[i]?).toList)

/-- The condition of the spec under which a placeholder node `N` must be DISSOLVED: some
present sibling's node is NORMAL or MOVE, or is not DUMMY and the next link of `N` equals
neither its next link nor its previous link. -/
def MustDissolve (N : Node) (sibs : List Node) : Prop :=
  ∃ S ∈ sibs, S.mType = NodeType.NORMAL ∨ S.mType = NodeType.MOVE ∨
    (S.mType ≠ NodeType.DUMMY ∧ N.mNextNodeId ≠ S.mNextNodeId ∧ N.mNextNodeId ≠ S.mPrevNodeId)

instance (N : Node) (sibs : List Node) : Decidable (MustDissolve N sibs) := by
  unfold MustDissolve; infer_instance

/-- The condition of lines 432-435 on the looked-up sibling values. -/
def dissolveCond (node : Node) (prevInfo nextInfo : NodeType × Int × Int) : Prop :=
  prevInfo.1 = NodeType.NORMAL ∨ nextInfo.1 = NodeType.NORMAL ∨
    prevInfo.1 = NodeType.MOVE ∨ nextInfo.1 = NodeType.MOVE ∨
    ((node.getNextNodeId ≠ nextInfo.2.1 ∧ node.getNextNodeId ≠ nextInfo.2.2) ∧
      nextInfo.1 ≠ NodeType.DUMMY) ∨
    ((node.getNextNodeId ≠ prevInfo.2.1 ∧ node.getNextNodeId ≠ prevInfo.2.2) ∧
      prevInfo.1 ≠ NodeType.DUMMY)

instance (node : Node) (p n : NodeType × Int × Int) : Decidable (dissolveCond node p n) := by
  unfold dissolveCond; infer_instance

/-- The open chain `0 -> 1 -> 2` whose first node is a DUMMY node and whose other nodes are
NORMAL nodes with anchors `(1,1)` and `(5,5)`. -/
def dummyFirst : List Node :=
  [linkNode NodeType.DUMMY (-1) 1, ⟨⟨0, 1⟩, ⟨1, 1⟩, ⟨2, 1⟩, 0, NodeType.NORMAL, 0, 2⟩,
   ⟨⟨4, 5⟩, ⟨5, 5⟩, ⟨6, 5⟩, 0, NodeType.NORMAL, 1, -1⟩]

/-- The first NORMAL node of the two-node open chain `segB`. -/
def segB0 : Node := ⟨⟨4, 5⟩, ⟨5, 5⟩, ⟨6, 5⟩, 0, NodeType.NORMAL, -1, 1⟩

/-- The second NORMAL node of the two-node open chain `segB`. -/
def segB1 : Node := ⟨⟨7, 8⟩, ⟨9, 9⟩, ⟨10, 9⟩, 0, NodeType.NORMAL, 0, -1⟩

/-- The open chain of a NORMAL node with anchor `(1,1)` followed by a trailing DISSOLVED
marker at `t = 1/2`. -/
def segA : List Node :=
  [⟨⟨0, 1⟩, ⟨1, 1⟩, ⟨2, 1⟩, 0, NodeType.NORMAL, -1, 1⟩,
   markerNode NodeType.DISSOLVED 0 (-1) (1 / 2)]

/-- The open chain of the two NORMAL nodes `segB0 -> segB1`. -/
def segB : List Node := [segB0, segB1]

/-- The two disjoint open chains `segA` (ids 0, 1) and `segB` (ids 2, 3) in one list. -/
def twoSegs : List Node :=
  segA ++ [{ segB0 with mNextNodeId := 3 }, { segB1 with mPrevNodeId := 2 }]

/-- Three NORMAL nodes whose previous links are `0 -> 1`, `1 -> 2`, `2 -> 1`: every link is in
range, and the walk along the previous links from node 0 runs into the cycle `1, 2` that
does not contain node 0. -/
def prevCycle : List Node :=
  [linkNode NodeType.NORMAL 1 (-1), linkNode NodeType.NORMAL 2 (-1),
   linkNode NodeType.NORMAL 1 (-1)]

/-- The chain `0 -> 1 -> 2` whose middle node is a MOVE node without previous link: node 0 has
next link 1, the MOVE node has next link 2, node 2 has previous link 1.  Link symmetry holds
(the MOVE node is exempt), links are not symmetric in both directions. -/
def moveStartsChain : List Node :=
  [linkNode NodeType.NORMAL (-1) 1, linkNode NodeType.MOVE (-1) 2,
   linkNode NodeType.NORMAL 1 (-1)]

/-- The chain `0 -> 1 -> 2` of a NORMAL node, a DUMMY node and a NORMAL node. -/
def chainDummyMid : List Node :=
  [linkNode NodeType.NORMAL (-1) 1, linkNode NodeType.DUMMY 0 2,
   linkNode NodeType.NORMAL 1 (-1)]

/-! ## Basic lemmas on the list primitives -/

theorem getElem?_updateAt (L : List Node) (x : Int) (f : Node → Node) (i : Nat) :
    (updateAt L x f)[i]? = if x = (i : Int) then (L[i]?).map f else L[i]? := by
  unfold updateAt
  by_cases hx : x < 0
  · have : x ≠ (i : Int) := by omega
    simp [hx, this]
  · simp only [hx, if_false]
    cases hL : L[x.toNat]? with
    | none =>
      simp only
      split_ifs with h
      · have : x.toNat = i := by omega
        rw [this] at hL; simp [hL]
      · rfl
    | some n =>
      simp only [List.getElem?_set]
      by_cases h : x = (i : Int)
      · have : x.toNat = i := by omega
        subst this
        have hlt := (List.getElem?_eq_some_iff.mp hL).1
        rw [if_pos h]
        simp [hL, hlt]
      · have : x.toNat ≠ i := by omega
        simp [h, this]

@[simp] theorem length_updateAt (L : List Node) (x : Int) (f : Node → Node) :
    (updateAt L x f).length = L.length := by
  unfold updateAt
  split_ifs
  · rfl
  · split <;> simp

@[simp] theorem length_setNodePrevId (L : List Node) (x p : Int) :
    (setNodePrevId L x p).length = L.length := length_updateAt _ _ _

@[simp] theorem length_setNodeNextId (L : List Node) (x p : Int) :
    (setNodeNextId L x p).length = L.length := length_updateAt _ _ _

@[simp] theorem length_setNodePrevAndNextId (L : List Node) (x p q : Int) :
    (setNodePrevAndNextId L x p q).length = L.length := length_updateAt _ _ _

theorem nextAt_setNodePrevId (L : List Node) (x p : Int) (i : Nat) :
    nextAt (setNodePrevId L x p) i = nextAt L i := by
  simp only [nextAt, setNodePrevId, getElem?_updateAt]
  split_ifs <;> cases L[i]? <;> rfl

theorem prevAt_setNodePrevId (L : List Node) (x p : Int) (i : Nat) :
    prevAt (setNodePrevId L x p) i =
      if x = (i : Int) then (prevAt L i).map (fun _ => p) else prevAt L i := by
  simp only [prevAt, setNodePrevId, getElem?_updateAt]
  split_ifs <;> cases L[i]? <;> rfl

theorem typeAt_setNodePrevId (L : List Node) (x p : Int) (i : Nat) :
    typeAt (setNodePrevId L x p) i = typeAt L i := by
  simp only [typeAt, setNodePrevId, getElem?_updateAt]
  split_ifs <;> cases L[i]? <;> rfl

theorem nextAt_setNodeNextId (L : List Node) (x p : Int) (i : Nat) :
    nextAt (setNodeNextId L x p) i =
      if x = (i : Int) then (nextAt L i).map (fun _ => p) else nextAt L i := by
  simp only [nextAt, setNodeNextId, getElem?_updateAt]
  split_ifs <;> cases L[i]? <;> rfl

theorem prevAt_setNodeNextId (L : List Node) (x p : Int) (i : Nat) :
    prevAt (setNodeNextId L x p) i = prevAt L i := by
  simp only [prevAt, setNodeNextId, getElem?_updateAt]
  split_ifs <;> cases L[i]? <;> rfl

theorem typeAt_setNodeNextId (L : List Node) (x p : Int) (i : Nat) :
    typeAt (setNodeNextId L x p) i = typeAt L i := by
  simp only [typeAt, setNodeNextId, getElem?_updateAt]
  split_ifs <;> cases L[i]? <;> rfl

theorem nextAt_setNodePrevAndNextId (L : List Node) (x p q : Int) (i : Nat) :
    nextAt (setNodePrevAndNextId L x p q) i =
      if x = (i : Int) then (nextAt L i).map (fun _ => q) else nextAt L i := by
  simp only [nextAt, setNodePrevAndNextId, getElem?_updateAt]
  split_ifs <;> cases L[i]? <;> rfl

theorem prevAt_setNodePrevAndNextId (L : List Node) (x p q : Int) (i : Nat) :
    prevAt (setNodePrevAndNextId L x p q) i =
      if x = (i : Int) then (prevAt L i).map (fun _ => p) else prevAt L i := by
  simp only [prevAt, setNodePrevAndNextId, getElem?_updateAt]
  split_ifs <;> cases L[i]? <;> rfl

theorem typeAt_setNodePrevAndNextId (L : List Node) (x p q : Int) (i : Nat) :
    typeAt (setNodePrevAndNextId L x p q) i = typeAt L i := by
  simp only [typeAt, setNodePrevAndNextId, getElem?_updateAt]
  split_ifs <;> cases L[i]? <;> rfl

theorem nodeAt_of_getElem? {L : List Node} {i : Nat} {n : Node} (h : L[i]? = some n) :
    nodeAt L (i : Int) = Except.ok n := by
  unfold nodeAt
  have : ¬ ((i : Int) < 0) := by omega
  simp [this, h]

theorem nodeAt_eq_ok {L : List Node} {x : Int} {n : Node} (h : nodeAt L x = Except.ok n) :
    0 ≤ x ∧ L[x.toNat]? = some n := by
  unfold nodeAt at h
  by_cases hx : x < 0
  · simp [hx] at h
  · simp only [hx, if_false] at h
    cases hL : L[x.toNat]? with
    | none => simp [hL] at h
    | some m =>
      simp [hL] at h
      exact ⟨by omega, by rw [h]⟩

theorem nodeAt_neg {L : List Node} {x : Int} (h : x < 0) :
    nodeAt L x = Except.error Err.IndexOutOfRange := by
  simp [nodeAt, h]

theorem nextAt_of_getElem? {L : List Node} {i : Nat} {n : Node} (h : L[i]? = some n) :
    nextAt L i = some n.mNextNodeId := by simp [nextAt, h]

theorem prevAt_of_getElem? {L : List Node} {i : Nat} {n : Node} (h : L[i]? = some n) :
    prevAt L i = some n.mPrevNodeId := by simp [prevAt, h]

theorem typeAt_of_getElem? {L : List Node} {i : Nat} {n : Node} (h : L[i]? = some n) :
    typeAt L i = some n.mType := by simp [typeAt, h]

theorem getElem?_qlistInsert (L : List Node) (k : Nat) (hk : k ≤ L.length) (bp : Node)
    (i : Nat) :
    (qlistInsert L (k : Int) bp)[i]? =
      if i < k then L[i]? else if i = k then some bp else L[i - 1]? := by
  unfold qlistInsert
  simp only [Int.toNat_ofNat]
  have hlen : (List.take k L).length = k := by simp [hk]
  by_cases h1 : i < k
  · rw [if_pos h1, List.getElem?_append_left (by omega)]
    simp [List.getElem?_take, h1]
  · rw [if_neg h1, List.getElem?_append_right (by omega), hlen]
    by_cases h2 : i = k
    · subst h2; simp
    · rw [if_neg h2]
      obtain ⟨j, hj⟩ : ∃ j, i - k = j + 1 := ⟨i - k - 1, by omega⟩
      rw [hj, List.getElem?_cons_succ, List.getElem?_drop]
      congr 1; omega

theorem length_qlistInsert (L : List Node) (k : Int) (bp : Node) :
    (qlistInsert L k bp).length = L.length + 1 := by
  unfold qlistInsert
  simp only [List.length_append, List.length_cons, List.length_take, List.length_drop]
  omega

theorem insertNodeToList_ok (L : List Node) (k : Nat) (hk : k ≤ L.length) (bp : Node) :
    insertNodeToList L (k : Int) bp =
      Except.ok ((qlistInsert L (k : Int) bp).map
        (fun iNode => iNode.shiftIdsGreaterThan ((k : Int) - 1) 1)) := by
  unfold insertNodeToList
  have h : ((qlistInsert L (k : Int) bp).map
      (fun iNode => iNode.shiftIdsGreaterThan ((k : Int) - 1) 1))[k]? =
      some (bp.shiftIdsGreaterThan ((k : Int) - 1) 1) := by
    rw [List.getElem?_map, getElem?_qlistInsert L k hk]
    simp
  simp only [nodeAt_of_getElem? h, bind, Except.bind, pure, Except.pure]



theorem getElem?_insertShift_old (L : List Node) (k : Nat) (hk : k ≤ L.length) (bp : Node)
    (g : Node → Node) (i : Nat) :
    ((qlistInsert L (k : Int) bp).map g)[shiftIdx k i]? = (L[i]?).map g := by
  rw [List.getElem?_map, getElem?_qlistInsert L k hk]
  unfold shiftIdx
  by_cases h : i < k
  · simp [h]
  · have h1 : ¬ (i + 1 < k) := by omega
    have h2 : i + 1 ≠ k := by omega
    simp [h, h1, h2]

theorem getElem?_insertShift_new (L : List Node) (k : Nat) (hk : k ≤ L.length) (bp : Node)
    (g : Node → Node) :
    ((qlistInsert L (k : Int) bp).map g)[k]? = some (g bp) := by
  rw [List.getElem?_map, getElem?_qlistInsert L k hk]
  simp

theorem shiftIdx_ne (k i : Nat) : shiftIdx k i ≠ k := by
  unfold shiftIdx; split_ifs <;> omega

theorem shiftIdx_cases (k x : Nat) : x = k ∨ ∃ i, x = shiftIdx k i := by
  by_cases h : x = k
  · exact Or.inl h
  · right
    by_cases h1 : x < k
    · exact ⟨x, by simp [shiftIdx, h1]⟩
    · refine ⟨x - 1, ?_⟩
      have : ¬ (x - 1 < k) := by omega
      simp only [shiftIdx, this, if_false]; omega

theorem insertNodeBeforeThis_ok (L : List Node) (k : Nat) (bp K : Node)
    (hK : L[k]? = some K) :
    ∃ L4, insertNodeBeforeThis L (k : Int) bp = Except.ok (L4, (k : Int)) ∧
      L4.length = L.length + 1 ∧
      L4[k]? = some { bp with mPrevNodeId := shiftUp k K.mPrevNodeId, mNextNodeId := (k : Int) + 1 } ∧
      ∀ (i : Nat) (N : Node), L[i]? = some N →
        L4[shiftIdx k i]? = some { N with
          mPrevNodeId := if i = k then (k : Int) else shiftUp k N.mPrevNodeId,
          mNextNodeId := if shiftUp k K.mPrevNodeId = (shiftIdx k i : Nat) then (k : Int)
            else shiftUp k N.mNextNodeId } := by
  have hk : k < L.length := (List.getElem?_eq_some_iff.mp hK).1
  have hk1 : k ≤ L.length := by omega
  have hnext : ((qlistInsert L (k : Int) bp).map
      (fun iNode => iNode.shiftIdsGreaterThan ((k : Int) - 1) 1))[k + 1]? =
      some (K.shiftIdsGreaterThan ((k : Int) - 1) 1) := by
    have := getElem?_insertShift_old L k hk1 bp
      (fun iNode => iNode.shiftIdsGreaterThan ((k : Int) - 1) 1) k
    simpa [shiftIdx, hK] using this
  have hnext1 : nodeAt ((qlistInsert L (k : Int) bp).map
      (fun iNode => iNode.shiftIdsGreaterThan ((k : Int) - 1) 1)) ((k : Int) + 1) =
      Except.ok (K.shiftIdsGreaterThan ((k : Int) - 1) 1) := by
    have := nodeAt_of_getElem? hnext
    simpa using this
  refine ⟨setNodePrevAndNextId
      (setNodePrevId
        (setNodeNextId ((qlistInsert L (k : Int) bp).map
            (fun iNode => iNode.shiftIdsGreaterThan ((k : Int) - 1) 1))
          (K.shiftIdsGreaterThan ((k : Int) - 1) 1).getPrevNodeId (k : Int))
        ((k : Int) + 1) (k : Int))
      (k : Int) (K.shiftIdsGreaterThan ((k : Int) - 1) 1).getPrevNodeId ((k : Int) + 1),
    ?_, ?_, ?_, ?_⟩
  · simp only [insertNodeBeforeThis, insertNodeToList_ok L k hk1, hnext1, bind, Except.bind,
      pure, Except.pure]
  · simp [setNodePrevAndNextId, setNodePrevId, setNodeNextId, length_qlistInsert]
  · have h1 : ¬ ((k : Int) + 1 = (k : Int)) := by omega
    have h2 : ¬ ((K.shiftIdsGreaterThan ((k : Int) - 1) 1).getPrevNodeId = (k : Int)) := by
      simp only [Node.shiftIdsGreaterThan, Node.getPrevNodeId]
      split_ifs <;> omega
    simp only [setNodePrevAndNextId, setNodePrevId, setNodeNextId, getElem?_updateAt,
      getElem?_insertShift_new L k hk1, if_neg h1, if_neg h2, if_true, Option.map_some']
    simp [Node.setPrevNodeId, Node.setNextNodeId, Node.shiftIdsGreaterThan,
      Node.getPrevNodeId, shiftUp]
  · intro i N hN
    simp only [setNodePrevAndNextId, setNodePrevId, setNodeNextId, getElem?_updateAt,
      getElem?_insertShift_old L k hk1, hN, Option.map_some']
    have h1 : ¬ ((k : Int) = (shiftIdx k i : Nat)) := by
      have := shiftIdx_ne k i; omega
    have h2 : ((k : Int) + 1 = (shiftIdx k i : Nat)) ↔ i = k := by
      unfold shiftIdx; split_ifs <;> omega
    simp only [h1, if_false, Node.getPrevNodeId]
    by_cases h3 : i = k
    · subst h3
      rw [if_pos (h2.mpr rfl)]
      simp only [apply_ite (Option.map _), Option.map_some', ite_self, if_true]
      split_ifs <;>
        simp [Node.setPrevNodeId, Node.setNextNodeId, Node.shiftIdsGreaterThan, shiftUp] <;>
        simp_all [Node.shiftIdsGreaterThan, shiftUp]
    · rw [if_neg (fun h => h3 (h2.mp h))]
      simp only [h3, if_false]
      split_ifs <;>
        simp [Node.setPrevNodeId, Node.setNextNodeId, Node.shiftIdsGreaterThan, shiftUp] <;>
        simp_all [Node.shiftIdsGreaterThan, shiftUp]



theorem insertNodeAfterThis_ok (L : List Node) (p : Nat) (bp P : Node)
    (hP : L[p]? = some P) :
    ∃ L4, insertNodeAfterThis L (p : Int) bp =
        Except.ok (L4, (p : Int) + 1, shiftUp ((p : Int) + 1) P.mNextNodeId) ∧
      L4.length = L.length + 1 ∧
      L4[p + 1]? = some { bp with
        mPrevNodeId := (p : Int),
        mNextNodeId := if bp.isMove then -1 else shiftUp ((p : Int) + 1) P.mNextNodeId } ∧
      ∀ (i : Nat) (N : Node), L[i]? = some N →
        L4[shiftIdx (p + 1) i]? = some { N with
          mPrevNodeId :=
            if shiftUp ((p : Int) + 1) P.mNextNodeId = (shiftIdx (p + 1) i : Nat) then
              (if bp.isMove then -1 else (p : Int) + 1)
            else shiftUp ((p : Int) + 1) N.mPrevNodeId,
          mNextNodeId := if i = p then (p : Int) + 1 else shiftUp ((p : Int) + 1) N.mNextNodeId } := by
  have hp : p < L.length := (List.getElem?_eq_some_iff.mp hP).1
  have hk1 : p + 1 ≤ L.length := by omega
  have hcast : ((p : Int) + 1) = ((p + 1 : Nat) : Int) := by push_cast; rfl
  have hprev : ((qlistInsert L ((p + 1 : Nat) : Int) bp).map
      (fun iNode => iNode.shiftIdsGreaterThan (((p + 1 : Nat) : Int) - 1) 1))[p]? =
      some (P.shiftIdsGreaterThan (((p + 1 : Nat) : Int) - 1) 1) := by
    have := getElem?_insertShift_old L (p + 1) hk1 bp
      (fun iNode => iNode.shiftIdsGreaterThan (((p + 1 : Nat) : Int) - 1) 1) p
    simpa [shiftIdx, hP] using this
  have hins := getElem?_insertShift_new L (p + 1) hk1 bp
      (fun iNode => iNode.shiftIdsGreaterThan (((p + 1 : Nat) : Int) - 1) 1)
  have hins1 := nodeAt_of_getElem? hins
  have hmv : (bp.shiftIdsGreaterThan (((p + 1 : Nat) : Int) - 1) 1).isMove = bp.isMove := rfl
  rw [hcast]
  refine ⟨setNodePrevAndNextId
      (setNodeNextId
        (setNodePrevId ((qlistInsert L ((p + 1 : Nat) : Int) bp).map
            (fun iNode => iNode.shiftIdsGreaterThan (((p + 1 : Nat) : Int) - 1) 1))
          (P.shiftIdsGreaterThan (((p + 1 : Nat) : Int) - 1) 1).getNextNodeId
          (if bp.isMove then -1 else ((p + 1 : Nat) : Int)))
        (p : Int) ((p + 1 : Nat) : Int))
      ((p + 1 : Nat) : Int) (p : Int)
      (if bp.isMove then -1 else (P.shiftIdsGreaterThan (((p + 1 : Nat) : Int) - 1) 1).getNextNodeId),
    ?_, ?_, ?_, ?_⟩
  · simp only [insertNodeAfterThis, hcast, insertNodeToList_ok L (p + 1) hk1, nodeAt_of_getElem? hP,
      nodeAt_of_getElem? hprev, hins1, hmv, bind, Except.bind, pure, Except.pure]
    rfl
  · simp [setNodePrevAndNextId, setNodePrevId, setNodeNextId, length_qlistInsert]
  · have h1 : ¬ ((p : Int) = ((p + 1 : Nat) : Int)) := by omega
    have h2 : ¬ ((P.shiftIdsGreaterThan (((p + 1 : Nat) : Int) - 1) 1).getNextNodeId =
        ((p + 1 : Nat) : Int)) := by
      simp only [Node.shiftIdsGreaterThan, Node.getNextNodeId]
      split_ifs <;> omega
    simp only [setNodePrevAndNextId, setNodePrevId, setNodeNextId, getElem?_updateAt,
      hins, if_neg h1, if_neg h2, if_true, Option.map_some']
    simp [Node.setPrevNodeId, Node.setNextNodeId, Node.shiftIdsGreaterThan,
      Node.getNextNodeId, shiftUp]
  · intro i N hN
    have hsn : ∀ X : Node, (X.shiftIdsGreaterThan (((p + 1 : Nat) : Int) - 1) 1).mNextNodeId =
        shiftUp ((p + 1 : Nat) : Int) X.mNextNodeId := fun _ => rfl
    have h1 : ¬ (((p + 1 : Nat) : Int) = (shiftIdx (p + 1) i : Nat)) := by
      have := shiftIdx_ne (p + 1) i; omega
    have h2 : ((p : Int) = (shiftIdx (p + 1) i : Nat)) ↔ i = p := by
      unfold shiftIdx; split_ifs <;> omega
    simp only [setNodePrevAndNextId, setNodePrevId, setNodeNextId, getElem?_updateAt,
      getElem?_insertShift_old L (p + 1) hk1, hN, Option.map_some', h1, if_false,
      Node.getNextNodeId, hsn, h2, apply_ite (Option.map _)]
    split_ifs <;> rfl

theorem LinkSymmetry.elim {L : List Node} (h : LinkSymmetry L) {a b : Nat} {A B : Node}
    (hA : L[a]? = some A) (hB : L[b]? = some B) (hn : A.mNextNodeId = (b : Int))
    (hm : B.mType ≠ NodeType.MOVE) : B.mPrevNodeId = (a : Int) := by
  have ha : a < L.length := (List.getElem?_eq_some_iff.mp hA).1
  have hb : b < L.length := (List.getElem?_eq_some_iff.mp hB).1
  have := h a ha b hb (by simp [nextAt, hA, hn]) (by simp [typeAt, hB, hm])
  simpa [prevAt, hB] using this

theorem LinkSymmetry.intro {L : List Node}
    (h : ∀ (a b : Nat) (A B : Node), L[a]? = some A → L[b]? = some B →
      A.mNextNodeId = (b : Int) → B.mType ≠ NodeType.MOVE → B.mPrevNodeId = (a : Int)) :
    LinkSymmetry L := by
  intro a ha b hb h1 h2
  have hA : L[a]? = some L[a] := List.getElem?_eq_getElem ha
  have hB : L[b]? = some L[b] := List.getElem?_eq_getElem hb
  simp only [nextAt, typeAt, prevAt, hA, hB, Option.map_some', Option.some.injEq, ne_eq] at h1 h2 ⊢
  exact h a b _ _ hA hB h1 h2

theorem shiftUp_ne (k : Nat) (v : Int) : shiftUp (k : Int) v ≠ (k : Int) := by
  unfold shiftUp; split_ifs <;> omega

theorem shiftUp_eq_shiftIdx (k : Nat) (v : Int) (j : Nat) :
    shiftUp (k : Int) v = (shiftIdx k j : Nat) ↔ v = (j : Int) := by
  unfold shiftUp shiftIdx; split_ifs <;> omega

theorem shiftUp_natCast (k i : Nat) : shiftUp (k : Int) (i : Int) = (shiftIdx k i : Nat) :=
  (shiftUp_eq_shiftIdx k i i).mpr rfl

theorem shiftIdx_lt {k i n : Nat} (hk : k ≤ n) (h : shiftIdx k i < n + 1) : i < n := by
  unfold shiftIdx at h; split_ifs at h <;> omega

theorem shiftIdx_inj {k i j : Nat} (h : shiftIdx k i = shiftIdx k j) : i = j := by
  unfold shiftIdx at h; split_ifs at h <;> omega

theorem insertNodeBeforeThis_sym (L : List Node) (k : Nat) (bp : Node) (hk : k < L.length)
    (hs : LinkSymmetry L) :
    ∃ L4, insertNodeBeforeThis L (k : Int) bp = Except.ok (L4, (k : Int)) ∧ LinkSymmetry L4 := by
  have hK : L[k]? = some L[k] := List.getElem?_eq_getElem hk
  obtain ⟨L4, hok, hlen, hnew, hold⟩ := insertNodeBeforeThis_ok L k bp L[k] hK
  generalize L[k] = K at hK hnew hold
  refine ⟨L4, hok, LinkSymmetry.intro ?_⟩
  intro x y X Y hX hY hn hmv
  have hx : x < L.length + 1 := hlen ▸ (List.getElem?_eq_some_iff.mp hX).1
  have hy : y < L.length + 1 := hlen ▸ (List.getElem?_eq_some_iff.mp hY).1
  rcases shiftIdx_cases k x with h | ⟨i, rfl⟩
  · -- the inserted node: its next is the old node `k`
    rw [h] at hX ⊢; clear h hx
    rw [hnew] at hX; cases hX
    simp only at hn
    have hy1 : y = shiftIdx k k := by simp only [shiftIdx, lt_irrefl, if_false]; omega
    subst hy1
    rw [hold k K hK] at hY; cases hY
    simp
  · have hi : i < L.length := shiftIdx_lt (by omega) hx
    have hN : L[i]? = some L[i] := List.getElem?_eq_getElem hi
    generalize L[i] = N at hN
    rw [hold i N hN] at hX; cases hX
    simp only at hn
    rcases shiftIdx_cases k y with h | ⟨j, rfl⟩
    · rw [h] at hY hn; clear h hy
      rw [hnew] at hY; cases hY
      simp only
      by_cases c : shiftUp (k : Int) K.mPrevNodeId = (shiftIdx k i : Nat)
      · exact c
      · rw [if_neg c] at hn; exact absurd hn (shiftUp_ne k _)
    · have hj : j < L.length := shiftIdx_lt (by omega) hy
      have hM : L[j]? = some L[j] := List.getElem?_eq_getElem hj
      generalize L[j] = M at hM
      rw [hold j M hM] at hY; cases hY
      simp only at hmv ⊢
      by_cases c : shiftUp (k : Int) K.mPrevNodeId = (shiftIdx k i : Nat)
      · rw [if_pos c] at hn
        have := shiftIdx_ne k j; omega
      · rw [if_neg c] at hn
        have hNn : N.mNextNodeId = (j : Int) := (shiftUp_eq_shiftIdx k _ j).mp hn
        have hMp := hs.elim hN hM hNn hmv
        by_cases hjk : j = k
        · subst hjk
          rw [hK] at hM; cases hM
          exact absurd ((shiftUp_eq_shiftIdx j _ i).mpr hMp) c
        · rw [if_neg hjk, hMp]; exact shiftUp_natCast k i

theorem insertNodeAfterThis_sym (L : List Node) (p : Nat) (bp : Node) (hp : p < L.length)
    (hs : LinkSymmetry L) :
    ∃ r, insertNodeAfterThis L (p : Int) bp = Except.ok r ∧ r.2.1 = (p : Int) + 1 ∧
      LinkSymmetry r.1 := by
  have hP : L[p]? = some L[p] := List.getElem?_eq_getElem hp
  obtain ⟨L4, hok, hlen, hnew, hold⟩ := insertNodeAfterThis_ok L p bp L[p] hP
  generalize L[p] = P at hP hnew hold hok
  refine ⟨_, hok, rfl, LinkSymmetry.intro ?_⟩
  simp only
  have hcast : ((p : Int) + 1) = ((p + 1 : Nat) : Int) := by push_cast; rfl
  rw [hcast] at hnew hold
  intro x y X Y hX hY hn hmv
  have hx : x < L.length + 1 := hlen ▸ (List.getElem?_eq_some_iff.mp hX).1
  have hy : y < L.length + 1 := hlen ▸ (List.getElem?_eq_some_iff.mp hY).1
  rcases shiftIdx_cases (p + 1) x with h | ⟨i, rfl⟩
  · rw [h] at hX ⊢; clear h hx
    rw [hnew] at hX; cases hX
    simp only at hn
    by_cases hmove : bp.isMove = true
    · rw [if_pos hmove] at hn; omega
    · rw [if_neg hmove] at hn
      rcases shiftIdx_cases (p + 1) y with h | ⟨j, rfl⟩
      · rw [h] at hn; exact absurd hn (shiftUp_ne (p + 1) _)
      · have hj : j < L.length := shiftIdx_lt (by omega) hy
        have hM : L[j]? = some L[j] := List.getElem?_eq_getElem hj
        generalize L[j] = M at hM
        rw [hold j M hM] at hY; cases hY
        simp only
        rw [if_pos hn, if_neg hmove]
  · have hi : i < L.length := shiftIdx_lt (by omega) hx
    have hN : L[i]? = some L[i] := List.getElem?_eq_getElem hi
    generalize L[i] = N at hN
    rw [hold i N hN] at hX; cases hX
    simp only at hn
    rcases shiftIdx_cases (p + 1) y with h | ⟨j, rfl⟩
    · rw [h] at hY hn; clear h hy
      rw [hnew] at hY; cases hY
      simp only
      by_cases c : i = p
      · subst c; simp [shiftIdx]
      · rw [if_neg c] at hn; exact absurd hn (shiftUp_ne (p + 1) _)
    · have hj : j < L.length := shiftIdx_lt (by omega) hy
      have hM : L[j]? = some L[j] := List.getElem?_eq_getElem hj
      generalize L[j] = M at hM
      rw [hold j M hM] at hY; cases hY
      simp only at hmv ⊢
      by_cases c : i = p
      · rw [if_pos c] at hn
        have := shiftIdx_ne (p + 1) j; omega
      · rw [if_neg c] at hn
        have hNn : N.mNextNodeId = (j : Int) := (shiftUp_eq_shiftIdx (p + 1) _ j).mp hn
        have hMp := hs.elim hN hM hNn hmv
        by_cases c2 : shiftUp ((p + 1 : Nat) : Int) P.mNextNodeId = (shiftIdx (p + 1) j : Nat)
        · have hPn : P.mNextNodeId = (j : Int) := (shiftUp_eq_shiftIdx (p + 1) _ j).mp c2
          have := hs.elim hP hM hPn hmv
          omega
        · rw [if_neg c2, hMp]; exact shiftUp_natCast (p + 1) i

theorem moveAfter_core (m a x y : Nat) (xn yp mn mp an an2 : Int) (hne : m ≠ a)
    (hA2n : an2 = if mp = (a : Int) then mn else an)
    (hn : (if (m : Int) = x then an2 else if (a : Int) = x then (m : Int)
      else if mp = x then mn else xn) = y)
    (s1 : xn = y → yp = x) (s2 : mn = y → yp = m) (s3 : an = y → yp = a)
    (t3 : y = m → yp = mp) :
    (if an2 = (y : Int) then (m : Int) else if (m : Int) = y then (a : Int)
      else if mn = y then mp else yp) = x := by
  by_cases hxm : (m : Int) = x
  · rw [if_pos hxm] at hn; rw [if_pos hn]; exact hxm
  · rw [if_neg hxm] at hn
    by_cases hxa : (a : Int) = x
    · rw [if_pos hxa] at hn
      have hym : y = m := by omega
      have h1 : an2 ≠ y := by
        rw [hA2n]; intro h'
        split_ifs at h' with h
        · have := s2 h'; have := t3 hym; omega
        · have := s3 h'; have := t3 hym; omega
      rw [if_neg h1, if_pos hn]; exact hxa
    · rw [if_neg hxa] at hn
      by_cases hxp : mp = x
      · rw [if_pos hxp] at hn
        have h1 : an2 ≠ y := by
          rw [hA2n]; intro h'
          split_ifs at h' with h
          · omega
          · have := s3 h'; have := s2 hn; omega
        have h2 : (m : Int) ≠ y := by
          intro h'; have := t3 (by omega); have := s2 hn; omega
        rw [if_neg h1, if_neg h2, if_pos hn]; exact hxp
      · rw [if_neg hxp] at hn
        have hyp := s1 hn
        have h1 : an2 ≠ y := by
          rw [hA2n]; intro h'
          split_ifs at h' with h
          · have := s2 h'; omega
          · have := s3 h'; omega
        have h2 : (m : Int) ≠ y := by
          intro h'; have := t3 (by omega); omega
        have h3 : mn ≠ y := by
          intro h'; have := s2 h'; omega
        rw [if_neg h1, if_neg h2, if_neg h3]; exact hyp

theorem moveBefore_core (m b x y : Nat) (xn yp mn mp bpv bp2 : Int) (hne : m ≠ b)
    (hB2 : bp2 = if mn = (b : Int) then mp else bpv)
    (hn : (if bp2 = (x : Int) then (m : Int) else if (m : Int) = x then (b : Int)
      else if mp = x then mn else xn) = y)
    (s1 : xn = y → yp = x) (s2 : mn = y → yp = m)
    (t3 : y = m → yp = mp) (t4 : y = b → yp = bpv) :
    (if (m : Int) = y then bp2 else if (b : Int) = y then (m : Int)
      else if mn = y then mp else yp) = x := by
  by_cases hxb : bp2 = (x : Int)
  · rw [if_pos hxb] at hn; rw [if_pos hn]; exact hxb
  · rw [if_neg hxb] at hn
    by_cases hxm : (m : Int) = x
    · rw [if_pos hxm] at hn
      have h1 : (m : Int) ≠ y := by omega
      rw [if_neg h1, if_pos hn]; exact hxm
    · rw [if_neg hxm] at hn
      by_cases hxp : mp = x
      · rw [if_pos hxp] at hn
        have h1 : (m : Int) ≠ y := by
          intro h'; have := t3 (by omega); have := s2 hn; omega
        have h2 : (b : Int) ≠ y := by
          intro h'
          have : mn = (b : Int) := by omega
          rw [if_pos this] at hB2; omega
        rw [if_neg h1, if_neg h2, if_pos hn]; exact hxp
      · rw [if_neg hxp] at hn
        have hyp := s1 hn
        have h1 : (m : Int) ≠ y := by
          intro h'; have := t3 (by omega); omega
        have h3 : mn ≠ y := by
          intro h'; have := s2 h'; omega
        have h2 : (b : Int) ≠ y := by
          intro h'
          have := t4 (by omega)
          have hmb : mn ≠ (b : Int) := by omega
          rw [if_neg hmb] at hB2; omega
        rw [if_neg h1, if_neg h2, if_neg h3]; exact hyp



theorem moveNodeAfter_ok (L : List Node) (m a : Nat) (M A : Node)
    (hM : L[m]? = some M) (hA : L[a]? = some A) :
    ∃ A2, (setNodePrevId (setNodeNextId L M.mPrevNodeId M.mNextNodeId)
        M.mNextNodeId M.mPrevNodeId)[a]? = some A2 ∧
    moveNodeAfter L m a = Except.ok
      (setNodePrevId
        (setNodePrevAndNextId
          (setNodeNextId
            (setNodePrevId (setNodeNextId L M.mPrevNodeId M.mNextNodeId)
              M.mNextNodeId M.mPrevNodeId)
            a m)
          m a A2.mNextNodeId)
        A2.mNextNodeId m) := by
  have h2 : ∃ A2, (setNodePrevId (setNodeNextId L M.mPrevNodeId M.mNextNodeId)
      M.mNextNodeId M.mPrevNodeId)[a]? = some A2 := by
    have : a < (setNodePrevId (setNodeNextId L M.mPrevNodeId M.mNextNodeId)
        M.mNextNodeId M.mPrevNodeId).length := by
      simp
      exact (List.getElem?_eq_some_iff.mp hA).1
    exact ⟨_, List.getElem?_eq_getElem this⟩
  obtain ⟨A2, hA2⟩ := h2
  refine ⟨A2, hA2, ?_⟩
  simp only [moveNodeAfter, nodeAt_of_getElem? hM, nodeAt_of_getElem? hA, nodeAt_of_getElem? hA2,
    bind, Except.bind, pure, Except.pure, Node.getPrevNodeId, Node.getNextNodeId]

theorem moveNodeBefore_ok (L : List Node) (m b : Nat) (M B : Node)
    (hM : L[m]? = some M) (hB : L[b]? = some B) :
    ∃ B2, (setNodePrevId (setNodeNextId L M.mPrevNodeId M.mNextNodeId)
        M.mNextNodeId M.mPrevNodeId)[b]? = some B2 ∧
    moveNodeBefore L m b = Except.ok
      (setNodeNextId
        (setNodePrevAndNextId
          (setNodePrevId
            (setNodePrevId (setNodeNextId L M.mPrevNodeId M.mNextNodeId)
              M.mNextNodeId M.mPrevNodeId)
            b m)
          m B2.mPrevNodeId b)
        B2.mPrevNodeId m) := by
  have h2 : ∃ B2, (setNodePrevId (setNodeNextId L M.mPrevNodeId M.mNextNodeId)
      M.mNextNodeId M.mPrevNodeId)[b]? = some B2 := by
    have : b < (setNodePrevId (setNodeNextId L M.mPrevNodeId M.mNextNodeId)
        M.mNextNodeId M.mPrevNodeId).length := by
      simp
      exact (List.getElem?_eq_some_iff.mp hB).1
    exact ⟨_, List.getElem?_eq_getElem this⟩
  obtain ⟨B2, hB2⟩ := h2
  refine ⟨B2, hB2, ?_⟩
  simp only [moveNodeBefore, nodeAt_of_getElem? hM, nodeAt_of_getElem? hB, nodeAt_of_getElem? hB2,
    bind, Except.bind, pure, Except.pure, Node.getPrevNodeId, Node.getNextNodeId]

theorem moveNodeAfter_sym (L : List Node) (m a : Nat) (hm : m < L.length) (ha : a < L.length)
    (hne : m ≠ a) (hs : LinkSymmetry L) :
    ∃ L1, moveNodeAfter L m a = Except.ok L1 ∧ LinkSymmetry L1 := by
  have hM : L[m]? = some L[m] := List.getElem?_eq_getElem hm
  have hA : L[a]? = some L[a] := List.getElem?_eq_getElem ha
  generalize L[m] = M at hM
  generalize L[a] = A at hA
  obtain ⟨A2, hA2, hok⟩ := moveNodeAfter_ok L m a M A hM hA
  refine ⟨_, hok, ?_⟩
  have hA2n := nextAt_of_getElem? hA2
  clear hok hA2
  intro x hx y hy
  simp only [length_setNodePrevId, length_setNodeNextId, length_setNodePrevAndNextId] at hx hy
  have hX : L[x]? = some L[x] := List.getElem?_eq_getElem hx
  have hY : L[y]? = some L[y] := List.getElem?_eq_getElem hy
  generalize L[x] = X at hX
  generalize L[y] = Y at hY
  have e1 := nextAt_of_getElem? hX
  have e4 := prevAt_of_getElem? hY
  have e5 := nextAt_of_getElem? hM
  have e6 := prevAt_of_getElem? hM
  have e7 := nextAt_of_getElem? hA
  have e9 := typeAt_of_getElem? hY
  simp only [nextAt_setNodePrevId, nextAt_setNodeNextId, nextAt_setNodePrevAndNextId,
    prevAt_setNodePrevId, prevAt_setNodeNextId, prevAt_setNodePrevAndNextId,
    typeAt_setNodePrevId, typeAt_setNodeNextId, typeAt_setNodePrevAndNextId,
    e1, e4, e5, e6, e7, e9, Option.map_some', apply_ite (Option.map _), ite_self,
    ← apply_ite some, Option.some.injEq, ne_eq] at hA2n ⊢
  intro hn hmv
  have t3 : y = m → Y.mPrevNodeId = M.mPrevNodeId := fun h => by
    subst h; rw [hM] at hY; cases hY; rfl
  exact moveAfter_core m a x y X.mNextNodeId Y.mPrevNodeId M.mNextNodeId M.mPrevNodeId
    A.mNextNodeId A2.mNextNodeId hne hA2n.symm hn
    (fun h => hs.elim hX hY h hmv) (fun h => hs.elim hM hY h hmv)
    (fun h => hs.elim hA hY h hmv) t3

theorem moveNodeBefore_sym (L : List Node) (m b : Nat) (hm : m < L.length) (hb : b < L.length)
    (hne : m ≠ b) (hs : LinkSymmetry L) :
    ∃ L1, moveNodeBefore L m b = Except.ok L1 ∧ LinkSymmetry L1 := by
  have hM : L[m]? = some L[m] := List.getElem?_eq_getElem hm
  have hB : L[b]? = some L[b] := List.getElem?_eq_getElem hb
  generalize L[m] = M at hM
  generalize L[b] = B at hB
  obtain ⟨B2, hB2, hok⟩ := moveNodeBefore_ok L m b M B hM hB
  refine ⟨_, hok, ?_⟩
  have hB2p := prevAt_of_getElem? hB2
  clear hok hB2
  intro x hx y hy
  simp only [length_setNodePrevId, length_setNodeNextId, length_setNodePrevAndNextId] at hx hy
  have hX : L[x]? = some L[x] := List.getElem?_eq_getElem hx
  have hY : L[y]? = some L[y] := List.getElem?_eq_getElem hy
  generalize L[x] = X at hX
  generalize L[y] = Y at hY
  have e1 := nextAt_of_getElem? hX
  have e4 := prevAt_of_getElem? hY
  have e5 := nextAt_of_getElem? hM
  have e6 := prevAt_of_getElem? hM
  have e8 := prevAt_of_getElem? hB
  have e9 := typeAt_of_getElem? hY
  simp only [nextAt_setNodePrevId, nextAt_setNodeNextId, nextAt_setNodePrevAndNextId,
    prevAt_setNodePrevId, prevAt_setNodeNextId, prevAt_setNodePrevAndNextId,
    typeAt_setNodePrevId, typeAt_setNodeNextId, typeAt_setNodePrevAndNextId,
    e1, e4, e5, e6, e8, e9, Option.map_some', apply_ite (Option.map _), ite_self,
    ← apply_ite some, Option.some.injEq, ne_eq] at hB2p ⊢
  intro hn hmv
  have t3 : y = m → Y.mPrevNodeId = M.mPrevNodeId := fun h => by
    subst h; rw [hM] at hY; cases hY; rfl
  have t4 : y = b → Y.mPrevNodeId = B.mPrevNodeId := fun h => by
    subst h; rw [hB] at hY; cases hY; rfl
  exact moveBefore_core m b x y X.mNextNodeId Y.mPrevNodeId M.mNextNodeId M.mPrevNodeId
    B.mPrevNodeId B2.mPrevNodeId hne hB2p.symm hn
    (fun h => hs.elim hX hY h hmv) (fun h => hs.elim hM hY h hmv) t3 t4

/-! ## Lemmas on closed loops, splitting and the path compiler -/

theorem IsNormalLoop.node {L : List Node} (h : IsNormalLoop L) {i : Nat} (hi : i < L.length) :
    ∃ N, L[i]? = some N ∧ N.mType = NodeType.NORMAL ∧
      N.mPrevNodeId = (if i = 0 then (L.length : Int) - 1 else (i : Int) - 1) ∧
      N.mNextNodeId = (if i + 1 = L.length then 0 else (i : Int) + 1) := by
  obtain ⟨h1, h2, h3⟩ := h.2 i hi
  have hN : L[i]? = some L[i] := List.getElem?_eq_getElem hi
  refine ⟨L[i], hN, ?_, ?_, ?_⟩
  · simpa [typeAt, hN] using h1
  · simpa [prevAt, hN] using h2
  · simpa [nextAt, hN] using h3

theorem firstSegmentNodeLoop_lapB {L : List Node} (h : IsNormalLoop L) :
    ∀ (c : Nat) (N : Node), 1 ≤ c → c < L.length → L[c]? = some N →
      ∀ fuel, c ≤ fuel → firstSegmentNodeLoop L fuel N 0 (c : Int) = Except.ok 0 := by
  intro c
  induction c with
  | zero => intro N h1; omega
  | succ c ih =>
    intro N _ hc hN fuel hfuel
    obtain ⟨N', hN', _, hp, _⟩ := h.node hc
    rw [hN] at hN'; cases hN'
    obtain ⟨fuel, rfl⟩ : ∃ f, fuel = f + 1 := ⟨fuel - 1, by omega⟩
    have hprev : N.mPrevNodeId = (c : Int) := by simp at hp; omega
    unfold firstSegmentNodeLoop
    have h1 : N.hasPreviousNode = true := by simp [Node.hasPreviousNode, hprev]
    simp only [h1, Bool.not_true, Bool.false_eq_true, if_false, Node.getPrevNodeId, hprev]
    have h2 : ¬ ((c : Int) = ((c + 1 : Nat) : Int)) := by omega
    rw [if_neg h2]
    by_cases hc0 : c = 0
    · subst hc0; simp
    · have h3 : ¬ ((c : Int) = 0) := by omega
      rw [if_neg h3]
      obtain ⟨M, hM, hMt, _, _⟩ := h.node (show c < L.length by omega)
      rw [nodeAt_of_getElem? hM]
      have hmv : M.isMove = false := by simp [Node.isMove, hMt]
      simp only [hmv, Bool.false_eq_true, if_false]
      have hmin : min (c : Int) 0 = 0 := by omega
      rw [hmin]
      exact ih M (by omega) (by omega) hM fuel (by omega)

theorem firstSegmentNodeLoop_lapA {L : List Node} (h : IsNormalLoop L) :
    ∀ (c : Nat) (N : Node), c < L.length → L[c]? = some N →
      ∀ fuel, c + L.length ≤ fuel →
        firstSegmentNodeLoop L fuel N (c : Int) (c : Int) = Except.ok 0 := by
  intro c
  induction c with
  | zero =>
    intro N hc hN fuel hfuel
    obtain ⟨N', hN', _, hp, _⟩ := h.node hc
    rw [hN] at hN'; cases hN'
    have hn2 := h.1
    obtain ⟨fuel, rfl⟩ : ∃ f, fuel = f + 1 := ⟨fuel - 1, by omega⟩
    have hprev : N.mPrevNodeId = ((L.length - 1 : Nat) : Int) := by simp at hp; omega
    unfold firstSegmentNodeLoop
    have h1 : N.hasPreviousNode = true := by simp [Node.hasPreviousNode, hprev]
    simp only [h1, Bool.not_true, Bool.false_eq_true, if_false, Node.getPrevNodeId, hprev]
    have h2 : ¬ (((L.length - 1 : Nat) : Int) = ((0 : Nat) : Int)) := by omega
    rw [if_neg h2, if_neg h2]
    obtain ⟨M, hM, hMt, _, _⟩ := h.node (show L.length - 1 < L.length by omega)
    rw [nodeAt_of_getElem? hM]
    have hmv : M.isMove = false := by simp [Node.isMove, hMt]
    simp only [hmv, Bool.false_eq_true, if_false]
    have hmin : min (((L.length - 1 : Nat) : Int)) ((0 : Nat) : Int) = 0 := by omega
    rw [hmin]
    exact firstSegmentNodeLoop_lapB h (L.length - 1) M (by omega) (by omega) hM fuel (by omega)
  | succ c ih =>
    intro N hc hN fuel hfuel
    obtain ⟨N', hN', _, hp, _⟩ := h.node hc
    rw [hN] at hN'; cases hN'
    obtain ⟨fuel, rfl⟩ : ∃ f, fuel = f + 1 := ⟨fuel - 1, by omega⟩
    have hprev : N.mPrevNodeId = (c : Int) := by simp at hp; omega
    unfold firstSegmentNodeLoop
    have h1 : N.hasPreviousNode = true := by simp [Node.hasPreviousNode, hprev]
    simp only [h1, Bool.not_true, Bool.false_eq_true, if_false, Node.getPrevNodeId, hprev]
    have h2 : ¬ ((c : Int) = ((c + 1 : Nat) : Int)) := by omega
    rw [if_neg h2, if_neg h2]
    obtain ⟨M, hM, hMt, _, _⟩ := h.node (show c < L.length by omega)
    rw [nodeAt_of_getElem? hM]
    have hmv : M.isMove = false := by simp [Node.isMove, hMt]
    simp only [hmv, Bool.false_eq_true, if_false]
    have hmin : min (c : Int) ((c + 1 : Nat) : Int) = (c : Int) := by omega
    rw [hmin]
    exact ih M (by omega) hM fuel (by omega)

theorem firstSegmentNode_normalLoop {L : List Node} (h : IsNormalLoop L) (i : Nat)
    (hi : i < L.length) (fuel : Nat) (hfuel : i + L.length ≤ fuel) :
    firstSegmentNode fuel L (i : Int) = Except.ok 0 := by
  obtain ⟨N, hN, _⟩ := h.node hi
  unfold firstSegmentNode
  have h1 : ¬ ((i : Int) < 0) := by omega
  have h2 : ¬ ((i : Int) ≥ (L.length : Int)) := by omega
  rw [if_neg h1, if_neg h2, nodeAt_of_getElem? hN]
  exact firstSegmentNodeLoop_lapA h i N hi hN fuel hfuel

theorem nodeD_of_getElem? {L : List Node} {i : Nat} {N : Node} (h : L[i]? = some N) :
    nodeD L i = N := by
  simp [nodeD, List.getD, h]

theorem gCubicTo_nil (a b : Node) (path : List PathCmd) :
    gCubicTo a b [] path = path ++ [PathCmd.cubicTo a.fC2 b.fC0 b.fP1] := rfl

theorem idsFrom_erase (i n : Nat) (h : i < n) :
    qlistRemoveOne (idsFrom i n) (i : Int) = idsFrom (i + 1) n := by
  unfold idsFrom qlistRemoveOne
  obtain ⟨m, hm⟩ : ∃ m, n - i = m + 1 := ⟨n - i - 1, by omega⟩
  have : n - (i + 1) = m := by omega
  rw [hm, this, List.range'_succ]
  simp

theorem idsFrom_self (n : Nat) : idsFrom n n = [] := by simp [idsFrom]

theorem toSkPathWalk_loop {L : List Node} (h : IsNormalLoop L) (N0 : Node) :
    ∀ (d i : Nat), i + d + 1 = L.length → 1 ≤ i → ∀ fuel, d + 1 ≤ fuel →
      toSkPathWalk L 0 fuel
        ⟨idsFrom i L.length, [], some N0, some (nodeD L (i - 1)),
          [PathCmd.moveTo N0.fP1] ++ (List.range (i - 1)).map (fun j => cubicBetween L j (j + 1)),
          true, false⟩ (i : Int) =
      Except.ok
        ⟨[], [], some N0, some (nodeD L (L.length - 1)),
          [PathCmd.moveTo N0.fP1] ++
            (List.range (L.length - 1)).map (fun j => cubicBetween L j (j + 1)),
          true, false⟩ := by
  intro d
  induction d with
  | zero =>
    intro i hi h1 fuel hfuel
    obtain ⟨fuel, rfl⟩ : ∃ f, fuel = f + 1 := ⟨fuel - 1, by omega⟩
    have hil : i < L.length := by omega
    obtain ⟨N, hN, hNt, _, hNn⟩ := h.node hil
    have hnext : N.mNextNodeId = 0 := by
      rw [hNn]; simp; omega
    unfold toSkPathWalk
    simp only [nodeAt_of_getElem? hN, idsFrom_erase i L.length hil]
    have e1 : N.isDummy = false := by simp [Node.isDummy, hNt]
    have e2 : N.isDissolved = false := by simp [Node.isDissolved, hNt]
    have e3 : N.isMove = false := by simp [Node.isMove, hNt]
    have e4 : N.isNormal = true := by simp [Node.isNormal, hNt]
    have e5 : N.hasNextNode = true := by simp [Node.hasNextNode, hnext]
    simp only [e1, e2, e3, e4, e5, Bool.false_eq_true, if_false, if_true, gCubicTo_nil,
      Node.getNextNodeId, hnext, Bool.not_true]
    have hi1 : i + 1 = L.length := by omega
    have hr : List.range (L.length - 1) = List.range (i - 1) ++ [i - 1] := by
      have : L.length - 1 = (i - 1) + 1 := by omega
      rw [this, List.range_succ]
    have hc : cubicBetween L (i - 1) (i - 1 + 1) =
        PathCmd.cubicTo (nodeD L (i - 1)).fC2 N.fC0 N.fP1 := by
      have : i - 1 + 1 = i := by omega
      rw [this]; simp [cubicBetween, nodeD_of_getElem? hN]
    rw [hi1, idsFrom_self, hr, List.map_append, List.map_singleton, hc]
    have hl : L.length - 1 = i := by omega
    simp [hl, nodeD_of_getElem? hN]
  | succ d ih =>
    intro i hi h1 fuel hfuel
    obtain ⟨fuel, rfl⟩ : ∃ f, fuel = f + 1 := ⟨fuel - 1, by omega⟩
    have hil : i < L.length := by omega
    obtain ⟨N, hN, hNt, _, hNn⟩ := h.node hil
    have hnext : N.mNextNodeId = ((i + 1 : Nat) : Int) := by
      rw [hNn]
      have : ¬ (i + 1 = L.length) := by omega
      simp [this]
    unfold toSkPathWalk
    simp only [nodeAt_of_getElem? hN, idsFrom_erase i L.length hil]
    have e1 : N.isDummy = false := by simp [Node.isDummy, hNt]
    have e2 : N.isDissolved = false := by simp [Node.isDissolved, hNt]
    have e3 : N.isMove = false := by simp [Node.isMove, hNt]
    have e4 : N.isNormal = true := by simp [Node.isNormal, hNt]
    have e5 : N.hasNextNode = true := by
      simp only [Node.hasNextNode, hnext, decide_eq_true_eq]; omega
    have e6 : ¬ (((i + 1 : Nat) : Int) = 0) := by omega
    simp only [e1, e2, e3, e4, e5, e6, Bool.false_eq_true, if_false, if_true, gCubicTo_nil,
      Node.getNextNodeId, hnext, Bool.not_true]
    have hr : List.range (i + 1 - 1) = List.range (i - 1) ++ [i - 1] := by
      have : i + 1 - 1 = (i - 1) + 1 := by omega
      rw [this, List.range_succ]
    have hc : cubicBetween L (i - 1) (i - 1 + 1) =
        PathCmd.cubicTo (nodeD L (i - 1)).fC2 N.fC0 N.fP1 := by
      have : i - 1 + 1 = i := by omega
      rw [this]; simp [cubicBetween, nodeD_of_getElem? hN]
    have := ih (i + 1) (by omega) (by omega) fuel (by omega)
    rw [hr, List.map_append, List.map_singleton, hc] at this
    have hN' : nodeD L (i + 1 - 1) = N := by
      have : i + 1 - 1 = i := by omega
      rw [this]; exact nodeD_of_getElem? hN
    rw [hN'] at this
    simpa [List.append_assoc] using this

theorem toSkPath_normalLoop {L : List Node} (h : IsNormalLoop L) (fuel : Nat)
    (hfuel : L.length ≤ fuel) : toSkPath fuel L = Except.ok (loopPath L) := by
  have hn2 := h.1
  obtain ⟨N0, hN0, hNt, hNp, hNn⟩ := h.node (show 0 < L.length by omega)
  obtain ⟨f1, rfl⟩ : ∃ f, fuel = f + 1 := ⟨fuel - 1, by omega⟩
  obtain ⟨f2, rfl⟩ : ∃ f, f1 = f + 1 := ⟨f1 - 1, by omega⟩
  have hids : (List.range L.length).map (fun i => (i : Int)) = idsFrom 0 L.length := by
    simp [idsFrom, List.range_eq_range']
  have hcons : idsFrom 0 L.length = (0 : Int) :: idsFrom 1 L.length := by
    unfold idsFrom
    obtain ⟨m, hm⟩ : ∃ m, L.length - 0 = m + 1 := ⟨L.length - 1, by omega⟩
    have : L.length - 1 = m := by omega
    rw [hm, this, List.range'_succ]
    simp
  have hfirst := firstSegmentNode_normalLoop h 0 (by omega) (f2 + 1 + 1) (by omega)
  simp only [Nat.cast_zero] at hfirst
  have hprev : N0.mPrevNodeId = (L.length : Int) - 1 := by simpa using hNp
  have hnext : N0.mNextNodeId = 1 := by
    rw [hNn]
    have : ¬ (0 + 1 = L.length) := by omega
    simp [this]
  have e1 : N0.isDummy = false := by simp [Node.isDummy, hNt]
  have e2 : N0.isDissolved = false := by simp [Node.isDissolved, hNt]
  have e3 : N0.isMove = false := by simp [Node.isMove, hNt]
  have e4 : N0.isNormal = true := by simp [Node.isNormal, hNt]
  have e5 : N0.hasNextNode = true := by simp [Node.hasNextNode, hnext]
  have e6 : N0.hasPreviousNode = true := by
    simp only [Node.hasPreviousNode, hprev, decide_eq_true_eq]; omega
  have hwalk := toSkPathWalk_loop h N0 (L.length - 2) 1 (by omega) (by omega) (f2 + 1) (by omega)
  have hnd0 : nodeD L 0 = N0 := nodeD_of_getElem? hN0
  simp only [Nat.sub_self, List.range_zero, List.map_nil, List.append_nil, hnd0,
    Nat.cast_one] at hwalk
  have hstep : toSkPathWalk L 0 (f2 + 1 + 1)
      ⟨(0 : Int) :: idsFrom 1 L.length, [], none, none, [], false, true⟩ 0 =
      Except.ok ⟨[], [], some N0, some (nodeD L (L.length - 1)),
        [PathCmd.moveTo N0.fP1] ++
          (List.range (L.length - 1)).map (fun j => cubicBetween L j (j + 1)), true, false⟩ := by
    rw [toSkPathWalk]
    have hn0 : nodeAt L 0 = Except.ok N0 := by
      have := nodeAt_of_getElem? hN0; simpa using this
    simp only [hn0, qlistRemoveOne, List.erase_cons_head, e1, e2, e3, e4, e5, e6,
      Bool.false_eq_true, if_false, if_true, Node.getNextNodeId, hnext, Bool.not_true,
      List.nil_append]
    have : ¬ ((1 : Int) = 0) := by omega
    rw [if_neg this]
    exact hwalk
  unfold toSkPath
  rw [hids, hcons]
  rw [toSkPathLoop]
  simp only [hfirst]
  have hne : ¬ ((0 : Int) = -1) := by omega
  rw [if_neg hne, hstep]
  simp only [List.isEmpty, List.cons_append, List.nil_append, Bool.not_false, if_true,
    gCubicTo_nil]
  rw [toSkPathLoop]
  simp [loopPath, cubicBetween, hnd0]

theorem insertNodeAfter_NONE (self : NodeList) (prevId : Int) (bp : Node) :
    insertNodeAfter self prevId bp Neighbour.NONE =
      (insertNodeAfterThis self.mNodes prevId bp).map
        (fun r => (⟨r.1, self.mPrev, self.mNext⟩, r.2.1)) := by
  unfold insertNodeAfter
  cases insertNodeAfterThis self.mNodes prevId bp <;>
    simp [Neighbour.hasNext, Neighbour.hasPrev, bind, Except.bind, pure, Except.pure, Except.map]

theorem insertNodeBefore_NONE (self : NodeList) (nextId : Int) (bp : Node) :
    insertNodeBefore self nextId bp Neighbour.NONE =
      (insertNodeBeforeThis self.mNodes nextId bp).map
        (fun r => (⟨r.1, self.mPrev, self.mNext⟩, r.2)) := by
  unfold insertNodeBefore
  cases insertNodeBeforeThis self.mNodes nextId bp <;>
    simp [Neighbour.hasNext, Neighbour.hasPrev, bind, Except.bind, pure, Except.pure, Except.map]

theorem splitNode_ok (self : NodeList) (k : Nat) (K : Node) (hK : self.mNodes[k]? = some K) :
    ∃ L4, splitNode self (k : Int) = Except.ok ⟨L4, self.mPrev, self.mNext⟩ ∧
      L4.length = self.mNodes.length + 1 ∧
      L4[k + 1]? = some { (if K.isNormal then { K with fC0 := K.fP1 } else K) with
        mPrevNodeId := (k : Int),
        mNextNodeId := if K.isMove then -1 else shiftUp ((k : Int) + 1) K.mNextNodeId } ∧
      ∀ (i : Nat) (N : Node), self.mNodes[i]? = some N →
        L4[shiftIdx (k + 1) i]? = some
          { (if i = k ∧ K.isNormal then { N with fC2 := N.fP1 } else N) with
            mPrevNodeId :=
              if shiftUp ((k : Int) + 1) K.mNextNodeId = (shiftIdx (k + 1) i : Nat) then
                (if K.isMove then -1 else (k : Int) + 1)
              else shiftUp ((k : Int) + 1) N.mPrevNodeId,
            mNextNodeId := if i = k then (k : Int) + 1
              else shiftUp ((k : Int) + 1) N.mNextNodeId } := by
  obtain ⟨L, ps, ns⟩ := self
  simp only at hK ⊢
  by_cases hnorm : K.isNormal = true
  · have hP : (updateAt L (k : Int) (fun n => { n with fC2 := n.fP1 }))[k]? =
        some { K with fC2 := K.fP1 } := by
      rw [getElem?_updateAt]; simp [hK]
    obtain ⟨L4, hok, hlen, hnew, hold⟩ := insertNodeAfterThis_ok
      (updateAt L (k : Int) (fun n => { n with fC2 := n.fP1 })) k { K with fC0 := K.fP1 }
      { K with fC2 := K.fP1 } hP
    refine ⟨L4, ?_, ?_, ?_, ?_⟩
    · simp only [splitNode, nodeAt_of_getElem? hK, hnorm, if_true, insertNodeAfter_NONE, hok,
        bind, Except.bind, pure, Except.pure, Except.map]
    · simpa using hlen
    · rw [hnew]; simp [hnorm, Node.isMove]
    · intro i N hN
      have hNi : (updateAt L (k : Int) (fun n => { n with fC2 := n.fP1 }))[i]? =
          some (if i = k then { N with fC2 := N.fP1 } else N) := by
        rw [getElem?_updateAt]
        by_cases hik : i = k
        · subst hik; simp [hN]
        · have : ¬ ((k : Int) = (i : Int)) := by omega
          simp [this, hik, hN]
      rw [hold i _ hNi]
      by_cases hik : i = k
      · subst hik; simp [hnorm, Node.isMove]
      · simp [hik, Node.isMove]
  · have hnorm' : K.isNormal = false := by simpa using hnorm
    obtain ⟨L4, hok, hlen, hnew, hold⟩ := insertNodeAfterThis_ok L k K K hK
    refine ⟨L4, ?_, hlen, ?_, ?_⟩
    · simp only [splitNode, nodeAt_of_getElem? hK, hnorm', Bool.false_eq_true, if_false,
        insertNodeAfter_NONE, hok, bind, Except.bind, pure, Except.pure, Except.map]
    · rw [hnew]; simp [hnorm']
    · intro i N hN
      rw [hold i N hN]; simp [hnorm']

theorem splitNode_normalLoop (self : NodeList) (k : Nat) (h : IsNormalLoop self.mNodes)
    (hk : k < self.mNodes.length) :
    ∃ L4 K, self.mNodes[k]? = some K ∧
      splitNode self (k : Int) = Except.ok ⟨L4, self.mPrev, self.mNext⟩ ∧
      L4.length = self.mNodes.length + 1 ∧ IsNormalLoop L4 ∧
      (∀ i, i ≤ k → (nodeD L4 i).fC0 = (nodeD self.mNodes i).fC0 ∧
        (nodeD L4 i).fP1 = (nodeD self.mNodes i).fP1) ∧
      (∀ i, i < k → (nodeD L4 i).fC2 = (nodeD self.mNodes i).fC2) ∧
      (nodeD L4 k).fC2 = K.fP1 ∧
      (nodeD L4 (k + 1)).fC0 = K.fP1 ∧ (nodeD L4 (k + 1)).fP1 = K.fP1 ∧
      (nodeD L4 (k + 1)).fC2 = K.fC2 ∧
      (∀ i, k < i → i < self.mNodes.length →
        (nodeD L4 (i + 1)).fC0 = (nodeD self.mNodes i).fC0 ∧
        (nodeD L4 (i + 1)).fP1 = (nodeD self.mNodes i).fP1 ∧
        (nodeD L4 (i + 1)).fC2 = (nodeD self.mNodes i).fC2) := by
  obtain ⟨K, hK, hKt, hKp, hKn⟩ := h.node hk
  obtain ⟨L4, hok, hlen, hnew, hold⟩ := splitNode_ok self k K hK
  have hnorm : K.isNormal = true := by simp [Node.isNormal, hKt]
  have hmv : K.isMove = false := by simp [Node.isMove, hKt]
  simp only [hnorm, hmv, if_true, Bool.false_eq_true, if_false, and_true] at hnew hold
  have hn2 := h.1
  refine ⟨L4, K, hK, hok, hlen, ⟨by omega, ?_⟩, ?_, ?_, ?_, ?_, ?_, ?_, ?_⟩
  · intro x hx
    rw [hlen] at hx ⊢
    rcases shiftIdx_cases (k + 1) x with hxk | ⟨i, rfl⟩
    · rw [hxk]
      simp only [typeAt, prevAt, nextAt, hnew, Option.map_some', hKt, hKn, true_and]
      constructor
      · congr 1; simp
      · congr 1; simp only [shiftUp]; push_cast; split_ifs <;> omega
    · have hi : i < self.mNodes.length := shiftIdx_lt (by omega) hx
      obtain ⟨N, hN, hNt, hNp, hNn⟩ := h.node hi
      simp only [typeAt, prevAt, nextAt, hold i N hN, Option.map_some', hKn, hNp, hNn]
      refine ⟨?_, ?_, ?_⟩
      · split_ifs <;> simp [hNt]
      · simp only [Option.some.injEq, shiftUp, shiftIdx]
        push_cast; split_ifs <;> first | omega | contradiction
      · simp only [Option.some.injEq, shiftUp, shiftIdx]
        push_cast; split_ifs <;> omega
  · intro i hik
    have hi : i < self.mNodes.length := by omega
    have hN : self.mNodes[i]? = some self.mNodes[i] := List.getElem?_eq_getElem hi
    have hsi : shiftIdx (k + 1) i = i := by simp [shiftIdx]; omega
    have := hold i _ hN
    rw [hsi] at this
    rw [nodeD_of_getElem? this, nodeD_of_getElem? hN]
    split_ifs <;> simp
  · intro i hik
    have hi : i < self.mNodes.length := by omega
    have hN : self.mNodes[i]? = some self.mNodes[i] := List.getElem?_eq_getElem hi
    have hsi : shiftIdx (k + 1) i = i := by simp [shiftIdx]; omega
    have := hold i _ hN
    rw [hsi] at this
    rw [nodeD_of_getElem? this, nodeD_of_getElem? hN]
    have : i ≠ k := by omega
    simp [this]
  · have hsi : shiftIdx (k + 1) k = k := by simp [shiftIdx]
    have := hold k K hK
    rw [hsi] at this
    rw [nodeD_of_getElem? this]
    simp
  · rw [nodeD_of_getElem? hnew]
  · rw [nodeD_of_getElem? hnew]
  · rw [nodeD_of_getElem? hnew]
  · intro i hki hi
    have hN : self.mNodes[i]? = some self.mNodes[i] := List.getElem?_eq_getElem hi
    have hsi : shiftIdx (k + 1) i = i + 1 := by simp [shiftIdx]; omega
    have := hold i _ hN
    rw [hsi] at this
    rw [nodeD_of_getElem? this, nodeD_of_getElem? hN]
    have : i ≠ k := by omega
    simp [this]

theorem loopPath_eq_map (L : List Node) (hn : 1 ≤ L.length) :
    loopPath L = (List.range (L.length + 2)).map (loopCmd L) := by
  obtain ⟨m, hm⟩ : ∃ m, L.length = m + 1 := ⟨L.length - 1, by omega⟩
  unfold loopPath
  rw [hm, List.range_succ, List.range_succ, List.range_succ_eq_map]
  simp only [List.map_append, List.map_cons, List.map_nil, List.map_map, Nat.add_sub_cancel,
    List.cons_append, List.nil_append, List.append_assoc]
  have e0 : loopCmd L 0 = PathCmd.moveTo (nodeD L 0).fP1 := by simp [loopCmd]
  have e1 : loopCmd L (m + 1) = cubicBetween L m 0 := by
    simp [loopCmd, hm]
  have e2 : loopCmd L (m + 1 + 1) = PathCmd.close := by
    simp [loopCmd, hm]
  have e3 : (List.range m).map (loopCmd L ∘ Nat.succ) =
      (List.range m).map (fun j => cubicBetween L j (j + 1)) := by
    apply List.map_congr_left
    intro j hj
    have hj' : j < m := List.mem_range.mp hj
    have : j + 1 < L.length := by omega
    simp [loopCmd, this]
  rw [e0, e1, e2, e3]

theorem getElem?_take_cons_drop {α : Type} (X : List α) (k : Nat) (hk : k ≤ X.length) (c : α)
    (i : Nat) :
    (X.take k ++ c :: X.drop k)[i]? =
      if i < k then X[i]? else if i = k then some c else X[i - 1]? := by
  have hlen : (List.take k X).length = k := by simp [hk]
  by_cases h1 : i < k
  · rw [if_pos h1, List.getElem?_append_left (by omega)]
    simp [List.getElem?_take, h1]
  · rw [if_neg h1, List.getElem?_append_right (by omega), hlen]
    by_cases h2 : i = k
    · subst h2; simp
    · rw [if_neg h2]
      obtain ⟨j, hj⟩ : ∃ j, i - k = j + 1 := ⟨i - k - 1, by omega⟩
      rw [hj, List.getElem?_cons_succ, List.getElem?_drop]
      congr 1; omega

theorem map_range_insert {α : Type} (f g : Nat → α) (c : α) (m k : Nat) (hk : k ≤ m)
    (h1 : ∀ j, j < k → f j = g j) (h2 : f k = c) (h3 : ∀ j, k ≤ j → j < m → f (j + 1) = g j) :
    (List.range (m + 1)).map f =
      ((List.range m).map g).take k ++ c :: ((List.range m).map g).drop k := by
  apply List.ext_getElem?
  intro i
  rw [getElem?_take_cons_drop _ k (by simpa using hk)]
  simp only [List.getElem?_map, List.getElem?_range']
  by_cases c1 : i < k
  · have e1 : (List.range (m + 1))[i]? = some i := by
      rw [List.getElem?_range]; omega
    have e2 : (List.range m)[i]? = some i := by
      rw [List.getElem?_range]; omega
    simp [c1, e1, e2, h1 i c1]
  · by_cases c2 : i = k
    · subst c2
      have e1 : (List.range (m + 1))[i]? = some i := by
        rw [List.getElem?_range]; omega
      simp [e1, h2]
    · by_cases c3 : i < m + 1
      · have e1 : (List.range (m + 1))[i]? = some i := by
          rw [List.getElem?_range]; omega
        have e2 : (List.range m)[i - 1]? = some (i - 1) := by
          rw [List.getElem?_range]; omega
        have := h3 (i - 1) (by omega) (by omega)
        have hi : i - 1 + 1 = i := by omega
        rw [hi] at this
        simp [c1, c2, e1, e2, this]
      · have e1 : (List.range (m + 1))[i]? = none := by
          rw [List.getElem?_eq_none]; simp; omega
        have e2 : (List.range m)[i - 1]? = none := by
          rw [List.getElem?_eq_none]; simp; omega
        simp [c1, c2, e1, e2]

theorem loopPath_splitNode (self : NodeList) (k : Nat) (h : IsNormalLoop self.mNodes)
    (hk : k < self.mNodes.length) :
    ∃ L4, splitNode self (k : Int) = Except.ok ⟨L4, self.mPrev, self.mNext⟩ ∧
      L4.length = self.mNodes.length + 1 ∧ IsNormalLoop L4 ∧
      loopPath L4 = (loopPath self.mNodes).take (k + 1) ++
        PathCmd.cubicTo (nodeD self.mNodes k).fP1 (nodeD self.mNodes k).fP1
          (nodeD self.mNodes k).fP1 :: (loopPath self.mNodes).drop (k + 1) := by
  obtain ⟨L4, K, hK, hok, hlen, hloop, g1, g2, g3, g4, g5, g6, g7⟩ :=
    splitNode_normalLoop self k h hk
  refine ⟨L4, hok, hlen, hloop, ?_⟩
  have hn2 := h.1
  rw [loopPath_eq_map L4 (by omega), loopPath_eq_map self.mNodes (by omega), hlen,
    nodeD_of_getElem? hK]
  apply map_range_insert _ _ _ _ _ (by omega)
  · -- commands up to the one arriving at node `k`
    intro j hj
    unfold loopCmd
    by_cases hj0 : j = 0
    · simp [hj0, (g1 0 (by omega)).2]
    · have c1 : j < L4.length := by omega
      have c2 : j < self.mNodes.length := by omega
      simp only [hj0, if_false, c1, c2, if_true, cubicBetween]
      rw [(g1 j (by omega)).1, (g1 j (by omega)).2, g2 (j - 1) (by omega)]
  · -- the seam
    unfold loopCmd
    have c1 : k + 1 < L4.length := by omega
    simp only [Nat.succ_ne_zero, if_false, c1, if_true, cubicBetween, Nat.add_sub_cancel, g3, g4,
      g5]
  · -- commands after the seam
    intro j hj1 hj2
    have hj0 : j ≠ 0 := by omega
    have gC2 : j ≤ self.mNodes.length →
        (nodeD L4 j).fC2 = (nodeD self.mNodes (j - 1)).fC2 := by
      intro hjn
      by_cases hjk : j = k + 1
      · subst hjk
        rw [g6, Nat.add_sub_cancel, nodeD_of_getElem? hK]
      · have := (g7 (j - 1) (by omega) (by omega)).2.2
        have hj' : j - 1 + 1 = j := by omega
        rw [hj'] at this; exact this
    unfold loopCmd
    simp only [Nat.succ_ne_zero, if_false, hj0, hlen, Nat.add_sub_cancel, add_lt_add_iff_right,
      add_left_inj, cubicBetween]
    by_cases c1 : j < self.mNodes.length
    · simp only [c1, if_true]
      rw [gC2 (by omega), (g7 j (by omega) c1).1, (g7 j (by omega) c1).2.1]
    · simp only [c1, if_false]
      by_cases c2 : j = self.mNodes.length
      · simp only [c2, if_true]
        rw [← c2, gC2 (by omega), (g1 0 (by omega)).1, (g1 0 (by omega)).2]
      · simp [c2]

/-! ## Lemmas on promotion of the three-node segment -/

theorem updateAt_zero (a : Node) (l : List Node) (f : Node → Node) :
    updateAt (a :: l) 0 f = f a :: l := by simp [updateAt]

theorem updateAt_one (a b : Node) (l : List Node) (f : Node → Node) :
    updateAt (a :: b :: l) 1 f = a :: f b :: l := by simp [updateAt]

theorem updateAt_two (a b c : Node) (l : List Node) (f : Node → Node) :
    updateAt (a :: b :: c :: l) 2 f = a :: b :: f c :: l := by simp [updateAt]

theorem nodeAt_one (a b : Node) (l : List Node) : nodeAt (a :: b :: l) 1 = Except.ok b := by
  simp [nodeAt]

theorem map_ok {α β : Type} (a : α) (f : α → β) :
    Except.map f (Except.ok a : Except Err α) = Except.ok (f a) := rfl

theorem bind_ok {α β : Type} (a : α) (f : α → Except Err β) : (Except.ok a >>= f) = f a := rfl

theorem gMapTToFragment_zero_one (t : ℚ) : gMapTToFragment 0 1 t = t := by
  simp [gMapTToFragment]

theorem toSkPath_openSegment3 (p d n : Node) (fuel : Nat) :
    toSkPath (fuel + 3) (openSegment3 p d n) = Except.ok (splitPath p n d.fT) := by
  have h : toSkPath (fuel + 3) (openSegment3 p d n) =
      Except.ok (splitPath p n (gMapTToFragment 0 1 d.fT)) := rfl
  rw [h, gMapTToFragment_zero_one]

theorem promote_openSegment3 (p d n : Node) (fuel : Nat) :
    promoteDissolvedNodeToNormal (fuel + 3) (openSegment3 p d n) 1 =
      Except.ok (promotedSegment3 p d n) := by
  have h1 : nodeAt (openSegment3 p d n) 1 =
      Except.ok { d with mType := NodeType.DISSOLVED, mPrevNodeId := 0, mNextNodeId := 2 } := rfl
  have h2 : prevNormalId (fuel + 3) (openSegment3 p d n) 1 = Except.ok 0 := rfl
  have h3 : nextNormalId (fuel + 3) (openSegment3 p d n) 1 = Except.ok 2 := rfl
  have h4 : nodeAt (openSegment3 p d n) 0 =
      Except.ok { p with mType := NodeType.NORMAL, mPrevNodeId := -1, mNextNodeId := 1 } := rfl
  have h5 : nodeAt (openSegment3 p d n) 2 =
      Except.ok { n with mType := NodeType.NORMAL, mPrevNodeId := 1, mNextNodeId := -1 } := rfl
  have h6 : idRange (0 + 1) 1 = [] := by decide
  have h7 : idRange (1 + 1) 2 = [] := by decide
  unfold promoteDissolvedNodeToNormal
  rw [h1, bind_ok, h2, bind_ok, h3, bind_ok, h4, bind_ok, h5, bind_ok]
  simp only [openSegment3, updateAt_zero, updateAt_one, updateAt_two, setNodeType, nodeAt_one,
    map_ok, bind_ok, h6, h7, List.foldl_nil, Node.setType]
  rfl

theorem toSkPath_promotedSegment3 (p d n : Node) (fuel : Nat) :
    toSkPath (fuel + 3) (promotedSegment3 p d n) = Except.ok (splitPath p n d.fT) := by
  rfl

/-! ## Lemmas on promotion in general -/

theorem prevNormalIdLoop_found (L : List Node) :
    ∀ (fuel : Nat) (c : Node) (r : Int), prevNormalIdLoop L fuel c = Except.ok r →
      r = -1 ∨ ∃ N, nodeAt L r = Except.ok N ∧ N.mType = NodeType.NORMAL := by
  intro fuel
  induction fuel with
  | zero => intro c r h; simp [prevNormalIdLoop] at h
  | succ f ih =>
    intro c r h
    unfold prevNormalIdLoop at h
    by_cases hp : c.hasPreviousNode = true
    · simp only [hp, if_true] at h
      cases hn : nodeAt L c.getPrevNodeId with
      | error e => simp [hn] at h
      | ok node =>
        simp only [hn] at h
        by_cases hnorm : node.isNormal = true
        · simp only [hnorm, if_true] at h
          cases h
          exact Or.inr ⟨node, hn, by simpa [Node.isNormal] using hnorm⟩
        · simp only [hnorm, if_false] at h
          exact ih node r h
    · simp only [hp, if_false] at h
      cases h
      exact Or.inl rfl

theorem nextNormalIdLoop_found (L : List Node) :
    ∀ (fuel : Nat) (c : Node) (r : Int), nextNormalIdLoop L fuel c = Except.ok r →
      r = -1 ∨ ∃ N, nodeAt L r = Except.ok N ∧ N.mType = NodeType.NORMAL := by
  intro fuel
  induction fuel with
  | zero => intro c r h; simp [nextNormalIdLoop] at h
  | succ f ih =>
    intro c r h
    unfold nextNormalIdLoop at h
    by_cases hp : c.hasNextNode = true
    · simp only [hp, if_true] at h
      cases hn : nodeAt L c.getNextNodeId with
      | error e => simp [hn] at h
      | ok node =>
        simp only [hn] at h
        by_cases hnorm : node.isNormal = true
        · simp only [hnorm, if_true] at h
          cases h
          exact Or.inr ⟨node, hn, by simpa [Node.isNormal] using hnorm⟩
        · simp only [hnorm, if_false] at h
          exact ih node r h
    · simp only [hp, if_false] at h
      cases h
      exact Or.inl rfl

theorem nodeAt_ok_natCast {L : List Node} {i : Nat} {N : Node}
    (h : nodeAt L (i : Int) = Except.ok N) : L[i]? = some N := by
  have := (nodeAt_eq_ok h).2
  simpa using this

theorem getElem?_foldl_updateAt (h : Node → Node) :
    ∀ (ids : List Int) (l : List Node) (j : Nat),
      (ids.foldl (fun l i => updateAt l i h) l)[j]? =
        (l[j]?).map (fun N => (ids.filter (fun i => i = (j : Int))).foldl (fun N _ => h N) N) := by
  intro ids
  induction ids with
  | nil => intro l j; simp
  | cons i ids ih =>
    intro l j
    rw [List.foldl_cons, ih, getElem?_updateAt]
    by_cases hij : i = (j : Int)
    · cases l[j]? <;> simp [hij, List.filter_cons]
    · cases l[j]? <;> simp [hij, List.filter_cons]



theorem foldl_const_preserves {α β : Type} (h : Node → Node) (f : Node → α)
    (hf : ∀ N, f (h N) = f N) :
    ∀ (ids : List β) (N : Node), f (ids.foldl (fun N _ => h N) N) = f N := by
  intro ids
  induction ids with
  | nil => intro N; rfl
  | cons i ids ih => intro N; rw [List.foldl_cons, ih, hf]

theorem getElem?_updateAt_map (L : List Node) (x : Int) (f : Node → Node) (i : Nat) :
    (updateAt L x f)[i]? = (L[i]?).map (fun N => if x = (i : Int) then f N else N) := by
  rw [getElem?_updateAt]
  split_ifs <;> simp

theorem foldl_remap_preserves {α β : Type} (g : ℚ → ℚ) (f : Node → α)
    (hf : ∀ (N : Node) (v : ℚ), f { N with fT := v } = f N) :
    ∀ (ids : List β) (N : Node),
      f (ids.foldl (fun N _ => if N.isDissolved = true then { N with fT := g N.fT } else N) N) =
        f N := by
  intro ids
  induction ids with
  | nil => intro N; rfl
  | cons i ids ih =>
    intro N
    rw [List.foldl_cons, ih]
    split_ifs
    · exact hf N _
    · rfl

theorem promote_eq_writes (L : List Node) (fuel : Nat) (d p n : Nat) (D P N : Node)
    (hD : L[d]? = some D) (hP : L[p]? = some P) (hN : L[n]? = some N)
    (hp : prevNormalId fuel L d = Except.ok (p : Int))
    (hn : nextNormalId fuel L d = Except.ok (n : Int)) (hdp : d ≠ p) (hdn : d ≠ n) :
    promoteDissolvedNodeToNormal fuel L d = Except.ok (promoteWrites L d p n D.fT
      ((gSegmentFromNodes P N).dividedAtT D.fT).1 ((gSegmentFromNodes P N).dividedAtT D.fT).2) := by
  have h1 : ¬ ((p : Int) = (d : Int)) := by omega
  have h2 : ¬ ((n : Int) = (d : Int)) := by omega
  have hD6 : (updateAt (setNodeType (updateAt (updateAt (updateAt (updateAt L (p : Int)
      (fun n => { n with fC2 := ((gSegmentFromNodes P N).dividedAtT D.fT).1.c1 })) (d : Int)
      (fun n => { n with fC0 := ((gSegmentFromNodes P N).dividedAtT D.fT).1.c2 })) (d : Int)
      (fun n => { n with fP1 := ((gSegmentFromNodes P N).dividedAtT D.fT).1.p1 })) (d : Int)
      (fun n => { n with fC2 := ((gSegmentFromNodes P N).dividedAtT D.fT).2.c1 })) (d : Int)
      NodeType.NORMAL) (n : Int)
      (fun n => { n with fC0 := ((gSegmentFromNodes P N).dividedAtT D.fT).2.c2 }))[d]? =
      some { D with fC0 := ((gSegmentFromNodes P N).dividedAtT D.fT).1.c2,
                    fP1 := ((gSegmentFromNodes P N).dividedAtT D.fT).1.p1,
                    fC2 := ((gSegmentFromNodes P N).dividedAtT D.fT).2.c1,
                    mType := NodeType.NORMAL } := by
    simp only [setNodeType, getElem?_updateAt, h1, h2, if_false, if_true, hD, Option.map_some',
      Node.setType]
  unfold promoteDissolvedNodeToNormal
  rw [nodeAt_of_getElem? hD, bind_ok, hp, bind_ok, hn, bind_ok, nodeAt_of_getElem? hP, bind_ok,
    nodeAt_of_getElem? hN, bind_ok]
  simp only []
  rw [nodeAt_of_getElem? hD6, map_ok, bind_ok]
  rfl

theorem promoteWrites_view (L : List Node) (d p n : Nat) (D P N : Node)
    (hdp : d ≠ p) (hdn : d ≠ n) :
      ∀ (j : Nat) (X : Node), L[j]? = some X → ∃ X1, (promoteWrites L d p n D.fT
          ((gSegmentFromNodes P N).dividedAtT D.fT).1
          ((gSegmentFromNodes P N).dividedAtT D.fT).2)[j]? = some X1 ∧
        X1.mPrevNodeId = X.mPrevNodeId ∧ X1.mNextNodeId = X.mNextNodeId ∧
        X1.fP1 = (if j = d then ((gSegmentFromNodes P N).dividedAtT D.fT).1.p1 else X.fP1) ∧
        X1.fC0 = (if j = n then ((gSegmentFromNodes P N).dividedAtT D.fT).2.c2
          else if j = d then ((gSegmentFromNodes P N).dividedAtT D.fT).1.c2 else X.fC0) ∧
        X1.fC2 = (if j = d then ((gSegmentFromNodes P N).dividedAtT D.fT).2.c1
          else if j = p then ((gSegmentFromNodes P N).dividedAtT D.fT).1.c1 else X.fC2) ∧
        X1.mType = (if j = d then NodeType.NORMAL else X.mType) := by
  intro j X hX
  have c1 : ((p : Int) = (j : Int)) ↔ j = p := by omega
  have c2 : ((d : Int) = (j : Int)) ↔ j = d := by omega
  have c3 : ((n : Int) = (j : Int)) ↔ j = n := by omega
  simp only [promoteWrites, getElem?_foldl_updateAt, setNodeType, getElem?_updateAt_map, hX,
    Option.map_some', c1, c2, c3]
  refine ⟨_, rfl, ?_⟩
  simp only [foldl_remap_preserves _ Node.mPrevNodeId (fun _ _ => rfl),
    foldl_remap_preserves _ Node.mNextNodeId (fun _ _ => rfl),
    foldl_remap_preserves _ Node.fP1 (fun _ _ => rfl),
    foldl_remap_preserves _ Node.fC0 (fun _ _ => rfl),
    foldl_remap_preserves _ Node.fC2 (fun _ _ => rfl),
    foldl_remap_preserves _ Node.mType (fun _ _ => rfl)]
  clear c1 c2 c3
  by_cases hjd : j = d
  · subst hjd
    simp [hdp, hdn, Node.setType]
  · by_cases hjp : j = p
    · subst hjp
      by_cases hjn : j = n
      · subst hjn
        simp [hjd, Node.setType]
      · simp [hjd, hjn, Node.setType]
    · by_cases hjn : j = n
      · subst hjn
        simp [hjd, hjp, Node.setType]
      · simp [hjd, hjp, hjn, Node.setType]

/-! ## Lemmas on `firstSegmentNode` and the walk along the previous links -/

theorem prevStep_eq_some {L : List Node} {c p : Nat} :
    prevStep L c = some p ↔ ∃ C, L[c]? = some C ∧ C.mPrevNodeId = (p : Int) := by
  unfold prevStep
  cases hC : L[c]? with
  | none => simp
  | some C =>
    simp only [Option.some.injEq, exists_eq_left']
    by_cases h : 0 ≤ C.mPrevNodeId
    · rw [if_pos h]
      simp only [Option.some.injEq]
      omega
    · rw [if_neg h]
      constructor
      · intro h1; cases h1
      · intro h1; omega

theorem prevStep_eq_none {L : List Node} {c : Nat} {C : Node} (hC : L[c]? = some C) :
    prevStep L c = none ↔ C.mPrevNodeId < 0 := by
  unfold prevStep
  rw [hC]
  by_cases h : 0 ≤ C.mPrevNodeId
  · simp [h]
  · simp only [h, if_false, true_iff]
    omega

theorem firstLoop_end {L : List Node} {C : Node} (h : C.mPrevNodeId < 0) (f : Nat) (s c : Int) :
    firstSegmentNodeLoop L (f + 1) C s c = Except.ok c := by
  unfold firstSegmentNodeLoop
  have : C.hasPreviousNode = false := by
    simp only [Node.hasPreviousNode, decide_eq_false_iff_not]; omega
  simp [this]

theorem firstLoop_min {L : List Node} {C : Node} {s c : Int} (h0 : 0 ≤ s)
    (h : C.mPrevNodeId = s) (hne : s ≠ c) (f : Nat) :
    firstSegmentNodeLoop L (f + 1) C s c = Except.ok s := by
  unfold firstSegmentNodeLoop
  have : C.hasPreviousNode = true := by
    simp only [Node.hasPreviousNode, decide_eq_true_eq]; omega
  simp [this, Node.getPrevNodeId, h, hne]

theorem firstLoop_step {L : List Node} {C P : Node} {s c : Int} {p : Nat}
    (h : C.mPrevNodeId = (p : Int)) (hc : (p : Int) ≠ c) (hs : (p : Int) ≠ s)
    (hP : L[p]? = some P) (hm : P.isMove = false) (f : Nat) :
    firstSegmentNodeLoop L (f + 1) C s c =
      firstSegmentNodeLoop L f P (min (p : Int) s) (p : Int) := by
  conv_lhs => unfold firstSegmentNodeLoop
  have : C.hasPreviousNode = true := by
    simp only [Node.hasPreviousNode, decide_eq_true_eq]; omega
  simp [this, Node.getPrevNodeId, h, hc, hs, nodeAt_of_getElem? hP, hm]

/-! Facts on the walk along the previous links -/

theorem prevWalk_add (L : List Node) (n i : Nat) :
    ∀ j, prevWalk L n (i + j) = (prevWalk L n i).bind (fun c => prevWalk L c j) := by
  intro j
  induction j with
  | zero => simp [prevWalk]
  | succ j ih =>
    rw [← Nat.add_assoc]
    show (prevWalk L n (i + j)).bind (prevStep L) = _
    rw [ih]
    cases prevWalk L n i with
    | none => rfl
    | some c => rfl

theorem prevWalk_shift {L : List Node} {n a b : Nat}
    (h : prevWalk L n a = prevWalk L n b) (x : Nat) :
    prevWalk L n (a + x) = prevWalk L n (b + x) := by
  rw [prevWalk_add, prevWalk_add, h]

theorem prevWalk_succ_some {L : List Node} {n i c : Nat} (h : prevWalk L n (i + 1) = some c) :
    ∃ b, prevWalk L n i = some b ∧ prevStep L b = some c := by
  have h1 : (prevWalk L n i).bind (prevStep L) = some c := h
  cases hb : prevWalk L n i with
  | none => rw [hb] at h1; simp at h1
  | some b => rw [hb] at h1; exact ⟨b, rfl, h1⟩

theorem prevWalk_defined_le {L : List Node} {n : Nat} :
    ∀ (j : Nat) (c : Nat), prevWalk L n j = some c → ∀ i ≤ j, ∃ b, prevWalk L n i = some b := by
  intro j
  induction j with
  | zero =>
    intro c _ i hi
    have : i = 0 := by omega
    subst this
    exact ⟨n, rfl⟩
  | succ j ih =>
    intro c h i hi
    by_cases hij : i = j + 1
    · subst hij; exact ⟨c, h⟩
    · obtain ⟨b, hb, _⟩ := prevWalk_succ_some h
      exact ih b hb i (by omega)

theorem prevStep_lt {L : List Node} (hr : LinksInRange L) {c p : Nat}
    (h : prevStep L c = some p) : p < L.length := by
  obtain ⟨C, hC, hp⟩ := prevStep_eq_some.mp h
  have hmem : C ∈ L := by
    obtain ⟨hlt, he⟩ := List.getElem?_eq_some_iff.mp hC
    rw [← he]
    exact List.getElem_mem hlt
  have := (hr C hmem).1
  omega

theorem prevStep_src_lt {L : List Node} {c p : Nat}
    (h : prevStep L c = some p) : c < L.length := by
  obtain ⟨C, hC, _⟩ := prevStep_eq_some.mp h
  exact (List.getElem?_eq_some_iff.mp hC).1

theorem prevStep_ne {L : List Node} (hs : NoSelfLink L) {c p : Nat}
    (h : prevStep L c = some p) : p ≠ c := by
  obtain ⟨C, hC, hp⟩ := prevStep_eq_some.mp h
  intro e
  subst e
  have hlt := (List.getElem?_eq_some_iff.mp hC).1
  apply hs p hlt
  simp [prevAt, hC, hp]

theorem prevStep_inj {L : List Node} (hr : LinksInRange L) (hb : LinkSymmetryBoth L)
    {a b c : Nat} (ha : prevStep L a = some c) (hbb : prevStep L b = some c) : a = b := by
  have hc := prevStep_lt hr ha
  have ha1 := prevStep_src_lt ha
  have hb1 := prevStep_src_lt hbb
  obtain ⟨A, hA, hpa⟩ := prevStep_eq_some.mp ha
  obtain ⟨B, hB, hpb⟩ := prevStep_eq_some.mp hbb
  have h1 : nextAt L c = some (a : Int) := (hb c hc a ha1).mpr (by simp [prevAt, hA, hpa])
  have h2 : nextAt L c = some (b : Int) := (hb c hc b hb1).mpr (by simp [prevAt, hB, hpb])
  rw [h1] at h2
  injection h2 with h3
  omega

theorem prevWalk_lt {L : List Node} (hr : LinksInRange L) {n : Nat} (hn : n < L.length) :
    ∀ (i c : Nat), prevWalk L n i = some c → c < L.length := by
  intro i
  cases i with
  | zero => intro c h; injection h with h; omega
  | succ i =>
    intro c h
    obtain ⟨b, _, hb⟩ := prevWalk_succ_some h
    exact prevStep_lt hr hb

/-- Backward injectivity gives closedness from any repetition. -/
theorem prevWalk_closed_of_repeat {L : List Node} (hr : LinksInRange L)
    (hb : LinkSymmetryBoth L) {n : Nat} :
    ∀ (i q c : Nat), prevWalk L n i = some c → prevWalk L n (i + q) = some c →
      prevWalk L n q = some n := by
  intro i
  induction i with
  | zero =>
    intro q c h0 hq
    have : n = c := by injection h0
    subst this
    simpa using hq
  | succ i ih =>
    intro q c h0 hq
    obtain ⟨a, ha, hac⟩ := prevWalk_succ_some h0
    have hq1 : prevWalk L n (i + q + 1) = some c := by
      rw [← hq]; congr 1; omega
    obtain ⟨b, hb1, hbc⟩ := prevWalk_succ_some hq1
    have := prevStep_inj hr hb hac hbc
    subst this
    exact ih q a ha hb1

theorem walkMin_attained {L : List Node} {n : Nat} :
    ∀ i, (∃ c, prevWalk L n i = some c) → ∃ j ≤ i, prevWalk L n j = some (walkMin L n i) := by
  intro i
  induction i with
  | zero => intro _; exact ⟨0, le_refl _, rfl⟩
  | succ i ih =>
    rintro ⟨c, hc⟩
    obtain ⟨b, hb, _⟩ := prevWalk_succ_some hc
    obtain ⟨j, hj, hjm⟩ := ih ⟨b, hb⟩
    show ∃ j ≤ i + 1, prevWalk L n j = some (min ((prevWalk L n (i + 1)).getD 0) (walkMin L n i))
    rw [hc]
    simp only [Option.getD_some]
    by_cases hle : c ≤ walkMin L n i
    · rw [min_eq_left hle]; exact ⟨i + 1, le_refl _, hc⟩
    · rw [min_eq_right (by omega)]; exact ⟨j, by omega, hjm⟩

theorem walkMin_le {L : List Node} {n : Nat} :
    ∀ i j c, j ≤ i → prevWalk L n j = some c → walkMin L n i ≤ c := by
  intro i
  induction i with
  | zero =>
    intro j c hj h
    have : j = 0 := by omega
    subst this
    injection h with h
    show n ≤ c
    omega
  | succ i ih =>
    intro j c hj h
    show min ((prevWalk L n (i + 1)).getD 0) (walkMin L n i) ≤ c
    by_cases hji : j = i + 1
    · subst hji
      rw [h]
      exact min_le_left _ _
    · exact le_trans (min_le_right _ _) (ih j c (by omega) h)

theorem noMove_isMove {L : List Node} (hm : NoMoveNode L) {p : Nat} {P : Node}
    (hP : L[p]? = some P) : P.isMove = false := by
  have hmem : P ∈ L := by
    obtain ⟨hlt, he⟩ := List.getElem?_eq_some_iff.mp hP
    rw [← he]
    exact List.getElem_mem hlt
  have := hm P hmem
  simp [Node.isMove, this]

/-- Progress of the loop: as long as no stop condition holds, `T` iterations lead from the
start state to the state at the `T`-th node of the walk. -/
theorem firstLoop_progress {L : List Node} (hm : NoMoveNode L)
    (hs : NoSelfLink L) {n : Nat} {N0 : Node} (hN0 : L[n]? = some N0) :
    ∀ (T : Nat) (cT : Nat) (CT : Node), prevWalk L n T = some cT → L[cT]? = some CT →
      (∀ i < T, prevWalk L n (i + 1) ≠ some (walkMin L n i)) →
      ∀ f, firstSegmentNodeLoop L (f + T) N0 (n : Int) (n : Int) =
        firstSegmentNodeLoop L f CT (walkMin L n T : Nat) (cT : Int) := by
  intro T
  induction T with
  | zero =>
    intro cT CT h0 hCT _ f
    have : n = cT := by injection h0
    subst this
    rw [hN0] at hCT
    injection hCT with hCT
    subst hCT
    rfl
  | succ T ih =>
    intro cT CT hw hCT hno f
    obtain ⟨b, hb, hbc⟩ := prevWalk_succ_some hw
    have hblt := prevStep_src_lt hbc
    have hB : L[b]? = some L[b] := List.getElem?_eq_getElem hblt
    have h1 := ih b L[b] hb hB (fun i hi => hno i (by omega)) (f + 1)
    have e : f + (T + 1) = f + 1 + T := by omega
    rw [e, h1]
    obtain ⟨B, hB2, hpB⟩ := prevStep_eq_some.mp hbc
    rw [hB] at hB2
    injection hB2 with hB2
    rw [← hB2] at hpB
    have hne : cT ≠ b := prevStep_ne hs hbc
    have hmin : cT ≠ walkMin L n T := by
      intro e2
      apply hno T (by omega)
      rw [hw, e2]
    rw [firstLoop_step hpB (by omega) (by omega) hCT (noMove_isMove hm hCT)]
    have hwm : walkMin L n (T + 1) = min cT (walkMin L n T) := by
      show min ((prevWalk L n (T + 1)).getD 0) (walkMin L n T) = _
      rw [hw]; rfl
    rw [hwm]
    congr 1
    push_cast
    rfl

/-- Once the walk returns to its running minimum, that minimum bounds the whole walk. -/
theorem walkMin_global {L : List Node} {n T : Nat}
    (hT : prevWalk L n (T + 1) = some (walkMin L n T)) :
    ∀ j c, prevWalk L n j = some c → walkMin L n T ≤ c := by
  obtain ⟨b, hb, _⟩ := prevWalk_succ_some hT
  obtain ⟨j1, hj1, hj1m⟩ := walkMin_attained T ⟨b, hb⟩
  have hper : ∀ x, prevWalk L n (T + 1 + x) = prevWalk L n (j1 + x) :=
    prevWalk_shift (hT.trans hj1m.symm)
  intro j
  induction j using Nat.strong_induction_on with
  | _ j ih =>
    intro c hc
    by_cases hj : j ≤ T
    · exact walkMin_le T j c hj hc
    · have e : j = T + 1 + (j - T - 1) := by omega
      rw [e, hper] at hc
      exact ih (j1 + (j - T - 1)) (by omega) c hc

theorem prevWalk_periodic {L : List Node} {n k : Nat} (hc : prevWalk L n k = some n) :
    ∀ t x, prevWalk L n (x + k * t) = prevWalk L n x := by
  have h1 : ∀ x, prevWalk L n (k + x) = prevWalk L n (0 + x) :=
    prevWalk_shift (hc.trans rfl)
  intro t
  induction t with
  | zero => intro x; rfl
  | succ t ih =>
    intro x
    have e : x + k * (t + 1) = k + (x + k * t) := by ring
    rw [e, h1, Nat.zero_add, ih]

theorem prevWalk_total {L : List Node} {n k : Nat} (hk : 1 ≤ k)
    (hc : prevWalk L n k = some n) : ∀ i, ∃ c, prevWalk L n i = some c := by
  intro i
  induction i using Nat.strong_induction_on with
  | _ i ih =>
    by_cases hi : i ≤ k
    · exact prevWalk_defined_le k n hc i hi
    · have e : i = (i - k) + k * 1 := by omega
      rw [e, prevWalk_periodic hc]
      exact ih (i - k) (by omega)

/-- A walk that is still defined after as many steps as there are nodes has come back to
its start within that many steps. -/
theorem prevWalk_pigeonhole {L : List Node} (hr : LinksInRange L) (hb : LinkSymmetryBoth L)
    {n : Nat} (hn : n < L.length) {c : Nat} (hc : prevWalk L n L.length = some c) :
    ∃ k, 1 ≤ k ∧ k ≤ L.length ∧ prevWalk L n k = some n := by
  have hdef : ∀ i ≤ L.length, ∃ b, prevWalk L n i = some b := prevWalk_defined_le _ _ hc
  have hmaps : ∀ i ∈ Finset.range (L.length + 1),
      (prevWalk L n i).getD 0 ∈ Finset.range L.length := by
    intro i hi
    obtain ⟨b, hb1⟩ := hdef i (by simpa [Nat.lt_succ_iff] using hi)
    rw [hb1]
    simpa using prevWalk_lt hr hn i b hb1
  obtain ⟨i, hi, j, hj, hij, he⟩ := Finset.exists_ne_map_eq_of_card_lt_of_maps_to
    (by simp) hmaps
  have hi1 : i ≤ L.length := by simpa [Nat.lt_succ_iff] using hi
  have hj1 : j ≤ L.length := by simpa [Nat.lt_succ_iff] using hj
  obtain ⟨bi, hbi⟩ := hdef i hi1
  obtain ⟨bj, hbj⟩ := hdef j hj1
  rw [hbi, hbj] at he
  simp only [Option.getD_some] at he
  subst he
  rcases Nat.lt_or_gt_of_ne hij with h | h
  · refine ⟨j - i, by omega, by omega, ?_⟩
    apply prevWalk_closed_of_repeat hr hb i (j - i) bi hbi
    have e : i + (j - i) = j := by omega
    rw [e]; exact hbj
  · refine ⟨i - j, by omega, by omega, ?_⟩
    apply prevWalk_closed_of_repeat hr hb j (i - j) bi hbj
    have e : j + (i - j) = i := by omega
    rw [e]; exact hbi

theorem firstSegmentNode_closed {L : List Node}
    (hm : NoMoveNode L) (hs : NoSelfLink L) {n k : Nat}
    (hn : n < L.length) (hk : 1 ≤ k) (hc : prevWalk L n k = some n) :
    ∃ m, (∃ j, prevWalk L n j = some m) ∧ (∀ j c, prevWalk L n j = some c → m ≤ c) ∧
      ∀ fuel, 2 * k ≤ fuel → firstSegmentNode fuel L (n : Int) = Except.ok (m : Int) := by
  have htot := prevWalk_total hk hc
  obtain ⟨j0, hj0, hj0m⟩ := walkMin_attained (k - 1) (htot (k - 1))
  have hm0 : ∀ j c, prevWalk L n j = some c → walkMin L n (k - 1) ≤ c := by
    intro j
    induction j using Nat.strong_induction_on with
    | _ j ih =>
      intro c hjc
      by_cases hj : j ≤ k - 1
      · exact walkMin_le (k - 1) j c hj hjc
      · have e : j = (j - k) + k * 1 := by omega
        rw [e, prevWalk_periodic hc] at hjc
        exact ih (j - k) (by omega) c hjc
  have hex : ∃ i, prevWalk L n (i + 1) = some (walkMin L n i) := by
    refine ⟨j0 + k - 1, ?_⟩
    have e : j0 + k - 1 + 1 = j0 + k * 1 := by omega
    rw [e, prevWalk_periodic hc, hj0m]
    congr 1
    obtain ⟨j, hj, hjm⟩ := walkMin_attained (j0 + k - 1) (htot _)
    have h1 := hm0 j _ hjm
    have h2 := walkMin_le (j0 + k - 1) j0 _ (by omega) hj0m
    omega
  have hspec := Nat.find_spec hex
  have hmin : ∀ i < Nat.find hex, prevWalk L n (i + 1) ≠ some (walkMin L n i) :=
    fun i hi => Nat.find_min hex hi
  have hle : Nat.find hex ≤ j0 + k - 1 := by
    apply Nat.find_min'
    have e : j0 + k - 1 + 1 = j0 + k * 1 := by omega
    rw [e, prevWalk_periodic hc, hj0m]
    congr 1
    obtain ⟨j, hj, hjm⟩ := walkMin_attained (j0 + k - 1) (htot _)
    have h1 := hm0 j _ hjm
    have h2 := walkMin_le (j0 + k - 1) j0 _ (by omega) hj0m
    omega
  refine ⟨walkMin L n (Nat.find hex), ⟨_, hspec⟩, walkMin_global hspec, ?_⟩
  intro fuel hfuel
  obtain ⟨cT, hcT, hstep⟩ := prevWalk_succ_some hspec
  obtain ⟨CT, hCT, hprev⟩ := prevStep_eq_some.mp hstep
  have hN0 : L[n]? = some L[n] := List.getElem?_eq_getElem hn
  obtain ⟨f, rfl⟩ : ∃ f, fuel = f + 1 + Nat.find hex := ⟨fuel - 1 - Nat.find hex, by omega⟩
  unfold firstSegmentNode
  have h1 : ¬ ((n : Int) < 0) := by omega
  have h2 : ¬ ((n : Int) ≥ (L.length : Int)) := by omega
  rw [if_neg h1, if_neg h2, nodeAt_of_getElem? hN0]
  show firstSegmentNodeLoop L (f + 1 + Nat.find hex) L[n] (n : Int) (n : Int) = _
  rw [firstLoop_progress hm hs hN0 (Nat.find hex) cT CT hcT hCT hmin (f + 1)]
  have hne := prevStep_ne hs hstep
  exact firstLoop_min (by omega) hprev (by omega) f

theorem firstSegmentNode_open {L : List Node} (hr : LinksInRange L) (hb : LinkSymmetryBoth L)
    (hm : NoMoveNode L) (hs : NoSelfLink L) {n : Nat} (hn : n < L.length)
    (hopen : ¬ ∃ k, 1 ≤ k ∧ prevWalk L n k = some n) :
    ∃ K e, prevWalk L n K = some e ∧ prevStep L e = none ∧
      (∀ K1 e1, prevWalk L n K1 = some e1 → prevStep L e1 = none → e1 = e) ∧
      ∀ fuel, L.length ≤ fuel → firstSegmentNode fuel L (n : Int) = Except.ok (e : Int) := by
  have hnone : prevWalk L n L.length = none := by
    cases h : prevWalk L n L.length with
    | none => rfl
    | some c =>
      obtain ⟨k, hk1, _, hk⟩ := prevWalk_pigeonhole hr hb hn h
      exact absurd ⟨k, hk1, hk⟩ hopen
  have hex : ∃ i, prevWalk L n (i + 1) = none := by
    refine ⟨L.length - 1, ?_⟩
    have e : L.length - 1 + 1 = L.length := by omega
    rw [e]; exact hnone
  have hspec := Nat.find_spec hex
  have hle : Nat.find hex ≤ L.length - 1 := by
    apply Nat.find_min'
    have e : L.length - 1 + 1 = L.length := by omega
    rw [e]; exact hnone
  have hdef : ∃ e, prevWalk L n (Nat.find hex) = some e := by
    cases hK : Nat.find hex with
    | zero => exact ⟨n, rfl⟩
    | succ K0 =>
      have h1 := Nat.find_min hex (show K0 < Nat.find hex by omega)
      cases h2 : prevWalk L n (K0 + 1) with
      | none => exact absurd h2 h1
      | some e => exact ⟨e, rfl⟩
  obtain ⟨e, he⟩ := hdef
  have hstop : prevStep L e = none := by
    have h1 : (prevWalk L n (Nat.find hex)).bind (prevStep L) = none := hspec
    rw [he] at h1
    exact h1
  have hnostop : ∀ i < Nat.find hex, prevWalk L n (i + 1) ≠ some (walkMin L n i) := by
    intro i hi h
    obtain ⟨b, hb1, _⟩ := prevWalk_succ_some h
    obtain ⟨j1, hj1, hj1m⟩ := walkMin_attained i ⟨b, hb1⟩
    apply hopen
    refine ⟨i + 1 - j1, by omega, ?_⟩
    apply prevWalk_closed_of_repeat hr hb j1 (i + 1 - j1) _ hj1m
    have e1 : j1 + (i + 1 - j1) = i + 1 := by omega
    rw [e1]; exact h
  refine ⟨Nat.find hex, e, he, hstop, ?_, ?_⟩
  · intro K1 e1 h1 h2
    have h3 : prevWalk L n (K1 + 1) = none := by
      show (prevWalk L n K1).bind (prevStep L) = none
      rw [h1]; exact h2
    have h4 : Nat.find hex ≤ K1 := Nat.find_min' hex h3
    by_cases h5 : K1 = Nat.find hex
    · rw [h5, he] at h1
      injection h1 with h1
      exact h1.symm
    · obtain ⟨b, hb2⟩ := prevWalk_defined_le K1 e1 h1 (Nat.find hex + 1) (by omega)
      rw [hspec] at hb2
      cases hb2
  · intro fuel hfuel
    have helt := prevWalk_lt hr hn _ _ he
    have hE : L[e]? = some L[e] := List.getElem?_eq_getElem helt
    have hN0 : L[n]? = some L[n] := List.getElem?_eq_getElem hn
    obtain ⟨f, rfl⟩ : ∃ f, fuel = f + 1 + Nat.find hex := ⟨fuel - 1 - Nat.find hex, by omega⟩
    unfold firstSegmentNode
    have h1 : ¬ ((n : Int) < 0) := by omega
    have h2 : ¬ ((n : Int) ≥ (L.length : Int)) := by omega
    rw [if_neg h1, if_neg h2, nodeAt_of_getElem? hN0]
    show firstSegmentNodeLoop L (f + 1 + Nat.find hex) L[n] (n : Int) (n : Int) = _
    rw [firstLoop_progress hm hs hN0 (Nat.find hex) e L[e] he hE hnostop (f + 1)]
    exact firstLoop_end ((prevStep_eq_none hE).mp hstop) f _ _

theorem firstSegmentNode_outside (fuel : Nat) (L : List Node) (x : Int)
    (h : x < 0 ∨ (L.length : Int) ≤ x) : firstSegmentNode fuel L x = Except.ok (-1) := by
  unfold firstSegmentNode
  by_cases h1 : x < 0
  · rw [if_pos h1]
  · rw [if_neg h1, if_pos (by omega)]

/-- The closed-loop result is the same for every node of the loop. -/
theorem firstSegmentNode_closed_all {L : List Node} (hr : LinksInRange L)
    (hb : LinkSymmetryBoth L) (hm : NoMoveNode L) (hs : NoSelfLink L) {n k : Nat}
    (hn : n < L.length) (hk : 1 ≤ k) (hc : prevWalk L n k = some n) :
    ∃ m, (∃ j, prevWalk L n j = some m) ∧
      ∀ j c, prevWalk L n j = some c → m ≤ c ∧
        ∀ fuel, 2 * L.length ≤ fuel → firstSegmentNode fuel L (c : Int) = Except.ok (m : Int) := by
  obtain ⟨m, ⟨j2, hj2⟩, hlow, _⟩ := firstSegmentNode_closed hm hs hn hk hc
  refine ⟨m, ⟨j2, hj2⟩, ?_⟩
  intro j c hjc
  refine ⟨hlow j c hjc, ?_⟩
  have hclt := prevWalk_lt hr hn j c hjc
  have hfrom : ∀ x, prevWalk L n (j + x) = prevWalk L c x := by
    intro x
    rw [prevWalk_add, hjc]
    rfl
  have hcc : prevWalk L c k = some c := by
    rw [← hfrom, Nat.add_comm, ← hjc]
    have := prevWalk_periodic hc 1 j
    rw [Nat.mul_one] at this
    rw [Nat.add_comm]
    exact this
  obtain ⟨c0, hc0⟩ := prevWalk_total hk hcc L.length
  obtain ⟨k1, hk1, hk1le, hk1c⟩ := prevWalk_pigeonhole hr hb hclt hc0
  obtain ⟨m1, ⟨j1, hj1⟩, hlow1, hres⟩ := firstSegmentNode_closed hm hs hclt hk1 hk1c
  have e1 : m ≤ m1 := by
    rw [← hfrom] at hj1
    exact hlow _ _ hj1
  have e2 : m1 ≤ m := by
    have h3 : prevWalk L n (j2 + k * j) = some m := by
      rw [prevWalk_periodic hc]; exact hj2
    have e : j2 + k * j = j + (j2 + k * j - j) := by
      have : j ≤ k * j := Nat.le_mul_of_pos_left j (by omega)
      omega
    rw [e, hfrom] at h3
    exact hlow1 _ _ h3
  have e3 : m1 = m := by omega
  subst e3
  intro fuel hfuel
  exact hres fuel (by omega)

/-! ## Lemmas on self links, `splitNodeAndDisconnect` and promotion -/

theorem firstSegmentNode_self_prev (L : List Node) (n : Nat) (N : Node) (fuel : Nat)
    (hN : L[n]? = some N) (hp : N.mPrevNodeId = (n : Int)) :
    firstSegmentNode (fuel + 1) L (n : Int) = Except.error Err.NodePointsToItself := by
  have hlt : n < L.length := (List.getElem?_eq_some_iff.mp hN).1
  unfold firstSegmentNode
  have h1 : ¬ ((n : Int) < 0) := by omega
  have h2 : ¬ ((n : Int) ≥ (L.length : Int)) := by omega
  rw [if_neg h1, if_neg h2, nodeAt_of_getElem? hN]
  unfold firstSegmentNodeLoop
  have h3 : N.hasPreviousNode = true := by
    simp only [Node.hasPreviousNode, hp, decide_eq_true_eq]; omega
  simp [h3, Node.getPrevNodeId, hp]

theorem lastSegmentNode_self_next (L : List Node) (n : Nat) (N : Node) (fuel : Nat)
    (hN : L[n]? = some N) (hm : N.mType ≠ NodeType.MOVE) (hp : N.mNextNodeId = (n : Int)) :
    lastSegmentNode (fuel + 1) L (n : Int) = Except.error Err.NodePointsToItself := by
  have hlt : n < L.length := (List.getElem?_eq_some_iff.mp hN).1
  unfold lastSegmentNode
  have h1 : ¬ ((n : Int) < 0) := by omega
  have h2 : ¬ ((n : Int) ≥ (L.length : Int)) := by omega
  rw [if_neg h1, if_neg h2, nodeAt_of_getElem? hN]
  unfold lastSegmentNodeLoop
  have h3 : N.isMove = false := by simp [Node.isMove, hm]
  simp [h3, Node.getNextNodeId, hp]

theorem splitNodeAndDisconnect_ok (self : NodeList) (k : Nat) (K : Node)
    (hK : self.mNodes[k]? = some K) :
    ∃ L5 K0 K2, splitNodeAndDisconnect self (k : Int) = Except.ok ⟨L5, self.mPrev, self.mNext⟩ ∧
      L5.length = self.mNodes.length + 2 ∧
      L5[k]? = some K0 ∧ K0.mNextNodeId = (k : Int) + 1 ∧ K0.mType = K.mType ∧
      L5[k + 1]? = some { Node.move with mPrevNodeId := (k : Int), mNextNodeId := -1 } ∧
      L5[k + 2]? = some K2 ∧ K2.mPrevNodeId = -1 ∧
      K2.mType = K.mType ∧ K2.fP1 = K.fP1 ∧ K2.fT = K.fT ∧
      K2.fC0 = (if K.isNormal then K.fP1 else K.fC0) ∧ K2.fC2 = K.fC2 := by
  obtain ⟨L4, hok, hlen, hnew, hold⟩ := splitNode_ok self k K hK
  have hk0 := hold k K hK
  have hsk : shiftIdx (k + 1) k = k := by simp [shiftIdx]
  rw [hsk] at hk0
  obtain ⟨L5, hok5, hlen5, hnew5, hold5⟩ := insertNodeAfterThis_ok L4 k Node.move _ hk0
  have h0 := hold5 k _ hk0
  rw [hsk] at h0
  have hlt : k + 1 < L4.length := by
    have := (List.getElem?_eq_some_iff.mp hK).1
    omega
  have h2 := hold5 (k + 1) _ hnew
  have hsk1 : shiftIdx (k + 1) (k + 1) = k + 2 := by simp [shiftIdx]
  rw [hsk1] at h2
  refine ⟨L5, _, _, ?_, ?_, h0, ?_, ?_, ?_, h2, ?_, ?_, ?_, ?_, ?_, ?_⟩
  · unfold splitNodeAndDisconnect
    rw [hok, bind_ok, insertNodeAfter_NONE]
    simp only [hok5, Except.map, bind_ok]
    rfl
  · omega
  · simp
  · by_cases h : K.isNormal = true <;> simp [h]
  · rw [hnew5]; simp [Node.isMove, Node.move]
  · have hsu : shiftUp ((k : Int) + 1) ((k : Int) + 1) = ((k + 2 : Nat) : Int) := by
      unfold shiftUp
      rw [if_pos (by omega)]
      push_cast
      omega
    simp [hsu, Node.isMove, Node.move]
  · by_cases h : K.isNormal = true <;> simp [h]
  · by_cases h : K.isNormal = true <;> simp [h]
  · by_cases h : K.isNormal = true <;> simp [h]
  · by_cases h : K.isNormal = true <;> simp [h]
  · by_cases h : K.isNormal = true <;> simp [h]

theorem isNormal_of_type {N : Node} (h : N.mType = NodeType.NORMAL) : N.isNormal = true := by
  simp [Node.isNormal, h]

theorem length_foldl_updateAt (h : Node → Node) :
    ∀ (ids : List Int) (l : List Node),
      (ids.foldl (fun l i => updateAt l i h) l).length = l.length := by
  intro ids
  induction ids with
  | nil => intro l; rfl
  | cons i ids ih => intro l; rw [List.foldl_cons, ih, length_updateAt]

theorem length_promoteWrites (L : List Node) (d p n : Int) (t : ℚ)
    (first second : qCubicSegment2D) : (promoteWrites L d p n t first second).length = L.length := by
  unfold promoteWrites
  simp only [length_foldl_updateAt, length_updateAt, setNodeType]

theorem promote_general (L : List Node) (fuel : Nat) (d : Nat) (D : Node) (p n : Int)
    (hD : L[d]? = some D) (hdis : D.mType = NodeType.DISSOLVED)
    (hp : prevNormalId fuel L (d : Int) = Except.ok p)
    (hn : nextNormalId fuel L (d : Int) = Except.ok n) (hp1 : p ≠ -1) (hn1 : n ≠ -1) :
    ∃ P N L1 D1 P1 N1, nodeAt L p = Except.ok P ∧ nodeAt L n = Except.ok N ∧
      P.mType = NodeType.NORMAL ∧ N.mType = NodeType.NORMAL ∧
      promoteDissolvedNodeToNormal fuel L (d : Int) = Except.ok L1 ∧
      L1.length = L.length ∧
      nodeAt L1 (d : Int) = Except.ok D1 ∧ nodeAt L1 p = Except.ok P1 ∧
      nodeAt L1 n = Except.ok N1 ∧
      D1.mType = NodeType.NORMAL ∧
      D1.fP1 = ((gSegmentFromNodes P N).dividedAtT D.fT).1.p1 ∧
      gSegmentFromNodes P1 D1 = ((gSegmentFromNodes P N).dividedAtT D.fT).1 ∧
      gSegmentFromNodes D1 N1 = ((gSegmentFromNodes P N).dividedAtT D.fT).2 ∧
      P1.fP1 = P.fP1 ∧ N1.fP1 = N.fP1 ∧
      P1.fC0 = (if p = n then ((gSegmentFromNodes P N).dividedAtT D.fT).2.c2 else P.fC0) ∧
      N1.fC2 = (if p = n then ((gSegmentFromNodes P N).dividedAtT D.fT).1.c1 else N.fC2) := by
  have hDn := nodeAt_of_getElem? hD
  have hp2 : prevNormalIdLoop L fuel D = Except.ok p := by
    unfold prevNormalId at hp
    rw [hDn] at hp
    exact hp
  have hn2 : nextNormalIdLoop L fuel D = Except.ok n := by
    unfold nextNormalId at hn
    rw [hDn] at hn
    exact hn
  obtain ⟨P, hP, hPt⟩ := (prevNormalIdLoop_found L fuel D p hp2).resolve_left hp1
  obtain ⟨N, hN, hNt⟩ := (nextNormalIdLoop_found L fuel D n hn2).resolve_left hn1
  have hp0 := (nodeAt_eq_ok hP).1
  have hn0 := (nodeAt_eq_ok hN).1
  obtain ⟨pn, rfl⟩ : ∃ pn : Nat, p = (pn : Int) := ⟨p.toNat, by omega⟩
  obtain ⟨nn, rfl⟩ : ∃ nn : Nat, n = (nn : Int) := ⟨n.toNat, by omega⟩
  have hPg := nodeAt_ok_natCast hP
  have hNg := nodeAt_ok_natCast hN
  have hdp : d ≠ pn := by
    intro h
    subst h
    rw [hD] at hPg
    injection hPg with h1
    rw [h1, hPt] at hdis
    exact absurd hdis (by decide)
  have hdn : d ≠ nn := by
    intro h
    subst h
    rw [hD] at hNg
    injection hNg with h1
    rw [h1, hNt] at hdis
    exact absurd hdis (by decide)
  have hw := promote_eq_writes L fuel d pn nn D P N hD hPg hNg hp hn hdp hdn
  obtain ⟨D1, hD1, _, _, hD1p, hD1c0, hD1c2, hD1t⟩ :=
    promoteWrites_view L d pn nn D P N hdp hdn d D hD
  obtain ⟨P1, hP1, _, _, hP1p, hP1c0, hP1c2, _⟩ :=
    promoteWrites_view L d pn nn D P N hdp hdn pn P hPg
  obtain ⟨N1, hN1, _, _, hN1p, hN1c0, hN1c2, _⟩ :=
    promoteWrites_view L d pn nn D P N hdp hdn nn N hNg
  have hpd : ¬ (pn = d) := fun h => hdp h.symm
  have hnd : ¬ (nn = d) := fun h => hdn h.symm
  rw [if_pos rfl] at hD1p hD1c2 hD1t
  rw [if_neg hdn, if_pos rfl] at hD1c0
  rw [if_neg hpd] at hP1p hP1c2
  rw [if_pos rfl] at hP1c2
  rw [if_neg hpd] at hP1c0
  rw [if_neg hnd] at hN1p hN1c2
  rw [if_pos rfl] at hN1c0
  refine ⟨P, N, _, D1, P1, N1, hP, hN, hPt, hNt, hw, ?_, nodeAt_of_getElem? hD1,
    nodeAt_of_getElem? hP1, nodeAt_of_getElem? hN1, hD1t, hD1p, ?_, ?_, hP1p, hN1p, ?_, ?_⟩
  · exact length_promoteWrites _ _ _ _ _ _ _
  · simp only [gSegmentFromNodes, hP1p, hP1c2, hD1c0, hD1p]
    rfl
  · simp only [gSegmentFromNodes, hD1p, hD1c2, hN1c0, hN1p]
    rfl
  · rw [hP1c0]
    by_cases h : pn = nn
    · simp [h]
    · have : ¬ ((pn : Int) = (nn : Int)) := by omega
      simp [h, this]
  · rw [hN1c2]
    by_cases h : pn = nn
    · simp [h]
    · have : ¬ ((pn : Int) = (nn : Int)) := by omega
      have h' : ¬ (nn = pn) := fun e => h e.symm
      simp [h', this]

/-! ## Lemmas on the termination of `firstSegmentNode` -/

theorem firstLoop_self {L : List Node} {C : Node} {s c : Int} (h0 : 0 ≤ c)
    (h : C.mPrevNodeId = c) (f : Nat) :
    firstSegmentNodeLoop L (f + 1) C s c = Except.error Err.NodePointsToItself := by
  unfold firstSegmentNodeLoop
  have : C.hasPreviousNode = true := by
    simp only [Node.hasPreviousNode, decide_eq_true_eq]; omega
  simp [this, Node.getPrevNodeId, h]

theorem firstLoop_move {L : List Node} {C P : Node} {s c : Int} {p : Nat}
    (h : C.mPrevNodeId = (p : Int)) (hc : (p : Int) ≠ c) (hs : (p : Int) ≠ s)
    (hP : L[p]? = some P) (hm : P.isMove = true) (f : Nat) :
    firstSegmentNodeLoop L (f + 1) C s c = Except.ok c := by
  unfold firstSegmentNodeLoop
  have : C.hasPreviousNode = true := by
    simp only [Node.hasPreviousNode, decide_eq_true_eq]; omega
  simp [this, Node.getPrevNodeId, h, hc, hs, nodeAt_of_getElem? hP, hm]

/-- After `T` iterations the loop has stopped in one of them, or it is in the state of the
`T`-th node of the walk. -/
theorem firstLoop_stop_or_progress {L : List Node} (hr : LinksInRange L) {n : Nat} {N0 : Node}
    (hN0 : L[n]? = some N0) :
    ∀ T : Nat,
      (∃ i res, i < T ∧ StopsAt L n i res ∧
        ∀ f, firstSegmentNodeLoop L (f + 1 + i) N0 (n : Int) (n : Int) = res) ∨
      (∃ cT CT, prevWalk L n T = some cT ∧ L[cT]? = some CT ∧
        (∀ i < T, prevWalk L n (i + 1) ≠ some (walkMin L n i)) ∧
        ∀ f, firstSegmentNodeLoop L (f + T) N0 (n : Int) (n : Int) =
          firstSegmentNodeLoop L f CT (walkMin L n T : Nat) (cT : Int)) := by
  intro T
  induction T with
  | zero => exact Or.inr ⟨n, N0, rfl, hN0, fun i hi => absurd hi (by omega), fun f => rfl⟩
  | succ T ih =>
    rcases ih with ⟨i, res, hi, hstop, hres⟩ | ⟨cT, CT, hw, hCT, hno, hrun⟩
    · exact Or.inl ⟨i, res, by omega, hstop, hres⟩
    · have hrun1 : ∀ f, firstSegmentNodeLoop L (f + 1 + T) N0 (n : Int) (n : Int) =
          firstSegmentNodeLoop L (f + 1) CT (walkMin L n T : Nat) (cT : Int) :=
        fun f => hrun (f + 1)
      cases hps : prevStep L cT with
      | none =>
        left
        refine ⟨T, Except.ok (cT : Int), by omega, ⟨cT, hw, Or.inl ⟨hps, rfl⟩⟩, ?_⟩
        intro f
        rw [hrun1]
        exact firstLoop_end ((prevStep_eq_none hCT).mp hps) f _ _
      | some p =>
        obtain ⟨C2, hC2, hprev⟩ := prevStep_eq_some.mp hps
        rw [hCT] at hC2
        injection hC2 with hC2
        subst hC2
        by_cases hpc : p = cT
        · left
          subst hpc
          refine ⟨T, Except.error Err.NodePointsToItself, by omega,
            ⟨p, hw, Or.inr (Or.inl ⟨hps, rfl⟩)⟩, ?_⟩
          intro f
          rw [hrun1]
          exact firstLoop_self (by omega) hprev f
        · by_cases hpm : p = walkMin L n T
          · left
            refine ⟨T, Except.ok (p : Int), by omega,
              ⟨cT, hw, Or.inr (Or.inr (Or.inl ⟨p, hps, hpc, hpm, rfl⟩))⟩, ?_⟩
            intro f
            rw [hrun1, ← hpm]
            exact firstLoop_min (by omega) hprev (by omega) f
          · have hplt := prevStep_lt hr hps
            have hP : L[p]? = some L[p] := List.getElem?_eq_getElem hplt
            by_cases hmv : (L[p]).isMove = true
            · left
              refine ⟨T, Except.ok (cT : Int), by omega,
                ⟨cT, hw, Or.inr (Or.inr (Or.inr ⟨p, L[p], hps, hpc, hpm, hP, hmv, rfl⟩))⟩, ?_⟩
              intro f
              rw [hrun1]
              exact firstLoop_move hprev (by omega) (by omega) hP hmv f
            · right
              have hw1 : prevWalk L n (T + 1) = some p := by
                show (prevWalk L n T).bind (prevStep L) = some p
                rw [hw]; exact hps
              refine ⟨p, L[p], hw1, hP, ?_, ?_⟩
              · intro i hi
                by_cases hiT : i = T
                · subst hiT
                  rw [hw1]
                  intro e
                  injection e with e
                  exact hpm e
                · exact hno i (by omega)
              · intro f
                have e : f + (T + 1) = f + 1 + T := by omega
                rw [e, hrun1,
                  firstLoop_step hprev (by omega) (by omega) hP (by simpa using hmv)]
                have hwm : walkMin L n (T + 1) = min p (walkMin L n T) := by
                  show min ((prevWalk L n (T + 1)).getD 0) (walkMin L n T) = _
                  rw [hw1]; rfl
                rw [hwm]
                congr 1
                push_cast
                rfl

/-- On a closed walk of period `k` the smallest-id rule applies within `2 * k - 1`
iterations. -/
theorem closed_stop_exists {L : List Node} {n k : Nat} (hk : 1 ≤ k)
    (hc : prevWalk L n k = some n) :
    ∃ i, i + 2 ≤ 2 * k ∧ prevWalk L n (i + 1) = some (walkMin L n i) := by
  have htot := prevWalk_total hk hc
  obtain ⟨j0, hj0, hj0m⟩ := walkMin_attained (k - 1) (htot (k - 1))
  have hm0 : ∀ j c, prevWalk L n j = some c → walkMin L n (k - 1) ≤ c := by
    intro j
    induction j using Nat.strong_induction_on with
    | _ j ih =>
      intro c hjc
      by_cases hj : j ≤ k - 1
      · exact walkMin_le (k - 1) j c hj hjc
      · have e : j = (j - k) + k * 1 := by omega
        rw [e, prevWalk_periodic hc] at hjc
        exact ih (j - k) (by omega) c hjc
  refine ⟨j0 + k - 1, by omega, ?_⟩
  have e : j0 + k - 1 + 1 = j0 + k * 1 := by omega
  rw [e, prevWalk_periodic hc, hj0m]
  congr 1
  obtain ⟨j, hj, hjm⟩ := walkMin_attained (j0 + k - 1) (htot _)
  have h1 := hm0 j _ hjm
  have h2 := walkMin_le (j0 + k - 1) j0 _ (by omega) hj0m
  omega

theorem firstSegmentNode_stops {L : List Node} (hr : LinksInRange L) (hb : LinkSymmetryBoth L)
    {n : Nat} (hn : n < L.length) :
    ∃ i res, i < 2 * L.length ∧ StopsAt L n i res ∧
      ∀ fuel, i + 1 ≤ fuel → firstSegmentNode fuel L (n : Int) = res := by
  have hN0 : L[n]? = some L[n] := List.getElem?_eq_getElem hn
  rcases firstLoop_stop_or_progress hr hN0 (2 * L.length) with
    ⟨i, res, hi, hstop, hres⟩ | ⟨cT, CT, hw, _, hno, _⟩
  · refine ⟨i, res, hi, hstop, ?_⟩
    intro fuel hfuel
    obtain ⟨f, rfl⟩ : ∃ f, fuel = f + 1 + i := ⟨fuel - 1 - i, by omega⟩
    unfold firstSegmentNode
    have h1 : ¬ ((n : Int) < 0) := by omega
    have h2 : ¬ ((n : Int) ≥ (L.length : Int)) := by omega
    rw [if_neg h1, if_neg h2, nodeAt_of_getElem? hN0]
    exact hres f
  · exfalso
    obtain ⟨c, hc⟩ := prevWalk_defined_le _ _ hw L.length (by omega)
    obtain ⟨k, hk1, hkle, hk⟩ := prevWalk_pigeonhole hr hb hn hc
    obtain ⟨i, hi, hi2⟩ := closed_stop_exists hk1 hk
    exact hno i (by omega) hi2

/-! ## Lemmas on `moveNodeAfter` and `moveNodeBefore` -/

theorem payloadAt_setNodePrevId (L : List Node) (x p : Int) (i : Nat) :
    payloadAt (setNodePrevId L x p) i = payloadAt L i := by
  simp only [payloadAt, setNodePrevId, getElem?_updateAt]
  split_ifs <;> cases L[i]? <;> rfl

theorem payloadAt_setNodeNextId (L : List Node) (x p : Int) (i : Nat) :
    payloadAt (setNodeNextId L x p) i = payloadAt L i := by
  simp only [payloadAt, setNodeNextId, getElem?_updateAt]
  split_ifs <;> cases L[i]? <;> rfl

theorem payloadAt_setNodePrevAndNextId (L : List Node) (x p q : Int) (i : Nat) :
    payloadAt (setNodePrevAndNextId L x p q) i = payloadAt L i := by
  simp only [payloadAt, setNodePrevAndNextId, getElem?_updateAt]
  split_ifs <;> cases L[i]? <;> rfl

/-- The links after `moveNodeAfter(m, a)` in terms of the links before it. -/
theorem moveNodeAfter_view (L : List Node) (m a : Nat) (M A : Node)
    (hM : L[m]? = some M) (hA : L[a]? = some A) :
    ∃ L1, moveNodeAfter L m a = Except.ok L1 ∧ L1.length = L.length ∧
      ∀ j : Nat, payloadAt L1 j = payloadAt L j ∧
        nextAt L1 j = (nextAt L j).map (fun nj =>
          if (m : Int) = j then (if M.mPrevNodeId = (a : Int) then M.mNextNodeId
            else A.mNextNodeId)
          else if (a : Int) = j then (m : Int)
          else if M.mPrevNodeId = j then M.mNextNodeId else nj) ∧
        prevAt L1 j = (prevAt L j).map (fun pj =>
          if (if M.mPrevNodeId = (a : Int) then M.mNextNodeId else A.mNextNodeId) = j
            then (m : Int)
          else if (m : Int) = j then (a : Int)
          else if M.mNextNodeId = j then M.mPrevNodeId else pj) := by
  obtain ⟨A2, hA2, hok⟩ := moveNodeAfter_ok L m a M A hM hA
  have hA2n := nextAt_of_getElem? hA2
  have e7 := nextAt_of_getElem? hA
  simp only [nextAt_setNodePrevId, nextAt_setNodeNextId, e7, Option.map_some',
    apply_ite (Option.map _), ← apply_ite some, Option.some.injEq] at hA2n
  refine ⟨_, hok, by simp, ?_⟩
  intro j
  refine ⟨?_, ?_, ?_⟩
  · simp only [payloadAt_setNodePrevId, payloadAt_setNodeNextId, payloadAt_setNodePrevAndNextId]
  · simp only [nextAt_setNodePrevId, nextAt_setNodeNextId, nextAt_setNodePrevAndNextId]
    rw [← hA2n]
    cases nextAt L j with
    | none => simp
    | some nj =>
      simp only [Option.map_some']
      split_ifs <;> rfl
  · simp only [prevAt_setNodePrevId, prevAt_setNodeNextId, prevAt_setNodePrevAndNextId]
    rw [← hA2n]
    cases prevAt L j with
    | none => simp
    | some nj =>
      simp only [Option.map_some']
      split_ifs <;> rfl

/-- The links after `moveNodeBefore(m, b)` in terms of the links before it. -/
theorem moveNodeBefore_view (L : List Node) (m b : Nat) (M B : Node)
    (hM : L[m]? = some M) (hB : L[b]? = some B) :
    ∃ L1, moveNodeBefore L m b = Except.ok L1 ∧ L1.length = L.length ∧
      ∀ j : Nat, payloadAt L1 j = payloadAt L j ∧
        nextAt L1 j = (nextAt L j).map (fun nj =>
          if (if M.mNextNodeId = (b : Int) then M.mPrevNodeId else B.mPrevNodeId) = j
            then (m : Int)
          else if (m : Int) = j then (b : Int)
          else if M.mPrevNodeId = j then M.mNextNodeId else nj) ∧
        prevAt L1 j = (prevAt L j).map (fun pj =>
          if (m : Int) = j then (if M.mNextNodeId = (b : Int) then M.mPrevNodeId
            else B.mPrevNodeId)
          else if (b : Int) = j then (m : Int)
          else if M.mNextNodeId = j then M.mPrevNodeId else pj) := by
  obtain ⟨B2, hB2, hok⟩ := moveNodeBefore_ok L m b M B hM hB
  have hB2n := prevAt_of_getElem? hB2
  have e7 := prevAt_of_getElem? hB
  simp only [prevAt_setNodePrevId, prevAt_setNodeNextId, e7, Option.map_some',
    apply_ite (Option.map _), ← apply_ite some, Option.some.injEq] at hB2n
  refine ⟨_, hok, by simp, ?_⟩
  intro j
  refine ⟨?_, ?_, ?_⟩
  · simp only [payloadAt_setNodePrevId, payloadAt_setNodeNextId, payloadAt_setNodePrevAndNextId]
  · simp only [nextAt_setNodePrevId, nextAt_setNodeNextId, nextAt_setNodePrevAndNextId]
    rw [← hB2n]
    cases nextAt L j with
    | none => simp
    | some nj =>
      simp only [Option.map_some']
      split_ifs <;> rfl
  · simp only [prevAt_setNodePrevId, prevAt_setNodeNextId, prevAt_setNodePrevAndNextId]
    rw [← hB2n]
    cases prevAt L j with
    | none => simp
    | some nj =>
      simp only [Option.map_some']
      split_ifs <;> rfl

theorem symBoth_next_prev {L : List Node} (hb : LinkSymmetryBoth L) {a b : Nat} {A B : Node}
    (hA : L[a]? = some A) (hB : L[b]? = some B) :
    A.mNextNodeId = (b : Int) ↔ B.mPrevNodeId = (a : Int) := by
  have ha := (List.getElem?_eq_some_iff.mp hA).1
  have hb1 := (List.getElem?_eq_some_iff.mp hB).1
  have := hb a ha b hb1
  simpa [nextAt, prevAt, hA, hB] using this

theorem moveNodeAfter_relinks (L : List Node) (m a : Nat)
    (M A : Node) (hM : L[m]? = some M) (hA : L[a]? = some A) (hne : m ≠ a)
    (han : A.mNextNodeId ≠ (m : Int)) (hself : M.mPrevNodeId ≠ (m : Int))
    (hmnm : M.mNextNodeId ≠ (m : Int)) (hmpa : M.mPrevNodeId ≠ (a : Int))
    (hnx : ∀ q : Nat, q < L.length → M.mNextNodeId = (q : Int) → A.mNextNodeId ≠ (q : Int)) :
    ∃ L1, moveNodeAfter L m a = Except.ok L1 ∧ L1.length = L.length ∧
      (∀ j, payloadAt L1 j = payloadAt L j) ∧
      nextAt L1 a = some (m : Int) ∧ prevAt L1 m = some (a : Int) ∧
      nextAt L1 m = some A.mNextNodeId ∧
      (∀ x : Nat, A.mNextNodeId = (x : Int) → x < L.length → prevAt L1 x = some (m : Int)) ∧
      (∀ p : Nat, M.mPrevNodeId = (p : Int) → p < L.length →
        nextAt L1 p = some M.mNextNodeId) ∧
      (∀ q : Nat, M.mNextNodeId = (q : Int) → q < L.length →
        prevAt L1 q = some M.mPrevNodeId) ∧
      (∀ j : Nat, j ≠ m → j ≠ a → M.mPrevNodeId ≠ (j : Int) → nextAt L1 j = nextAt L j) ∧
      (∀ j : Nat, j ≠ m → A.mNextNodeId ≠ (j : Int) → M.mNextNodeId ≠ (j : Int) →
        prevAt L1 j = prevAt L j) := by
  obtain ⟨L1, hok, hlen, hv⟩ := moveNodeAfter_view L m a M A hM hA
  simp only [if_neg hmpa] at hv
  have nM := nextAt_of_getElem? hM
  have pM := prevAt_of_getElem? hM
  have nA := nextAt_of_getElem? hA
  have hma : ¬ ((m : Int) = (a : Int)) := by omega
  refine ⟨L1, hok, hlen, fun j => (hv j).1, ?_, ?_, ?_, ?_, ?_, ?_, ?_, ?_⟩
  · rw [(hv a).2.1, nA]
    simp [hma]
  · rw [(hv m).2.2, pM]
    simp [han]
  · rw [(hv m).2.1, nM]
    simp
  · intro x hx hxlt
    have hX : L[x]? = some L[x] := List.getElem?_eq_getElem hxlt
    rw [(hv x).2.2, prevAt_of_getElem? hX]
    simp [hx]
  · intro p hp hplt
    have hP : L[p]? = some L[p] := List.getElem?_eq_getElem hplt
    rw [(hv p).2.1, nextAt_of_getElem? hP]
    have h1 : ¬ ((m : Int) = (p : Int)) := fun e => hself (by rw [hp, e])
    have h2 : ¬ ((a : Int) = (p : Int)) := fun e => hmpa (by rw [hp, e])
    simp [h1, h2, hp]
  · intro q hq hqlt
    have hQ : L[q]? = some L[q] := List.getElem?_eq_getElem hqlt
    rw [(hv q).2.2, prevAt_of_getElem? hQ]
    have h1 : ¬ ((m : Int) = (q : Int)) := fun e => hmnm (by rw [hq, e])
    have h2 : ¬ (A.mNextNodeId = (q : Int)) := hnx q hqlt hq
    simp [h1, h2, hq]
  · intro j hjm hja hjp
    rw [(hv j).2.1]
    have h1 : ¬ ((m : Int) = (j : Int)) := by omega
    have h2 : ¬ ((a : Int) = (j : Int)) := by omega
    cases nextAt L j <;> simp [h1, h2, hjp]
  · intro j hjm hjx hjq
    rw [(hv j).2.2]
    have h1 : ¬ ((m : Int) = (j : Int)) := by omega
    cases prevAt L j <;> simp [h1, hjx, hjq]

theorem moveNodeBefore_relinks (L : List Node) (m b : Nat)
    (M B : Node) (hM : L[m]? = some M) (hB : L[b]? = some B) (hne : m ≠ b)
    (hbp : B.mPrevNodeId ≠ (m : Int)) (hself : M.mPrevNodeId ≠ (m : Int))
    (hmnm : M.mNextNodeId ≠ (m : Int)) (hmnb : M.mNextNodeId ≠ (b : Int))
    (hpx : ∀ p : Nat, p < L.length → M.mPrevNodeId = (p : Int) → B.mPrevNodeId ≠ (p : Int)) :
    ∃ L1, moveNodeBefore L m b = Except.ok L1 ∧ L1.length = L.length ∧
      (∀ j, payloadAt L1 j = payloadAt L j) ∧
      prevAt L1 b = some (m : Int) ∧ nextAt L1 m = some (b : Int) ∧
      prevAt L1 m = some B.mPrevNodeId ∧
      (∀ y : Nat, B.mPrevNodeId = (y : Int) → y < L.length → nextAt L1 y = some (m : Int)) ∧
      (∀ p : Nat, M.mPrevNodeId = (p : Int) → p < L.length →
        nextAt L1 p = some M.mNextNodeId) ∧
      (∀ q : Nat, M.mNextNodeId = (q : Int) → q < L.length →
        prevAt L1 q = some M.mPrevNodeId) ∧
      (∀ j : Nat, j ≠ m → B.mPrevNodeId ≠ (j : Int) → M.mPrevNodeId ≠ (j : Int) →
        nextAt L1 j = nextAt L j) ∧
      (∀ j : Nat, j ≠ m → j ≠ b → M.mNextNodeId ≠ (j : Int) → prevAt L1 j = prevAt L j) := by
  obtain ⟨L1, hok, hlen, hv⟩ := moveNodeBefore_view L m b M B hM hB
  simp only [if_neg hmnb] at hv
  have nM := nextAt_of_getElem? hM
  have pM := prevAt_of_getElem? hM
  have pB := prevAt_of_getElem? hB
  have hmb : ¬ ((m : Int) = (b : Int)) := by omega
  refine ⟨L1, hok, hlen, fun j => (hv j).1, ?_, ?_, ?_, ?_, ?_, ?_, ?_, ?_⟩
  · rw [(hv b).2.2, pB]
    simp [hmb]
  · rw [(hv m).2.1, nM]
    simp [hbp]
  · rw [(hv m).2.2, pM]
    simp
  · intro y hy hylt
    have hY : L[y]? = some L[y] := List.getElem?_eq_getElem hylt
    rw [(hv y).2.1, nextAt_of_getElem? hY]
    simp [hy]
  · intro p hp hplt
    have hP : L[p]? = some L[p] := List.getElem?_eq_getElem hplt
    rw [(hv p).2.1, nextAt_of_getElem? hP]
    have h1 : ¬ ((m : Int) = (p : Int)) := fun e => hself (by rw [hp, e])
    have h2 : ¬ (B.mPrevNodeId = (p : Int)) := hpx p hplt hp
    simp [h1, h2, hp]
  · intro q hq hqlt
    have hQ : L[q]? = some L[q] := List.getElem?_eq_getElem hqlt
    rw [(hv q).2.2, prevAt_of_getElem? hQ]
    have h1 : ¬ ((m : Int) = (q : Int)) := fun e => hmnm (by rw [hq, e])
    have h2 : ¬ ((b : Int) = (q : Int)) := fun e => hmnb (by rw [hq, e])
    simp [h1, h2, hq]
  · intro j hjm hjy hjp
    rw [(hv j).2.1]
    have h1 : ¬ ((m : Int) = (j : Int)) := by omega
    cases nextAt L j <;> simp [h1, hjy, hjp]
  · intro j hjm hjb hjq
    rw [(hv j).2.2]
    have h1 : ¬ ((m : Int) = (j : Int)) := by omega
    have h2 : ¬ ((b : Int) = (j : Int)) := by omega
    cases prevAt L j <;> simp [h1, h2, hjq]

/-- With links symmetric in both directions the side conditions of the relinking lemmas
follow from `m != a`, `a.next != m` (resp. `b.prev != m`) alone. -/
theorem symBoth_side_conditions {L : List Node} (hb : LinkSymmetryBoth L) {m : Nat} {M : Node}
    (hM : L[m]? = some M) :
    (M.mPrevNodeId ≠ (m : Int) → M.mNextNodeId ≠ (m : Int)) ∧
    (∀ (a : Nat) (A : Node), L[a]? = some A → m ≠ a → A.mNextNodeId ≠ (m : Int) →
      M.mPrevNodeId ≠ (a : Int) ∧
      ∀ q : Nat, q < L.length → M.mNextNodeId = (q : Int) → A.mNextNodeId ≠ (q : Int)) ∧
    (∀ (b : Nat) (B : Node), L[b]? = some B → m ≠ b → B.mPrevNodeId ≠ (m : Int) →
      M.mNextNodeId ≠ (b : Int) ∧
      ∀ p : Nat, p < L.length → M.mPrevNodeId = (p : Int) → B.mPrevNodeId ≠ (p : Int)) := by
  refine ⟨?_, ?_, ?_⟩
  · intro hself h
    exact hself ((symBoth_next_prev hb hM hM).mp h)
  · intro a A hA hne han
    refine ⟨fun h => han ((symBoth_next_prev hb hA hM).mpr h), ?_⟩
    intro q hqlt hq e
    have hQ : L[q]? = some L[q] := List.getElem?_eq_getElem hqlt
    have e1 := (symBoth_next_prev hb hA hQ).mp e
    have e2 := (symBoth_next_prev hb hM hQ).mp hq
    omega
  · intro b B hB hne hbp
    refine ⟨fun h => hbp ((symBoth_next_prev hb hM hB).mp h), ?_⟩
    intro p hplt hp e
    have hP : L[p]? = some L[p] := List.getElem?_eq_getElem hplt
    have e1 := (symBoth_next_prev hb hP hB).mpr e
    have e2 := (symBoth_next_prev hb hP hM).mpr hp
    omega

/-! ## Lemmas on `updateNodeTypeAfterNeighbourChanged` -/

theorem update_eq (fuel : Nat) (self : NodeList) (nodeId : Int) :
    updateNodeTypeAfterNeighbourChanged fuel self nodeId = (do
      let node ← nodeAt self.mNodes nodeId
      if node.isNormal || node.isMove then pure (self, false)
      else do
        let prevInfo ← siblingInfo self.mPrev nodeId
        let nextInfo ← siblingInfo self.mNext nodeId
        if dissolveCond node prevInfo nextInfo then
          if node.getType ≠ NodeType.DISSOLVED then do
            let pT ← prevT fuel self.mNodes nodeId
            let nT ← nextT fuel self.mNodes nodeId
            let l1 := updateAt self.mNodes nodeId (fun n => { n with fT := (1 / 2) * (pT + nT) })
            let l2 := updateAt l1 nodeId (fun n => n.setType NodeType.DISSOLVED)
            pure ({ self with mNodes := l2 }, true)
          else pure (self, false)
        else if node.getType ≠ NodeType.DUMMY then
          pure ({ self with mNodes := updateAt self.mNodes nodeId (fun n => n.setType NodeType.DUMMY) },
            true)
        else pure (self, false)) := by
  obtain ⟨L, ps, ns⟩ := self
  unfold updateNodeTypeAfterNeighbourChanged
  cases hn : nodeAt L nodeId with
  | error e => rfl
  | ok node =>
    cases ps with
    | nil =>
      cases ns with
      | nil => rfl
      | cons s rest =>
        cases hs : nodeAt s nodeId <;> simp only [siblingInfo, dissolveCond, hs] <;> rfl
    | cons s rest =>
      cases hs : nodeAt s nodeId with
      | error e => simp only [siblingInfo, dissolveCond, hs]; rfl
      | ok X =>
        cases ns with
        | nil => simp only [siblingInfo, dissolveCond, hs]; rfl
        | cons s2 rest2 =>
          cases hs2 : nodeAt s2 nodeId <;> simp only [siblingInfo, dissolveCond, hs, hs2] <;> rfl

theorem siblingInfo_cases {sib : List (List Node)} {i : Nat} {info : NodeType × Int × Int}
    (h : siblingInfo sib (i : Int) = Except.ok info) :
    (sib = [] ∧ info = (NodeType.DUMMY, -1, -1)) ∨
    ∃ s rest X, sib = s :: rest ∧ s[i]? = some X ∧
      info = (X.mType, X.mNextNodeId, X.mPrevNodeId) := by
  cases sib with
  | nil =>
    left
    refine ⟨rfl, ?_⟩
    have : (Except.ok (NodeType.DUMMY, -1, -1) : Except Err _) = Except.ok info := h
    injection this with this
    exact this.symm
  | cons s rest =>
    right
    cases hs : nodeAt s (i : Int) with
    | error e =>
      have h1 : siblingInfo (s :: rest) (i : Int) = Except.error e := by
        simp only [siblingInfo, hs]; rfl
      rw [h1] at h
      cases h
    | ok X =>
      have h1 : siblingInfo (s :: rest) (i : Int) =
          Except.ok (X.mType, X.mNextNodeId, X.mPrevNodeId) := by
        simp only [siblingInfo, hs]; rfl
      rw [h1] at h
      injection h with h
      exact ⟨s, rest, X, rfl, nodeAt_ok_natCast hs, h.symm⟩

theorem dissolveCond_iff {self : NodeList} {i : Nat} {N : Node}
    {pinfo ninfo : NodeType × Int × Int}
    (hp : siblingInfo self.mPrev (i : Int) = Except.ok pinfo)
    (hn : siblingInfo self.mNext (i : Int) = Except.ok ninfo) :
    dissolveCond N pinfo ninfo ↔ MustDissolve N (siblingNodes self i) := by
  obtain ⟨L, ps, ns⟩ := self
  simp only at hp hn
  rcases siblingInfo_cases hp with ⟨rfl, rfl⟩ | ⟨s, rest, X, rfl, hX, rfl⟩ <;>
    rcases siblingInfo_cases hn with ⟨rfl, rfl⟩ | ⟨s2, rest2, X2, rfl, hX2, rfl⟩
  · simp [dissolveCond, MustDissolve, siblingNodes]
  · simp only [dissolveCond, MustDissolve, siblingNodes, hX2, Node.getNextNodeId]
    simp
    tauto
  · simp only [dissolveCond, MustDissolve, siblingNodes, hX, Node.getNextNodeId]
    simp
    tauto
  · simp only [dissolveCond, MustDissolve, siblingNodes, hX, hX2, Node.getNextNodeId]
    simp
    tauto

theorem placeholder_type {N : Node} (h : ¬ ((N.isNormal || N.isMove) = true)) :
    N.mType = NodeType.DUMMY ∨ N.mType = NodeType.DISSOLVED := by
  cases ht : N.mType <;> simp [Node.isNormal, Node.isMove, ht] at h ⊢

theorem getElem?_updateAt_self {L : List Node} {i : Nat} {N : Node} (hN : L[i]? = some N)
    (f : Node → Node) : (updateAt L (i : Int) f)[i]? = some (f N) := by
  rw [getElem?_updateAt, if_pos rfl, hN]; rfl

theorem getElem?_updateAt_other (L : List Node) {i j : Nat} (h : j ≠ i) (f : Node → Node) :
    (updateAt L (i : Int) f)[j]? = L[j]? := by
  rw [getElem?_updateAt, if_neg (by omega)]

/-- What `updateNodeTypeAfterNeighbourChanged` returns, whenever it returns. -/
theorem update_returns (fuel : Nat) (self : NodeList) (i : Nat) (N : Node)
    (hN : self.mNodes[i]? = some N) (r : NodeList) (b : Bool)
    (h : updateNodeTypeAfterNeighbourChanged fuel self (i : Int) = Except.ok (r, b)) :
    r.mPrev = self.mPrev ∧ r.mNext = self.mNext ∧ r.mNodes.length = self.mNodes.length ∧
    (∀ j, j ≠ i → r.mNodes[j]? = self.mNodes[j]?) ∧
    ∃ N1, r.mNodes[i]? = some N1 ∧ N1.mPrevNodeId = N.mPrevNodeId ∧
      N1.mNextNodeId = N.mNextNodeId ∧ N1.fC0 = N.fC0 ∧ N1.fP1 = N.fP1 ∧ N1.fC2 = N.fC2 ∧
      (b = true ↔ N1.mType ≠ N.mType) ∧ (b = false → N1 = N) ∧
      ((N.mType = NodeType.NORMAL ∨ N.mType = NodeType.MOVE) → b = false) ∧
      (N.mType ≠ NodeType.NORMAL → N.mType ≠ NodeType.MOVE →
        N1.mType = if MustDissolve N (siblingNodes self i) then NodeType.DISSOLVED
          else NodeType.DUMMY) := by
  rw [update_eq, nodeAt_of_getElem? hN, bind_ok] at h
  by_cases hnm : (N.isNormal || N.isMove) = true
  · rw [if_pos hnm] at h
    injection h with h
    injection h with h1 h2
    subst h1 h2
    refine ⟨rfl, rfl, rfl, fun _ _ => rfl, N, hN, rfl, rfl, rfl, rfl, rfl, by simp, fun _ => rfl,
      fun _ => rfl, ?_⟩
    intro e1 e2
    cases ht : N.mType <;> simp [Node.isNormal, Node.isMove, ht] at hnm e1 e2
  · rw [if_neg hnm] at h
    have hty := placeholder_type hnm
    have hnn : ¬ (N.mType = NodeType.NORMAL ∨ N.mType = NodeType.MOVE) := by
      rcases hty with e | e <;> simp [e]
    cases hp : siblingInfo self.mPrev (i : Int) with
    | error e => rw [hp] at h; cases h
    | ok pinfo =>
      cases hn : siblingInfo self.mNext (i : Int) with
      | error e => rw [hp, bind_ok, hn] at h; cases h
      | ok ninfo =>
        rw [hp, bind_ok, hn, bind_ok] at h
        have hiff := dissolveCond_iff (N := N) hp hn
        by_cases hc : dissolveCond N pinfo ninfo
        · rw [if_pos hc] at h
          have hmd := hiff.mp hc
          rcases hty with e | e
          · have e1 : N.getType ≠ NodeType.DISSOLVED := by simp [Node.getType, e]
            rw [if_pos e1] at h
            cases hpT : prevT fuel self.mNodes (i : Int) with
            | error e => rw [hpT] at h; cases h
            | ok pT =>
              cases hnT : nextT fuel self.mNodes (i : Int) with
              | error e => rw [hpT, bind_ok, hnT] at h; cases h
              | ok nT =>
                rw [hpT, bind_ok, hnT, bind_ok] at h
                injection h with h
                injection h with h1 h2
                subst h1 h2
                refine ⟨rfl, rfl, by simp, ?_,
                  Node.setType { N with fT := (1 / 2) * (pT + nT) } NodeType.DISSOLVED, ?_,
                  rfl, rfl, rfl, rfl, rfl, ?_, ?_, ?_, ?_⟩
                · intro j hj
                  simp only
                  rw [getElem?_updateAt_other _ hj, getElem?_updateAt_other _ hj]
                · simp only
                  exact getElem?_updateAt_self (getElem?_updateAt_self hN _) _
                · simp [Node.setType, e]
                · intro hb; cases hb
                · intro h3; exact absurd h3 hnn
                · intro _ _
                  rw [if_pos hmd]
                  rfl
          · have e1 : ¬ (N.getType ≠ NodeType.DISSOLVED) := by simp [Node.getType, e]
            rw [if_neg e1] at h
            injection h with h
            injection h with h1 h2
            subst h1 h2
            refine ⟨rfl, rfl, rfl, fun _ _ => rfl, N, hN, rfl, rfl, rfl, rfl, rfl, by simp,
              fun _ => rfl, fun _ => rfl, ?_⟩
            intro _ _
            rw [if_pos hmd, e]
        · rw [if_neg hc] at h
          have hmd : ¬ MustDissolve N (siblingNodes self i) := fun x => hc (hiff.mpr x)
          rcases hty with e | e
          · have e1 : ¬ (N.getType ≠ NodeType.DUMMY) := by simp [Node.getType, e]
            rw [if_neg e1] at h
            injection h with h
            injection h with h1 h2
            subst h1 h2
            refine ⟨rfl, rfl, rfl, fun _ _ => rfl, N, hN, rfl, rfl, rfl, rfl, rfl, by simp,
              fun _ => rfl, fun _ => rfl, ?_⟩
            intro _ _
            rw [if_neg hmd, e]
          · have e1 : N.getType ≠ NodeType.DUMMY := by simp [Node.getType, e]
            rw [if_pos e1] at h
            injection h with h
            injection h with h1 h2
            subst h1 h2
            refine ⟨rfl, rfl, by simp, ?_, N.setType NodeType.DUMMY, ?_,
              rfl, rfl, rfl, rfl, rfl, ?_, ?_, ?_, ?_⟩
            · intro j hj
              simp only
              rw [getElem?_updateAt_other _ hj]
            · simp only
              exact getElem?_updateAt_self hN _
            · simp [Node.setType, e]
            · intro hb; cases hb
            · intro h3; exact absurd h3 hnn
            · intro _ _
              rw [if_neg hmd]
              rfl

/-- When `updateNodeTypeAfterNeighbourChanged` returns. -/
theorem update_total (fuel : Nat) (self : NodeList) (i : Nat) (N : Node)
    (hN : self.mNodes[i]? = some N)
    (hp : ∀ s rest, self.mPrev = s :: rest → i < s.length)
    (hn : ∀ s rest, self.mNext = s :: rest → i < s.length)
    (ht : N.mType = NodeType.DUMMY → MustDissolve N (siblingNodes self i) →
      ∃ pT nT, prevT fuel self.mNodes (i : Int) = Except.ok pT ∧
        nextT fuel self.mNodes (i : Int) = Except.ok nT) :
    ∃ r b, updateNodeTypeAfterNeighbourChanged fuel self (i : Int) = Except.ok (r, b) := by
  rw [update_eq, nodeAt_of_getElem? hN, bind_ok]
  by_cases hnm : (N.isNormal || N.isMove) = true
  · rw [if_pos hnm]; exact ⟨_, _, rfl⟩
  · rw [if_neg hnm]
    have hsib : ∀ sib : List (List Node), (∀ s rest, sib = s :: rest → i < s.length) →
        ∃ info, siblingInfo sib (i : Int) = Except.ok info := by
      intro sib hs
      cases sib with
      | nil => exact ⟨_, rfl⟩
      | cons s rest =>
        have hlt := hs s rest rfl
        have hX : s[i]? = some s[i] := List.getElem?_eq_getElem hlt
        refine ⟨(s[i].mType, s[i].mNextNodeId, s[i].mPrevNodeId), ?_⟩
        simp only [siblingInfo, nodeAt_of_getElem? hX]
        rfl
    obtain ⟨pinfo, hpi⟩ := hsib self.mPrev hp
    obtain ⟨ninfo, hni⟩ := hsib self.mNext hn
    rw [hpi, bind_ok, hni, bind_ok]
    have hiff := dissolveCond_iff (N := N) hpi hni
    by_cases hc : dissolveCond N pinfo ninfo
    · rw [if_pos hc]
      by_cases e1 : N.getType ≠ NodeType.DISSOLVED
      · rw [if_pos e1]
        have e : N.mType = NodeType.DUMMY := by
          rcases placeholder_type hnm with e | e
          · exact e
          · exact absurd e e1
        obtain ⟨pT, nT, h1, h2⟩ := ht e (hiff.mp hc)
        rw [h1, bind_ok, h2, bind_ok]
        exact ⟨_, _, rfl⟩
      · rw [if_neg e1]; exact ⟨_, _, rfl⟩
    · rw [if_neg hc]
      by_cases e1 : N.getType ≠ NodeType.DUMMY
      · rw [if_pos e1]; exact ⟨_, _, rfl⟩
      · rw [if_neg e1]; exact ⟨_, _, rfl⟩

/-! ## Claims C1 - C10 -/

/-- C1 (defect found): on the open chain `0 -> 1 -> 2`, `insertNodeBefore(1, blank)` followed by
`removeNodeFromList` of the returned id gives back three nodes, but node 0 ends with previous
link 1 where it had none: `removeNodeFromList` writes the previous link of the predecessor
(nodelist.cpp 73) instead of its next link. -/
theorem removeNodeFromList_insertNodeBefore_openChain3 :
    linksOf openChain3 = [(-1, 1), (0, 2), (1, -1)] ∧
    (insertNodeBefore ⟨openChain3, [], []⟩ 1 Node.blank Neighbour.NONE).map
        (fun r => (linksOf r.1.mNodes, r.2)) =
      Except.ok ([(-1, 1), (0, 2), (1, 3), (2, -1)], 1) ∧
    (do let r ← insertNodeBefore ⟨openChain3, [], []⟩ 1 Node.blank Neighbour.NONE
        removeNodeFromList r.1.mNodes r.2).map linksOf =
      Except.ok [(1, 1), (0, 2), (1, -1)] :=
  ⟨rfl, rfl, rfl⟩

/-- C2: link symmetry is preserved by the relinking edits.  For a list whose links are none or
in range and symmetric, `insertNodeBefore` and `insertNodeAfter` (any blueprint, a MOVE one
included, no propagation) at a valid id, and `moveNodeAfter` / `moveNodeBefore` of a node to a
different target, succeed and return a list with symmetric links. -/
theorem linkSymmetry_preserved_by_relinking (L : List Node) (_hr : LinksInRange L)
    (hs : LinkSymmetry L) :
    (∀ (k : Nat) (bp : Node) (mPrev mNext : List (List Node)), k < L.length →
      ∃ L1, insertNodeBefore ⟨L, mPrev, mNext⟩ (k : Int) bp Neighbour.NONE =
          Except.ok (⟨L1, mPrev, mNext⟩, (k : Int)) ∧ LinkSymmetry L1) ∧
    (∀ (p : Nat) (bp : Node) (mPrev mNext : List (List Node)), p < L.length →
      ∃ L1, insertNodeAfter ⟨L, mPrev, mNext⟩ (p : Int) bp Neighbour.NONE =
          Except.ok (⟨L1, mPrev, mNext⟩, (p : Int) + 1) ∧ LinkSymmetry L1) ∧
    (∀ m a : Nat, m < L.length → a < L.length → m ≠ a →
      ∃ L1, moveNodeAfter L (m : Int) (a : Int) = Except.ok L1 ∧ LinkSymmetry L1) ∧
    (∀ m b : Nat, m < L.length → b < L.length → m ≠ b →
      ∃ L1, moveNodeBefore L (m : Int) (b : Int) = Except.ok L1 ∧ LinkSymmetry L1) := by
  refine ⟨?_, ?_, ?_, ?_⟩
  · intro k bp mPrev mNext hk
    obtain ⟨L4, hok, hsym⟩ := insertNodeBeforeThis_sym L k bp hk hs
    exact ⟨L4, by simp [insertNodeBefore_NONE, hok, Except.map], hsym⟩
  · intro p bp mPrev mNext hp
    obtain ⟨r, hok, hid, hsym⟩ := insertNodeAfterThis_sym L p bp hp hs
    exact ⟨r.1, by simp [insertNodeAfter_NONE, hok, Except.map, hid], hsym⟩
  · intro m a hm ha hne
    exact moveNodeAfter_sym L m a hm ha hne hs
  · intro m b hm hb hne
    exact moveNodeBefore_sym L m b hm hb hne hs

/-- Witness for C2: inserting a MOVE node after node 1 of the open chain `0 -> 1 -> 2`. -/
theorem linkSymmetry_preserved_by_relinking_witness :
    LinksInRange openChain3 ∧ LinkSymmetry openChain3 ∧
    ∃ L1, insertNodeAfter ⟨openChain3, [], []⟩ ((1 : Nat) : Int) Node.move Neighbour.NONE =
        Except.ok (⟨L1, [], []⟩, ((1 : Nat) : Int) + 1) ∧ LinkSymmetry L1 :=
  ⟨by decide, by decide,
    (linkSymmetry_preserved_by_relinking openChain3 (by decide) (by decide)).2.1 1 Node.move [] []
      (by decide)⟩

/-- C3 (defect found): on the chain `0 -> 2 -> 1`, `removeNodeFromList(2)` leaves two nodes, but
the former predecessor (node 0) keeps next link 2, which no longer names a node, and gets
previous link 1; only the former successor is relinked. -/
theorem removeNodeFromList_openChain021 :
    linksOf openChain021 = [(-1, 2), (2, -1), (0, 1)] ∧
    (removeNodeFromList openChain021 2).map linksOf = Except.ok [(1, 2), (0, -1)] :=
  ⟨rfl, rfl⟩

/-- C4 (defect found): on the open chain `0 -> 1 -> 2`, whose last node has no next link,
`lastSegmentNode(0)` returns no id, whatever the fuel: after three steps it reads
`mNodes.at(-1)`.  So `firstSegmentNode(lastSegmentNode(0))` has no value, while
`firstSegmentNode(0)` is 0. -/
theorem lastSegmentNode_openChain3 (fuel : Nat) :
    (∃ e, lastSegmentNode fuel openChain3 0 = Except.error e) ∧
    lastSegmentNode (fuel + 3) openChain3 0 = Except.error Err.IndexOutOfRange ∧
    firstSegmentNode (fuel + 1) openChain3 0 = Except.ok 0 := by
  refine ⟨?_, rfl, rfl⟩
  match fuel with
  | 0 => exact ⟨_, rfl⟩
  | 1 => exact ⟨_, rfl⟩
  | 2 => exact ⟨_, rfl⟩
  | _ + 3 => exact ⟨_, rfl⟩

/-- C5 (defect found): on the open chain `0 -> 1 -> 2`, `reverseSegment(0)` returns no list,
whatever the fuel: after switching nodes 0, 1 and 2 it walks on and reads `mNodes[-1]`, because
the loop `while(const int currNodeId = nextSegId)` stops on id 0, not on the none link -1. -/
theorem reverseSegment_openChain3 (fuel : Nat) :
    (∃ e, reverseSegment fuel openChain3 0 = Except.error e) ∧
    reverseSegment (fuel + 3) openChain3 0 = Except.error Err.IndexOutOfRange := by
  refine ⟨?_, rfl⟩
  match fuel with
  | 0 => exact ⟨_, rfl⟩
  | 1 => exact ⟨_, rfl⟩
  | 2 => exact ⟨_, rfl⟩
  | _ + 3 => exact ⟨_, rfl⟩

/-- C6: for a closed loop of `n >= 2` NORMAL nodes stored in link order, `toSkPath` (with fuel
at least `n`) yields exactly `moveTo` the anchor of node 0, the `cubicTo` into each node
`1 .. n-1` from its predecessor, the closing `cubicTo` back to node 0 and `close`. -/
theorem toSkPath_closed_normal_loop (L : List Node) (h : IsNormalLoop L) (fuel : Nat)
    (hfuel : L.length ≤ fuel) : toSkPath fuel L = Except.ok (loopPath L) :=
  toSkPath_normalLoop h fuel hfuel

/-- Witness for C6: the square `A(0,0) B(10,0) C(10,10) D(0,10)` gives one `moveTo`, four
`cubicTo` along the edges and `close`. -/
theorem toSkPath_closed_normal_loop_witness :
    IsNormalLoop square ∧ square.length ≤ 4 ∧
    toSkPath 4 square = Except.ok (loopPath square) ∧
    loopPath square =
      [PathCmd.moveTo ⟨0, 0⟩,
       PathCmd.cubicTo ⟨3, 0⟩ ⟨7, 0⟩ ⟨10, 0⟩,
       PathCmd.cubicTo ⟨10, 3⟩ ⟨10, 7⟩ ⟨10, 10⟩,
       PathCmd.cubicTo ⟨7, 10⟩ ⟨3, 10⟩ ⟨0, 10⟩,
       PathCmd.cubicTo ⟨0, 7⟩ ⟨0, 3⟩ ⟨0, 0⟩,
       PathCmd.close] :=
  ⟨by decide, by decide, toSkPath_closed_normal_loop square (by decide) 4 (by decide), rfl⟩

/-- C7: for a closed loop of `n >= 2` NORMAL nodes stored in link order and a valid id `k`,
`splitNode(k)` succeeds, the list has `n + 1` nodes and is again a closed loop
`0 -> 1 -> ... -> n -> 0` of NORMAL nodes, and `firstSegmentNode(i)` returns 0 for every id `i`
of the new list (with fuel at least twice its length). -/
theorem splitNode_closed_loop (self : NodeList) (k : Nat) (h : IsNormalLoop self.mNodes)
    (hk : k < self.mNodes.length) :
    ∃ L1, splitNode self (k : Int) = Except.ok ⟨L1, self.mPrev, self.mNext⟩ ∧
      L1.length = self.mNodes.length + 1 ∧ IsNormalLoop L1 ∧
      ∀ (i fuel : Nat), i < L1.length → 2 * L1.length ≤ fuel →
        firstSegmentNode fuel L1 (i : Int) = Except.ok 0 := by
  obtain ⟨L1, hok, hlen, hloop, _⟩ := loopPath_splitNode self k h hk
  refine ⟨L1, hok, hlen, hloop, ?_⟩
  intro i fuel hi hfuel
  exact firstSegmentNode_normalLoop hloop i hi fuel (by omega)

/-- Witness for C7: splitting node B (id 1) of the square. -/
theorem splitNode_closed_loop_witness :
    IsNormalLoop square ∧ 1 < square.length ∧
    ∃ L1, splitNode ⟨square, [], []⟩ ((1 : Nat) : Int) = Except.ok ⟨L1, [], []⟩ ∧
      L1.length = square.length + 1 ∧ IsNormalLoop L1 ∧
      ∀ (i fuel : Nat), i < L1.length → 2 * L1.length ≤ fuel →
        firstSegmentNode fuel L1 (i : Int) = Except.ok 0 :=
  ⟨by decide, by decide, splitNode_closed_loop ⟨square, [], []⟩ 1 (by decide) (by decide)⟩

/-- C8: for a closed loop of `n >= 2` NORMAL nodes stored in link order and a valid id `k`
with anchor `P`, the `toSkPath` output after `splitNode(k)` is the output before it with the
one zero-length command `cubicTo(P, P, P)` inserted directly after the command at position
`k`, which is the command arriving at node `k` (the `moveTo` when `k = 0`, otherwise the
`cubicTo` from node `k - 1`); every other command is unchanged. -/
theorem toSkPath_splitNode (self : NodeList) (k : Nat) (h : IsNormalLoop self.mNodes)
    (hk : k < self.mNodes.length) (fuel : Nat) (hfuel : self.mNodes.length + 1 ≤ fuel) :
    ∃ L1 before, splitNode self (k : Int) = Except.ok ⟨L1, self.mPrev, self.mNext⟩ ∧
      toSkPath fuel self.mNodes = Except.ok before ∧
      before[k]? = some (if k = 0 then PathCmd.moveTo (nodeD self.mNodes k).fP1
        else cubicBetween self.mNodes (k - 1) k) ∧
      toSkPath fuel L1 = Except.ok (before.take (k + 1) ++
        PathCmd.cubicTo (nodeD self.mNodes k).fP1 (nodeD self.mNodes k).fP1
          (nodeD self.mNodes k).fP1 :: before.drop (k + 1)) := by
  obtain ⟨L1, hok, hlen, hloop, hpath⟩ := loopPath_splitNode self k h hk
  refine ⟨L1, loopPath self.mNodes, hok, toSkPath_normalLoop h fuel (by omega), ?_, ?_⟩
  · have hn2 := h.1
    rw [loopPath_eq_map self.mNodes (by omega), List.getElem?_map,
      List.getElem?_range (by omega)]
    simp only [Option.map_some', loopCmd, hk, if_true]
    by_cases hk0 : k = 0
    · subst hk0; simp
    · simp [hk0]
  · rw [toSkPath_normalLoop hloop fuel (by omega), hpath]

/-- Witness for C8: splitting node B (id 1) of the square. -/
theorem toSkPath_splitNode_witness :
    IsNormalLoop square ∧ 1 < square.length ∧ square.length + 1 ≤ 5 ∧
    ∃ L1 before, splitNode ⟨square, [], []⟩ ((1 : Nat) : Int) = Except.ok ⟨L1, [], []⟩ ∧
      toSkPath 5 square = Except.ok before ∧
      before[1]? = some (if 1 = 0 then PathCmd.moveTo (nodeD square 1).fP1
        else cubicBetween square (1 - 1) 1) ∧
      toSkPath 5 L1 = Except.ok (before.take (1 + 1) ++
        PathCmd.cubicTo (nodeD square 1).fP1 (nodeD square 1).fP1 (nodeD square 1).fP1 ::
          before.drop (1 + 1)) :=
  ⟨by decide, by decide, by decide,
    toSkPath_splitNode ⟨square, [], []⟩ 1 (by decide) (by decide) 5 (by decide)⟩

/-- C9: for the simple open segment `prevNormal(0) -> dissolved(1, t) -> nextNormal(2)` with
`0 < t < 1` and any geometry, `promoteDissolvedNodeToNormal(1)` succeeds and the `toSkPath`
output before and after it is the same command sequence: `moveTo` the anchor of `prevNormal`,
then the `cubicTo` of the first half and of the second half of the cubic from `prevNormal` to
`nextNormal` split at `t` (exact arithmetic, fuel at least 3). -/
theorem promote_preserves_toSkPath (p d n : Node) (fuel : Nat) (_ht0 : 0 < d.fT)
    (_ht1 : d.fT < 1) (hfuel : 3 ≤ fuel) :
    ∃ L1, promoteDissolvedNodeToNormal fuel (openSegment3 p d n) 1 = Except.ok L1 ∧
      toSkPath fuel (openSegment3 p d n) = Except.ok (splitPath p n d.fT) ∧
      toSkPath fuel L1 = Except.ok (splitPath p n d.fT) := by
  obtain ⟨f, rfl⟩ : ∃ f, fuel = f + 3 := ⟨fuel - 3, by omega⟩
  exact ⟨promotedSegment3 p d n, promote_openSegment3 p d n f, toSkPath_openSegment3 p d n f,
    toSkPath_promotedSegment3 p d n f⟩

/-- Witness for C9: the marker at `t = 1/2` on a sample arc. -/
theorem promote_preserves_toSkPath_witness :
    0 < arcMarker.fT ∧ arcMarker.fT < 1 ∧ 3 ≤ 3 ∧
    ∃ L1, promoteDissolvedNodeToNormal 3 (openSegment3 arcStart arcMarker arcEnd) 1 =
        Except.ok L1 ∧
      toSkPath 3 (openSegment3 arcStart arcMarker arcEnd) =
        Except.ok (splitPath arcStart arcEnd arcMarker.fT) ∧
      toSkPath 3 L1 = Except.ok (splitPath arcStart arcEnd arcMarker.fT) :=
  ⟨by norm_num [arcMarker], by norm_num [arcMarker], by decide,
    promote_preserves_toSkPath arcStart arcMarker arcEnd 3 (by norm_num [arcMarker])
      (by norm_num [arcMarker]) (by decide)⟩

/-- C10: for a list whose links are none or in range, a valid id `k` and a blueprint,
`insertNodeBefore(k, blueprint)` without propagation returns `k`; the list has one node more;
the node at `k` has the blueprint's type and geometry, next link `k + 1` and as previous link
the renumbered former previous link of the old node `k`; every old node `i` is stored at `i`
(`i < k`) or `i + 1` (`i >= k`) with its type and geometry; its previous link is `k` for the
old node `k` and otherwise the old one renumbered (links `>= k` plus one, others unchanged);
its next link is `k` for the one node which is then the previous node of the inserted node and
otherwise the old one renumbered. -/
theorem insertNodeBefore_spec (self : NodeList) (k : Nat) (bp : Node)
    (hk : k < self.mNodes.length) (_hr : LinksInRange self.mNodes) :
    ∃ L1 K, self.mNodes[k]? = some K ∧
      insertNodeBefore self (k : Int) bp Neighbour.NONE =
        Except.ok (⟨L1, self.mPrev, self.mNext⟩, (k : Int)) ∧
      L1.length = self.mNodes.length + 1 ∧
      L1[k]? = some { bp with
        mPrevNodeId := shiftUp k K.mPrevNodeId, mNextNodeId := (k : Int) + 1 } ∧
      ∀ (i : Nat) (N : Node), self.mNodes[i]? = some N →
        L1[shiftIdx k i]? = some { N with
          mPrevNodeId := if i = k then (k : Int) else shiftUp k N.mPrevNodeId,
          mNextNodeId := if shiftUp k K.mPrevNodeId = (shiftIdx k i : Nat) then (k : Int)
            else shiftUp k N.mNextNodeId } := by
  have hK : self.mNodes[k]? = some self.mNodes[k] := List.getElem?_eq_getElem hk
  obtain ⟨L4, hok, hlen, hnew, hold⟩ := insertNodeBeforeThis_ok self.mNodes k bp _ hK
  exact ⟨L4, _, hK, by simp [insertNodeBefore_NONE, hok, Except.map], hlen, hnew, hold⟩

/-- Witness for C10: inserting a blank node before node 1 of the open chain `0 -> 1 -> 2`. -/
theorem insertNodeBefore_spec_witness :
    1 < openChain3.length ∧ LinksInRange openChain3 ∧
    ∃ L1 K, openChain3[1]? = some K ∧
      insertNodeBefore ⟨openChain3, [], []⟩ ((1 : Nat) : Int) Node.blank Neighbour.NONE =
        Except.ok (⟨L1, [], []⟩, ((1 : Nat) : Int)) ∧
      L1.length = openChain3.length + 1 ∧
      L1[1]? = some { Node.blank with
        mPrevNodeId := shiftUp (1 : Nat) K.mPrevNodeId, mNextNodeId := ((1 : Nat) : Int) + 1 } ∧
      ∀ (i : Nat) (N : Node), openChain3[i]? = some N →
        L1[shiftIdx 1 i]? = some { N with
          mPrevNodeId := if i = 1 then ((1 : Nat) : Int) else shiftUp (1 : Nat) N.mPrevNodeId,
          mNextNodeId :=
            if shiftUp (1 : Nat) K.mPrevNodeId = (shiftIdx 1 i : Nat) then ((1 : Nat) : Int)
            else shiftUp (1 : Nat) N.mNextNodeId } :=
  ⟨by decide, by decide,
    insertNodeBefore_spec ⟨openChain3, [], []⟩ 1 Node.blank (by decide) (by decide)⟩

/-! ## Claims C11 - C20 -/

/-- C11 (counterexample): the single NORMAL node that is its own previous and next node has
links in range, symmetric in both directions, no MOVE node, and lies on a closed loop (one
step along the previous link leads back to it); `firstSegmentNode(0)` returns no id, it fails
with "Node points to itself". -/
theorem firstSegmentNode_selfLoop :
    LinksInRange selfLoop ∧ LinkSymmetryBoth selfLoop ∧ NoMoveNode selfLoop ∧
    prevWalk selfLoop 0 1 = some 0 ∧
    (∀ fuel m, firstSegmentNode fuel selfLoop 0 ≠ Except.ok m) ∧
    ∀ fuel, firstSegmentNode (fuel + 1) selfLoop 0 = Except.error Err.NodePointsToItself := by
  refine ⟨by decide, by decide, by decide, rfl, ?_, fun _ => rfl⟩
  intro fuel m
  match fuel with
  | 0 => intro h; cases h
  | _ + 1 => intro h; cases h

/-- C11 (amended): for every list without MOVE nodes whose links are in range and symmetric in
both directions and in which no node is its own previous node, and every valid id `n`:
if `n` lies on a closed loop (following previous links from `n` comes back to `n`), there is
an id `m` on the walk from `n` that is the smallest id on it, and `firstSegmentNode` returns
`m` for every node of the loop (with fuel at least twice the node count); otherwise the walk
from `n` along the previous links reaches a node `e` without previous link, `e` is the only
such node on the walk, and `firstSegmentNode(n)` returns `e` (with fuel at least the node
count).  For an id outside `[0, count)` the result is -1. -/
theorem firstSegmentNode_walk_spec (L : List Node) (n : Nat) (hr : LinksInRange L)
    (hb : LinkSymmetryBoth L) (hm : NoMoveNode L) (hs : NoSelfLink L) (hn : n < L.length) :
    ((∃ k, 1 ≤ k ∧ prevWalk L n k = some n) →
      ∃ m, (∃ j, prevWalk L n j = some m) ∧
        ∀ j c, prevWalk L n j = some c → m ≤ c ∧
          ∀ fuel, 2 * L.length ≤ fuel →
            firstSegmentNode fuel L (c : Int) = Except.ok (m : Int)) ∧
    ((¬ ∃ k, 1 ≤ k ∧ prevWalk L n k = some n) →
      ∃ K e E, prevWalk L n K = some e ∧ L[e]? = some E ∧ E.hasPreviousNode = false ∧
        (∀ K1 e1 E1, prevWalk L n K1 = some e1 → L[e1]? = some E1 →
          E1.hasPreviousNode = false → e1 = e) ∧
        ∀ fuel, L.length ≤ fuel → firstSegmentNode fuel L (n : Int) = Except.ok (e : Int)) ∧
    (∀ (x : Int) (fuel : Nat), x < 0 ∨ (L.length : Int) ≤ x →
      firstSegmentNode fuel L x = Except.ok (-1)) := by
  refine ⟨?_, ?_, fun x fuel h => firstSegmentNode_outside fuel L x h⟩
  · rintro ⟨k, hk, hc⟩
    exact firstSegmentNode_closed_all hr hb hm hs hn hk hc
  · intro hopen
    obtain ⟨K, e, he, hstop, huniq, hres⟩ := firstSegmentNode_open hr hb hm hs hn hopen
    have helt := prevWalk_lt hr hn _ _ he
    have hE : L[e]? = some L[e] := List.getElem?_eq_getElem helt
    have hnp : ∀ (c : Nat) (C : Node), L[c]? = some C →
        (C.hasPreviousNode = false ↔ prevStep L c = none) := by
      intro c C hC
      rw [prevStep_eq_none hC]
      simp only [Node.hasPreviousNode, decide_eq_false_iff_not]
      omega
    refine ⟨K, e, L[e], he, hE, (hnp e _ hE).mpr hstop, ?_, hres⟩
    intro K1 e1 E1 h1 hE1 h2
    exact huniq K1 e1 h1 ((hnp e1 E1 hE1).mp h2)

/-- Witness for C11: node C (id 2) of the closed square; the smallest id on its loop is 0. -/
theorem firstSegmentNode_walk_spec_witness :
    LinksInRange square ∧ LinkSymmetryBoth square ∧ NoMoveNode square ∧ NoSelfLink square ∧
    2 < square.length ∧
    ((∃ k, 1 ≤ k ∧ prevWalk square 2 k = some 2) →
      ∃ m, (∃ j, prevWalk square 2 j = some m) ∧
        ∀ j c, prevWalk square 2 j = some c → m ≤ c ∧
          ∀ fuel, 2 * square.length ≤ fuel →
            firstSegmentNode fuel square (c : Int) = Except.ok (m : Int)) ∧
    ((¬ ∃ k, 1 ≤ k ∧ prevWalk square 2 k = some 2) →
      ∃ K e E, prevWalk square 2 K = some e ∧ square[e]? = some E ∧
        E.hasPreviousNode = false ∧
        (∀ K1 e1 E1, prevWalk square 2 K1 = some e1 → square[e1]? = some E1 →
          E1.hasPreviousNode = false → e1 = e) ∧
        ∀ fuel, square.length ≤ fuel →
          firstSegmentNode fuel square ((2 : Nat) : Int) = Except.ok (e : Int)) ∧
    (∀ (x : Int) (fuel : Nat), x < 0 ∨ (square.length : Int) ≤ x →
      firstSegmentNode fuel square x = Except.ok (-1)) :=
  ⟨by decide, by decide, by decide, by decide, by decide,
    firstSegmentNode_walk_spec square 2 (by decide) (by decide) (by decide) (by decide)
      (by decide)⟩

/-- C12 (defect found): on the open chain `1 -> 0` of NORMAL nodes, whose last node 0 has no
next link, `lastSegmentNode` returns no id, whatever the fuel: called on the end node 0 it
reads `mNodes.at(-1)` at once, called on node 1 it does so after one step. -/
theorem lastSegmentNode_openChain10 (fuel : Nat) :
    LinksInRange openChain10 ∧ LinkSymmetry openChain10 ∧
    nextAt openChain10 0 = some (-1) ∧ typeAt openChain10 0 = some NodeType.NORMAL ∧
    lastSegmentNode (fuel + 1) openChain10 0 = Except.error Err.IndexOutOfRange ∧
    lastSegmentNode (fuel + 2) openChain10 1 = Except.error Err.IndexOutOfRange ∧
    (∃ e, lastSegmentNode fuel openChain10 0 = Except.error e) ∧
    (∃ e, lastSegmentNode fuel openChain10 1 = Except.error e) := by
  refine ⟨by decide, by decide, rfl, rfl, rfl, rfl, ?_, ?_⟩
  · match fuel with
    | 0 => exact ⟨_, rfl⟩
    | _ + 1 => exact ⟨_, rfl⟩
  · match fuel with
    | 0 => exact ⟨_, rfl⟩
    | 1 => exact ⟨_, rfl⟩
    | _ + 2 => exact ⟨_, rfl⟩

/-- C13: for every list and valid id `n` whose node has `prevId = n`, `firstSegmentNode(n)`
fails with "Node points to itself" (with any fuel that lets the loop run, and it returns no
id with any fuel); and for every valid id `n` whose node is not MOVE and has `nextId = n`,
`lastSegmentNode(n)` fails with the same error. -/
theorem self_link_rejected (L : List Node) (n : Nat) (N : Node) (hN : L[n]? = some N) :
    (N.mPrevNodeId = (n : Int) →
      (∀ fuel, firstSegmentNode (fuel + 1) L (n : Int) =
        Except.error Err.NodePointsToItself) ∧
      ∀ fuel m, firstSegmentNode fuel L (n : Int) ≠ Except.ok m) ∧
    (N.mType ≠ NodeType.MOVE → N.mNextNodeId = (n : Int) →
      (∀ fuel, lastSegmentNode (fuel + 1) L (n : Int) =
        Except.error Err.NodePointsToItself) ∧
      ∀ fuel m, lastSegmentNode fuel L (n : Int) ≠ Except.ok m) := by
  have hlt : n < L.length := (List.getElem?_eq_some_iff.mp hN).1
  have h1 : ¬ ((n : Int) < 0) := by omega
  have h2 : ¬ ((n : Int) ≥ (L.length : Int)) := by omega
  refine ⟨?_, ?_⟩
  · intro hp
    refine ⟨fun fuel => firstSegmentNode_self_prev L n N fuel hN hp, ?_⟩
    intro fuel m
    match fuel with
    | 0 =>
      unfold firstSegmentNode
      rw [if_neg h1, if_neg h2, nodeAt_of_getElem? hN]
      intro h; cases h
    | f + 1 =>
      rw [firstSegmentNode_self_prev L n N f hN hp]
      intro h; cases h
  · intro hm hp
    refine ⟨fun fuel => lastSegmentNode_self_next L n N fuel hN hm hp, ?_⟩
    intro fuel m
    match fuel with
    | 0 =>
      unfold lastSegmentNode
      rw [if_neg h1, if_neg h2, nodeAt_of_getElem? hN]
      intro h; cases h
    | f + 1 =>
      rw [lastSegmentNode_self_next L n N f hN hm hp]
      intro h; cases h

/-- Witness for C13: the single NORMAL node whose previous and next links are its own id. -/
theorem self_link_rejected_witness :
    selfLoop[0]? = some (linkNode NodeType.NORMAL 0 0) ∧
    ((linkNode NodeType.NORMAL 0 0).mPrevNodeId = ((0 : Nat) : Int) →
      (∀ fuel, firstSegmentNode (fuel + 1) selfLoop ((0 : Nat) : Int) =
        Except.error Err.NodePointsToItself) ∧
      ∀ fuel m, firstSegmentNode fuel selfLoop ((0 : Nat) : Int) ≠ Except.ok m) ∧
    ((linkNode NodeType.NORMAL 0 0).mType ≠ NodeType.MOVE →
      (linkNode NodeType.NORMAL 0 0).mNextNodeId = ((0 : Nat) : Int) →
      (∀ fuel, lastSegmentNode (fuel + 1) selfLoop ((0 : Nat) : Int) =
        Except.error Err.NodePointsToItself) ∧
      ∀ fuel m, lastSegmentNode fuel selfLoop ((0 : Nat) : Int) ≠ Except.ok m) :=
  ⟨rfl, self_link_rejected selfLoop 0 (linkNode NodeType.NORMAL 0 0) rfl⟩

/-- C14 (defect found): on the open chain `1 -> 0` of NORMAL nodes, links
`[(1,-1), (-1,0)]`, `reverseSegment(1)` and `reverseSegment(0)` return the links
`[(1,-1), (0,-1)]`: node 1 is switched, node 0 of the same segment is not, because the loop
`while(const int currNodeId = nextSegId)` ends when the next id is 0. -/
theorem reverseSegment_openChain10 (fuel : Nat) :
    linksOf openChain10 = [(1, -1), (-1, 0)] ∧
    firstSegmentNode (fuel + 2) openChain10 0 = Except.ok 1 ∧
    (reverseSegment (fuel + 1) openChain10 1).map linksOf = Except.ok [(1, -1), (0, -1)] ∧
    (reverseSegment (fuel + 2) openChain10 0).map linksOf = Except.ok [(1, -1), (0, -1)] :=
  ⟨rfl, rfl, rfl, rfl⟩

/-- C15 (defect found): in the list of a MOVE node (id 0) followed by a NORMAL node (id 1,
previous link 0, no next link), which has links in range and satisfies link symmetry, the
segment of node 1 is an open chain bounded by the MOVE node and by an absent next link, and
`segmentClosed(1)` is true: `firstSegmentNode(1)` is 1 and node 1 has a previous link. -/
theorem segmentClosed_moveThenNormal (fuel : Nat) :
    LinksInRange moveThenNormal ∧ LinkSymmetry moveThenNormal ∧
    typeAt moveThenNormal 0 = some NodeType.MOVE ∧ prevAt moveThenNormal 1 = some 0 ∧
    nextAt moveThenNormal 1 = some (-1) ∧
    firstSegmentNode (fuel + 1) moveThenNormal 1 = Except.ok 1 ∧
    segmentClosed (fuel + 1) moveThenNormal 1 = Except.ok true :=
  ⟨by decide, by decide, rfl, rfl, rfl, rfl, rfl⟩

/-- C16 (counterexample): in the chain `0 -> 1 -> 2` whose node 1 is a MOVE node with next
link 2, `splitNode(1)` stores the duplicate at id 2 with next link -1, not 3 (the renumbered
former next of node 1), and the former next node, now id 3, gets previous link -1, not 2. -/
theorem splitNode_chainWithMove :
    (splitNode ⟨chainWithMove, [], []⟩ 1).map
        (fun r => r.mNodes.map (fun n => (n.mType, n.mPrevNodeId, n.mNextNodeId))) =
      Except.ok [(NodeType.NORMAL, -1, 1), (NodeType.MOVE, 0, 2), (NodeType.MOVE, 1, -1),
        (NodeType.NORMAL, -1, -1)] := rfl

/-- C16 (amended): for every list and valid id `k` with node `K`, `splitNode(k)` succeeds and
adds exactly one node, stored at `k + 1` with previous link `k`; node `k` gets next link
`k + 1`.  If `K` is not MOVE the new node's next link is the renumbered former next of `k`
and that node's previous link becomes `k + 1`; if `K` is MOVE the new node's next link is -1
and the former next node's previous link becomes -1.  Both nodes have type, anchor and `t`
of `K`; for NORMAL `K` the original keeps its in-handle and gets out-handle = anchor, the
duplicate gets in-handle = anchor and keeps the out-handle; otherwise both keep the handles
of `K`.  Every other node keeps its fields apart from the renumbered links. -/
theorem splitNode_spec (self : NodeList) (k : Nat) (K : Node)
    (hK : self.mNodes[k]? = some K) :
    ∃ L4 K0 K1, splitNode self (k : Int) = Except.ok ⟨L4, self.mPrev, self.mNext⟩ ∧
      L4.length = self.mNodes.length + 1 ∧
      L4[k]? = some K0 ∧ L4[k + 1]? = some K1 ∧
      K0.mNextNodeId = (k : Int) + 1 ∧ K1.mPrevNodeId = (k : Int) ∧
      K1.mNextNodeId = (if K.isMove then -1 else shiftUp ((k : Int) + 1) K.mNextNodeId) ∧
      (∀ (j : Nat) (J : Node), self.mNodes[j]? = some J → K.mNextNodeId = (j : Int) →
        prevAt L4 (shiftIdx (k + 1) j) = some (if K.isMove then -1 else (k : Int) + 1)) ∧
      K0.mType = K.mType ∧ K0.fP1 = K.fP1 ∧ K0.fT = K.fT ∧
      K1.mType = K.mType ∧ K1.fP1 = K.fP1 ∧ K1.fT = K.fT ∧
      K0.fC0 = K.fC0 ∧ K0.fC2 = (if K.isNormal then K.fP1 else K.fC2) ∧
      K1.fC0 = (if K.isNormal then K.fP1 else K.fC0) ∧ K1.fC2 = K.fC2 ∧
      ∀ (i : Nat) (N : Node), self.mNodes[i]? = some N → i ≠ k →
        L4[shiftIdx (k + 1) i]? = some { N with
          mPrevNodeId :=
            if K.mNextNodeId = (i : Int) then (if K.isMove then -1 else (k : Int) + 1)
            else shiftUp ((k : Int) + 1) N.mPrevNodeId,
          mNextNodeId := shiftUp ((k : Int) + 1) N.mNextNodeId } := by
  obtain ⟨L4, hok, hlen, hnew, hold⟩ := splitNode_ok self k K hK
  have hk0 := hold k K hK
  have hsk : shiftIdx (k + 1) k = k := by simp [shiftIdx]
  rw [hsk] at hk0
  have hcast : ((k : Int) + 1) = ((k + 1 : Nat) : Int) := by push_cast; rfl
  refine ⟨L4, _, _, hok, hlen, hk0, hnew, ?_, rfl, rfl, ?_, ?_, ?_, ?_, ?_, ?_, ?_, ?_, ?_, ?_,
    ?_, ?_⟩
  · simp
  · intro j J hJ hj
    rw [prevAt, hold j J hJ]
    have : shiftUp ((k : Int) + 1) K.mNextNodeId = ((shiftIdx (k + 1) j : Nat) : Int) := by
      rw [hcast]
      exact (shiftUp_eq_shiftIdx (k + 1) K.mNextNodeId j).mpr hj
    simp [this]
  · by_cases h : K.isNormal = true <;> simp [h]
  · by_cases h : K.isNormal = true <;> simp [h]
  · by_cases h : K.isNormal = true <;> simp [h]
  · by_cases h : K.isNormal = true <;> simp [h]
  · by_cases h : K.isNormal = true <;> simp [h]
  · by_cases h : K.isNormal = true <;> simp [h]
  · by_cases h : K.isNormal = true <;> simp [h]
  · by_cases h : K.isNormal = true <;> simp [h]
  · by_cases h : K.isNormal = true <;> simp [h]
  · by_cases h : K.isNormal = true <;> simp [h]
  · intro i N hN hik
    rw [hold i N hN]
    have e : (shiftUp ((k : Int) + 1) K.mNextNodeId = ((shiftIdx (k + 1) i : Nat) : Int)) ↔
        K.mNextNodeId = (i : Int) := by
      rw [hcast]
      exact shiftUp_eq_shiftIdx (k + 1) K.mNextNodeId i
    have hik2 : ¬ (i = k ∧ K.isNormal = true) := fun h => hik h.1
    dsimp only
    rw [if_neg hik2, if_neg hik]
    by_cases h : K.mNextNodeId = (i : Int)
    · rw [if_pos (e.mpr h), if_pos h]
    · have h1 : ¬ (shiftUp ((k : Int) + 1) K.mNextNodeId = ((shiftIdx (k + 1) i : Nat) : Int)) :=
        fun h2 => h (e.mp h2)
      rw [if_neg h1, if_neg h]

/-- Witness for C16: splitting the middle node of the open chain `0 -> 1 -> 2`. -/
theorem splitNode_spec_witness :
    openChain3[1]? = some (linkNode NodeType.NORMAL 0 2) ∧
    ∃ L4 K0 K1, splitNode ⟨openChain3, [], []⟩ ((1 : Nat) : Int) = Except.ok ⟨L4, [], []⟩ ∧
      L4.length = openChain3.length + 1 ∧
      L4[1]? = some K0 ∧ L4[1 + 1]? = some K1 ∧
      K0.mNextNodeId = ((1 : Nat) : Int) + 1 ∧ K1.mPrevNodeId = ((1 : Nat) : Int) ∧
      K1.mNextNodeId = (if (linkNode NodeType.NORMAL 0 2).isMove then -1
        else shiftUp (((1 : Nat) : Int) + 1) (linkNode NodeType.NORMAL 0 2).mNextNodeId) ∧
      (∀ (j : Nat) (J : Node), openChain3[j]? = some J →
        (linkNode NodeType.NORMAL 0 2).mNextNodeId = (j : Int) →
        prevAt L4 (shiftIdx (1 + 1) j) =
          some (if (linkNode NodeType.NORMAL 0 2).isMove then -1 else ((1 : Nat) : Int) + 1)) ∧
      K0.mType = (linkNode NodeType.NORMAL 0 2).mType ∧
      K0.fP1 = (linkNode NodeType.NORMAL 0 2).fP1 ∧ K0.fT = (linkNode NodeType.NORMAL 0 2).fT ∧
      K1.mType = (linkNode NodeType.NORMAL 0 2).mType ∧
      K1.fP1 = (linkNode NodeType.NORMAL 0 2).fP1 ∧ K1.fT = (linkNode NodeType.NORMAL 0 2).fT ∧
      K0.fC0 = (linkNode NodeType.NORMAL 0 2).fC0 ∧
      K0.fC2 = (if (linkNode NodeType.NORMAL 0 2).isNormal
        then (linkNode NodeType.NORMAL 0 2).fP1 else (linkNode NodeType.NORMAL 0 2).fC2) ∧
      K1.fC0 = (if (linkNode NodeType.NORMAL 0 2).isNormal
        then (linkNode NodeType.NORMAL 0 2).fP1 else (linkNode NodeType.NORMAL 0 2).fC0) ∧
      K1.fC2 = (linkNode NodeType.NORMAL 0 2).fC2 ∧
      ∀ (i : Nat) (N : Node), openChain3[i]? = some N → i ≠ 1 →
        L4[shiftIdx (1 + 1) i]? = some { N with
          mPrevNodeId :=
            if (linkNode NodeType.NORMAL 0 2).mNextNodeId = (i : Int) then
              (if (linkNode NodeType.NORMAL 0 2).isMove then -1 else ((1 : Nat) : Int) + 1)
            else shiftUp (((1 : Nat) : Int) + 1) N.mPrevNodeId,
          mNextNodeId := shiftUp (((1 : Nat) : Int) + 1) N.mNextNodeId } :=
  ⟨rfl, splitNode_spec ⟨openChain3, [], []⟩ 1 (linkNode NodeType.NORMAL 0 2) rfl⟩

/-- C18 (counterexample): in the closed loop of one NORMAL node (id 0, in-handle `(1,1)`) and
one DISSOLVED marker (id 1, `t = 1/2`), node 0 is the enclosing NORMAL node of the marker on
both sides; promoting the marker succeeds and changes the in-handle of node 0 to
`(1/2, 1/2)`. -/
theorem promote_loopOneNormal :
    typeAt loopOneNormal 1 = some NodeType.DISSOLVED ∧
    prevNormalId 1 loopOneNormal 1 = Except.ok 0 ∧
    nextNormalId 1 loopOneNormal 1 = Except.ok 0 ∧
    (loopOneNormal[0]?).map Node.fC0 = some ⟨1, 1⟩ ∧
    ∃ L1 P1, promoteDissolvedNodeToNormal 1 loopOneNormal 1 = Except.ok L1 ∧
      L1[0]? = some P1 ∧ P1.fC0 = ⟨1 / 2, 1 / 2⟩ := by
  refine ⟨rfl, rfl, rfl, rfl, ?_⟩
  have hD : loopOneNormal[1]? =
      some ⟨⟨0, 0⟩, ⟨0, 0⟩, ⟨0, 0⟩, 1 / 2, NodeType.DISSOLVED, 0, 0⟩ := rfl
  have hP : loopOneNormal[0]? =
      some ⟨⟨1, 1⟩, ⟨0, 0⟩, ⟨2, 3⟩, 0, NodeType.NORMAL, 1, 1⟩ := rfl
  have hw := promote_eq_writes loopOneNormal 1 1 0 0 _ _ _ hD hP hP rfl rfl (by decide)
    (by decide)
  obtain ⟨P1, hP1, _, _, _, hc0, _, _⟩ := promoteWrites_view loopOneNormal 1 0 0
    ⟨⟨0, 0⟩, ⟨0, 0⟩, ⟨0, 0⟩, 1 / 2, NodeType.DISSOLVED, 0, 0⟩
    ⟨⟨1, 1⟩, ⟨0, 0⟩, ⟨2, 3⟩, 0, NodeType.NORMAL, 1, 1⟩
    ⟨⟨1, 1⟩, ⟨0, 0⟩, ⟨2, 3⟩, 0, NodeType.NORMAL, 1, 1⟩ (by decide) (by decide) 0 _ hP
  refine ⟨_, P1, hw, hP1, ?_⟩
  rw [hc0, if_pos rfl]
  simp only [qCubicSegment2D.dividedAtT, gSegmentFromNodes, lerp]
  norm_num

/-- C18 (amended): for every list and every DISSOLVED node `d` with parameter `t` whose
enclosing NORMAL nodes `p = prevNormalId(d)` and `n = nextNormalId(d)` are both found,
`promoteDissolvedNodeToNormal(d)` succeeds, keeps the node count, makes `d` NORMAL with its
anchor at the point where the cubic `(p.anchor, p.out, n.in, n.anchor)` is split at `t`;
afterwards the cubic from `p` to `d` is the first half of that split and the cubic from `d`
to `n` is the second half; the anchors of `p` and `n` are unchanged, and the in-handle of `p`
and the out-handle of `n` are unchanged when `p` and `n` are different nodes (when they are
the same node its in-handle is the second half's last handle and its out-handle the first
half's first handle). -/
theorem promoteDissolvedNodeToNormal_spec (L : List Node) (fuel : Nat) (d : Nat) (D : Node)
    (p n : Int) (hD : L[d]? = some D) (hdis : D.mType = NodeType.DISSOLVED)
    (hp : prevNormalId fuel L (d : Int) = Except.ok p)
    (hn : nextNormalId fuel L (d : Int) = Except.ok n) (hp1 : p ≠ -1) (hn1 : n ≠ -1) :
    ∃ P N L1 D1 P1 N1, nodeAt L p = Except.ok P ∧ nodeAt L n = Except.ok N ∧
      P.mType = NodeType.NORMAL ∧ N.mType = NodeType.NORMAL ∧
      promoteDissolvedNodeToNormal fuel L (d : Int) = Except.ok L1 ∧
      L1.length = L.length ∧
      nodeAt L1 (d : Int) = Except.ok D1 ∧ nodeAt L1 p = Except.ok P1 ∧
      nodeAt L1 n = Except.ok N1 ∧
      D1.mType = NodeType.NORMAL ∧
      D1.fP1 = ((gSegmentFromNodes P N).dividedAtT D.fT).1.p1 ∧
      gSegmentFromNodes P1 D1 = ((gSegmentFromNodes P N).dividedAtT D.fT).1 ∧
      gSegmentFromNodes D1 N1 = ((gSegmentFromNodes P N).dividedAtT D.fT).2 ∧
      P1.fP1 = P.fP1 ∧ N1.fP1 = N.fP1 ∧
      P1.fC0 = (if p = n then ((gSegmentFromNodes P N).dividedAtT D.fT).2.c2 else P.fC0) ∧
      N1.fC2 = (if p = n then ((gSegmentFromNodes P N).dividedAtT D.fT).1.c1 else N.fC2) :=
  promote_general L fuel d D p n hD hdis hp hn hp1 hn1

/-- Witness for C18: the marker at `t = 1/2` of the sample arc with anchors `(0,0)` and
`(4,0)` and handles `(1,2)` and `(3,2)`.  After the promotion the marker is a NORMAL node
with anchor `(2, 3/2)`, the cubic from node 0 to it is
`(0,0), (1/2,1), (5/4,3/2), (2,3/2)`, the cubic from it to node 2 is
`(2,3/2), (11/4,3/2), (7/2,1), (4,0)`, and the anchors, the in-handle of node 0 and the
out-handle of node 2 are as before. -/
theorem promoteDissolvedNodeToNormal_spec_witness :
    (openSegment3 arcStart arcMarker arcEnd)[1]? =
      some (markerNode NodeType.DISSOLVED 0 2 (1 / 2)) ∧
    (markerNode NodeType.DISSOLVED 0 2 (1 / 2)).mType = NodeType.DISSOLVED ∧
    prevNormalId 1 (openSegment3 arcStart arcMarker arcEnd) ((1 : Nat) : Int) = Except.ok 0 ∧
    nextNormalId 1 (openSegment3 arcStart arcMarker arcEnd) ((1 : Nat) : Int) = Except.ok 2 ∧
    (openSegment3 arcStart arcMarker arcEnd).map (fun n => (n.fC0, n.fP1, n.fC2)) =
      [(⟨0, 0⟩, ⟨0, 0⟩, ⟨1, 2⟩), (⟨0, 0⟩, ⟨0, 0⟩, ⟨0, 0⟩), (⟨3, 2⟩, ⟨4, 0⟩, ⟨4, 0⟩)] ∧
    ∃ L1 D1 P1 N1,
      promoteDissolvedNodeToNormal 1 (openSegment3 arcStart arcMarker arcEnd)
        ((1 : Nat) : Int) = Except.ok L1 ∧
      L1.length = 3 ∧
      nodeAt L1 1 = Except.ok D1 ∧ nodeAt L1 0 = Except.ok P1 ∧ nodeAt L1 2 = Except.ok N1 ∧
      D1.mType = NodeType.NORMAL ∧ D1.fP1 = ⟨2, 3 / 2⟩ ∧
      gSegmentFromNodes P1 D1 = ⟨⟨0, 0⟩, ⟨1 / 2, 1⟩, ⟨5 / 4, 3 / 2⟩, ⟨2, 3 / 2⟩⟩ ∧
      gSegmentFromNodes D1 N1 = ⟨⟨2, 3 / 2⟩, ⟨11 / 4, 3 / 2⟩, ⟨7 / 2, 1⟩, ⟨4, 0⟩⟩ ∧
      P1.fP1 = ⟨0, 0⟩ ∧ N1.fP1 = ⟨4, 0⟩ ∧ P1.fC0 = ⟨0, 0⟩ ∧ N1.fC2 = ⟨4, 0⟩ := by
  refine ⟨rfl, rfl, rfl, rfl, rfl, ?_⟩
  obtain ⟨P, N, L1, D1, P1, N1, hP, hN, _, _, hok, hlen, hD1, hP1, hN1, ht, hfp, hs1, hs2,
      ha1, ha2, hc0, hc2⟩ :=
    promoteDissolvedNodeToNormal_spec (openSegment3 arcStart arcMarker arcEnd) 1 1
      (markerNode NodeType.DISSOLVED 0 2 (1 / 2)) 0 2 rfl rfl rfl rfl (by decide) (by decide)
  have eP : P = ⟨⟨0, 0⟩, ⟨0, 0⟩, ⟨1, 2⟩, 0, NodeType.NORMAL, -1, 1⟩ := by
    have h0 : nodeAt (openSegment3 arcStart arcMarker arcEnd) 0 =
        Except.ok ⟨⟨0, 0⟩, ⟨0, 0⟩, ⟨1, 2⟩, 0, NodeType.NORMAL, -1, 1⟩ := rfl
    rw [h0] at hP
    injection hP with hP
    exact hP.symm
  have eN : N = ⟨⟨3, 2⟩, ⟨4, 0⟩, ⟨4, 0⟩, 0, NodeType.NORMAL, 1, -1⟩ := by
    have h0 : nodeAt (openSegment3 arcStart arcMarker arcEnd) 2 =
        Except.ok ⟨⟨3, 2⟩, ⟨4, 0⟩, ⟨4, 0⟩, 0, NodeType.NORMAL, 1, -1⟩ := rfl
    rw [h0] at hN
    injection hN with hN
    exact hN.symm
  subst eP eN
  have hsplit : (gSegmentFromNodes
      (⟨⟨0, 0⟩, ⟨0, 0⟩, ⟨1, 2⟩, 0, NodeType.NORMAL, -1, 1⟩ : Node)
      (⟨⟨3, 2⟩, ⟨4, 0⟩, ⟨4, 0⟩, 0, NodeType.NORMAL, 1, -1⟩ : Node)).dividedAtT
        (markerNode NodeType.DISSOLVED 0 2 (1 / 2)).fT =
      (⟨⟨0, 0⟩, ⟨1 / 2, 1⟩, ⟨5 / 4, 3 / 2⟩, ⟨2, 3 / 2⟩⟩,
        ⟨⟨2, 3 / 2⟩, ⟨11 / 4, 3 / 2⟩, ⟨7 / 2, 1⟩, ⟨4, 0⟩⟩) := by
    simp only [qCubicSegment2D.dividedAtT, gSegmentFromNodes, lerp, markerNode]
    norm_num
  rw [hsplit] at hfp hs1 hs2
  rw [if_neg (by decide)] at hc0 hc2
  exact ⟨L1, D1, P1, N1, hok, hlen, hD1, hP1, hN1, ht, hfp, hs1, hs2, ha1, ha2, hc0, hc2⟩

/-- C19 (defect found): in the closed loop `0 -> 1 -> 2 -> 3 -> 0` with NORMAL nodes 0, 1 and
DISSOLVED markers 2 (`t = 1/2`) and 3 (`t = 3/4`), the enclosing NORMAL nodes of marker 2 are
`p = 1` and `n = 0`, and marker 3 lies on the link path strictly between 2 and `n`.  After
`promoteDissolvedNodeToNormal(2)` marker 3 still has `t = 3/4`, while its position within
`[1/2, 1]` is `gMapTToFragment(1/2, 1, 3/4) = 1/2`: the loop `for(i = nodeId + 1;
i < nextNormalIdV; i++)` runs over no index because `n = 0` is stored before the marker. -/
theorem promote_loopWithMarkers (fuel : Nat) :
    LinksInRange loopWithMarkers ∧ LinkSymmetry loopWithMarkers ∧
    prevNormalId (fuel + 1) loopWithMarkers 2 = Except.ok 1 ∧
    nextNormalId (fuel + 2) loopWithMarkers 2 = Except.ok 0 ∧
    nextAt loopWithMarkers 2 = some 3 ∧ nextAt loopWithMarkers 3 = some 0 ∧
    (promoteDissolvedNodeToNormal (fuel + 2) loopWithMarkers 2).map
        (fun L => L.map (fun n => (n.mType, n.fT))) =
      Except.ok [(NodeType.NORMAL, 0), (NodeType.NORMAL, 0), (NodeType.NORMAL, 1 / 2),
        (NodeType.DISSOLVED, 3 / 4)] ∧
    gMapTToFragment (1 / 2) 1 (3 / 4) = 1 / 2 := by
  refine ⟨by decide, by decide, rfl, rfl, rfl, rfl, rfl, ?_⟩
  norm_num [gMapTToFragment]

/-- C20 (counterexample): a NORMAL node with previous link 0 and next link 2 in both lists
(so neither link differs from the sibling's), in the middle of both lists, whose next node in
this list is a DUMMY node: `shouldSplitThisNode` is true, because this list has no NORMAL node
after the node and the sibling list has one. -/
theorem shouldSplitThisNode_agreeing_links :
    typeAt chainDummyEnd 2 = some NodeType.DUMMY ∧
    chainDummyEnd[1]? = some (linkNode NodeType.NORMAL 0 2) ∧
    openChain3[1]? = some (linkNode NodeType.NORMAL 0 2) ∧
    ∀ fuel, shouldSplitThisNode (fuel + 2) 1 (linkNode NodeType.NORMAL 0 2)
      (linkNode NodeType.NORMAL 0 2) chainDummyEnd openChain3 = Except.ok true :=
  ⟨rfl, rfl, rfl, fun _ => rfl⟩

/-- C20 (amended): writing `prevDiffers` / `nextDiffers` for "this node's prev (resp. next)
link equals neither link of the sibling's node", `shouldSplitThisNode` is
`prevDiffers OR nextDiffers` when this node is not NORMAL or lacks a previous or a next node
in this list.  For a NORMAL node with both links in this list the result is true when this
list has no NORMAL node after it (`nextNormalId = -1`) while the sibling list has one;
otherwise it is `prevDiffers AND nextDiffers` when the next node in this list is not MOVE,
and `prevDiffers OR nextDiffers` when it is MOVE.  Whether the sibling's node has a previous
and a next node is not tested. -/
theorem shouldSplitThisNode_rule (fuel : Nat) (nodeId : Int) (thisNode neighNode : Node)
    (thisNodes neighNodes : List Node) :
    (¬ (thisNode.isNormal = true ∧ thisNode.hasNextNode = true ∧
          thisNode.hasPreviousNode = true) →
      shouldSplitThisNode fuel nodeId thisNode neighNode thisNodes neighNodes =
        Except.ok
          ((decide (thisNode.mPrevNodeId ≠ neighNode.mPrevNodeId) &&
              decide (thisNode.mPrevNodeId ≠ neighNode.mNextNodeId)) ||
            (decide (thisNode.mNextNodeId ≠ neighNode.mNextNodeId) &&
              decide (thisNode.mNextNodeId ≠ neighNode.mPrevNodeId)))) ∧
    (thisNode.isNormal = true → thisNode.hasNextNode = true →
      thisNode.hasPreviousNode = true →
      (∀ b, nextNormalId fuel thisNodes nodeId = Except.ok (-1) →
        nextNormalId fuel neighNodes nodeId = Except.ok b → b ≠ -1 →
        shouldSplitThisNode fuel nodeId thisNode neighNode thisNodes neighNodes =
          Except.ok true) ∧
      (∀ a X, nextNormalId fuel thisNodes nodeId = Except.ok a →
        (a ≠ -1 ∨ nextNormalId fuel neighNodes nodeId = Except.ok (-1)) →
        nodeAt thisNodes thisNode.mNextNodeId = Except.ok X →
        shouldSplitThisNode fuel nodeId thisNode neighNode thisNodes neighNodes =
          Except.ok
            (if X.isMove then
              ((decide (thisNode.mPrevNodeId ≠ neighNode.mPrevNodeId) &&
                  decide (thisNode.mPrevNodeId ≠ neighNode.mNextNodeId)) ||
                (decide (thisNode.mNextNodeId ≠ neighNode.mNextNodeId) &&
                  decide (thisNode.mNextNodeId ≠ neighNode.mPrevNodeId)))
            else
              ((decide (thisNode.mPrevNodeId ≠ neighNode.mPrevNodeId) &&
                  decide (thisNode.mPrevNodeId ≠ neighNode.mNextNodeId)) &&
                (decide (thisNode.mNextNodeId ≠ neighNode.mNextNodeId) &&
                  decide (thisNode.mNextNodeId ≠ neighNode.mPrevNodeId)))))) := by
  refine ⟨?_, ?_⟩
  · intro h
    unfold shouldSplitThisNode
    have : (thisNode.isNormal && (thisNode.hasNextNode && thisNode.hasPreviousNode)) = false := by
      cases h1 : thisNode.isNormal <;> cases hn : thisNode.hasNextNode <;>
        cases hp : thisNode.hasPreviousNode <;> simp_all
    simp [this, Node.getPrevNodeId, Node.getNextNodeId, pure, Except.pure]
  · intro h1 h2 h3
    have hc : (thisNode.isNormal && (thisNode.hasNextNode && thisNode.hasPreviousNode)) = true := by
      simp [h1, h2, h3]
    refine ⟨?_, ?_⟩
    · intro b ha hb hne
      unfold shouldSplitThisNode
      simp [hc, ha, hb, hne, bind, Except.bind, pure, Except.pure]
    · intro a X ha hor hX
      unfold shouldSplitThisNode
      by_cases ha1 : a = -1
      · subst ha1
        have hb : nextNormalId fuel neighNodes nodeId = Except.ok (-1) := by
          rcases hor with h | h
          · exact absurd rfl h
          · exact h
        cases hm : X.isMove <;>
          simp [hc, ha, hb, hX, hm, bind, Except.bind, pure, Except.pure, Node.getPrevNodeId,
            Node.getNextNodeId]
      · cases hm : X.isMove <;>
          simp [hc, ha, ha1, hX, hm, bind, Except.bind, pure, Except.pure, Node.getPrevNodeId,
            Node.getNextNodeId]

/-- Witness for C20: the middle node of the open chain `0 -> 1 -> 2` compared with the same
node of the same list needs no split. -/
theorem shouldSplitThisNode_rule_witness :
    shouldSplitThisNode 1 1 (linkNode NodeType.NORMAL 0 2) (linkNode NodeType.NORMAL 0 2)
      openChain3 openChain3 = Except.ok false :=
  ((shouldSplitThisNode_rule 1 1 (linkNode NodeType.NORMAL 0 2) (linkNode NodeType.NORMAL 0 2)
    openChain3 openChain3).2 rfl rfl rfl).2 2 (linkNode NodeType.NORMAL 1 (-1)) rfl
      (Or.inl (by decide)) rfl

/-! ## Claims C21 - C30 -/

/-- C21 (defect found): after `appendNode(NORMAL blueprint, NEXT)` on an empty list with an
empty next sibling, the sibling holds one blank DUMMY node without links whose counterpart in
the first list is NORMAL, so it must become DISSOLVED.  `updateNodeTypeAfterNeighbourChanged(0)`
on the sibling returns nothing, whatever the fuel: `prevT(0)` finds no non-dummy node before
node 0 and reads `mNodes.at(-1)`. -/
theorem updateNodeType_placeholder_alone (fuel : Nat) :
    appendNode ⟨[], [], [[]]⟩ (linkNode NodeType.NORMAL (-1) (-1)) Neighbour.NEXT =
      Except.ok (⟨[linkNode NodeType.NORMAL (-1) (-1)], [], [[Node.blank]]⟩, 0) ∧
    MustDissolve Node.blank
      (siblingNodes ⟨[Node.blank], [[linkNode NodeType.NORMAL (-1) (-1)]], []⟩ 0) ∧
    prevNonDummyId (fuel + 1) [Node.blank] 0 = Except.ok (-1) ∧
    updateNodeTypeAfterNeighbourChanged (fuel + 1)
      ⟨[Node.blank], [[linkNode NodeType.NORMAL (-1) (-1)]], []⟩ 0 =
        Except.error Err.IndexOutOfRange ∧
    ∃ e, updateNodeTypeAfterNeighbourChanged fuel
      ⟨[Node.blank], [[linkNode NodeType.NORMAL (-1) (-1)]], []⟩ 0 = Except.error e := by
  refine ⟨rfl, by decide, rfl, rfl, ?_⟩
  match fuel with
  | 0 => exact ⟨_, rfl⟩
  | _ + 1 => exact ⟨_, rfl⟩

/-- C22: for a valid id `i` with node `N`, `updateNodeTypeAfterNeighbourChanged(i)` returns
false and the unchanged list when `N` is NORMAL or MOVE.  Whenever the call returns, the
sibling lists and every other node are unchanged, node `i` keeps its links and geometry, the
returned flag is true exactly when its type differs from the type before (and with flag false
the node is unchanged), and for a node that is neither NORMAL nor MOVE the new type is
DISSOLVED when the spec's condition holds and DUMMY otherwise.  The call returns when each
present sibling has a node at `i` and, for a DUMMY node that must become DISSOLVED, `prevT`
and `nextT` have values. -/
theorem updateNodeType_flag_and_frame (fuel : Nat) (self : NodeList) (i : Nat) (N : Node)
    (hN : self.mNodes[i]? = some N) :
    ((N.mType = NodeType.NORMAL ∨ N.mType = NodeType.MOVE) →
      updateNodeTypeAfterNeighbourChanged fuel self (i : Int) = Except.ok (self, false)) ∧
    (∀ (r : NodeList) (b : Bool),
      updateNodeTypeAfterNeighbourChanged fuel self (i : Int) = Except.ok (r, b) →
      r.mPrev = self.mPrev ∧ r.mNext = self.mNext ∧
      r.mNodes.length = self.mNodes.length ∧
      (∀ j, j ≠ i → r.mNodes[j]? = self.mNodes[j]?) ∧
      ∃ N1, r.mNodes[i]? = some N1 ∧ N1.mPrevNodeId = N.mPrevNodeId ∧
        N1.mNextNodeId = N.mNextNodeId ∧ N1.fC0 = N.fC0 ∧ N1.fP1 = N.fP1 ∧ N1.fC2 = N.fC2 ∧
        (b = true ↔ N1.mType ≠ N.mType) ∧ (b = false → N1 = N) ∧
        ((N.mType = NodeType.NORMAL ∨ N.mType = NodeType.MOVE) → b = false) ∧
        (N.mType ≠ NodeType.NORMAL → N.mType ≠ NodeType.MOVE →
          N1.mType = if MustDissolve N (siblingNodes self i) then NodeType.DISSOLVED
            else NodeType.DUMMY)) ∧
    ((∀ s rest, self.mPrev = s :: rest → i < s.length) →
      (∀ s rest, self.mNext = s :: rest → i < s.length) →
      (N.mType = NodeType.DUMMY → MustDissolve N (siblingNodes self i) →
        ∃ pT nT, prevT fuel self.mNodes (i : Int) = Except.ok pT ∧
          nextT fuel self.mNodes (i : Int) = Except.ok nT) →
      ∃ r b, updateNodeTypeAfterNeighbourChanged fuel self (i : Int) = Except.ok (r, b)) := by
  refine ⟨?_, fun r b h => update_returns fuel self i N hN r b h,
    fun hp hn ht => update_total fuel self i N hN hp hn ht⟩
  intro hnm
  rw [update_eq, nodeAt_of_getElem? hN, bind_ok]
  have : (N.isNormal || N.isMove) = true := by
    rcases hnm with e | e <;> simp [Node.isNormal, Node.isMove, e]
  rw [if_pos this]
  rfl

/-- Witness for C22, three calls.  On the NORMAL node 0 of the segment `0 -> 1 -> 2` the flag is
false and the list unchanged.  On its DISSOLVED marker (id 1), without siblings, the flag is
true and the marker becomes DUMMY.  On the DUMMY node 1 of the chain NORMAL, DUMMY, NORMAL
whose previous sibling has a NORMAL node at id 1, the flag is true and the node becomes
DISSOLVED.  In both cases links, the other nodes and the siblings are unchanged. -/
theorem updateNodeType_flag_and_frame_witness :
    ((openSegment3 Node.blank Node.blank Node.blank)[0]? =
        some (linkNode NodeType.NORMAL (-1) 1) ∧
      updateNodeTypeAfterNeighbourChanged 0
        ⟨openSegment3 Node.blank Node.blank Node.blank, [], []⟩ ((0 : Nat) : Int) =
        Except.ok (⟨openSegment3 Node.blank Node.blank Node.blank, [], []⟩, false)) ∧
    ((openSegment3 Node.blank Node.blank Node.blank)[1]? =
        some (linkNode NodeType.DISSOLVED 0 2) ∧
      ∃ r, updateNodeTypeAfterNeighbourChanged 0
          ⟨openSegment3 Node.blank Node.blank Node.blank, [], []⟩ ((1 : Nat) : Int) =
          Except.ok (r, true) ∧
        r.mPrev = [] ∧ r.mNext = [] ∧ r.mNodes.length = 3 ∧
        r.mNodes[0]? = some (linkNode NodeType.NORMAL (-1) 1) ∧
        r.mNodes[2]? = some (linkNode NodeType.NORMAL 1 (-1)) ∧
        typeAt r.mNodes 1 = some NodeType.DUMMY ∧
        prevAt r.mNodes 1 = some 0 ∧ nextAt r.mNodes 1 = some 2) ∧
    (chainDummyMid[1]? = some (linkNode NodeType.DUMMY 0 2) ∧
      prevT 1 chainDummyMid ((1 : Nat) : Int) = Except.ok 0 ∧
      nextT 1 chainDummyMid ((1 : Nat) : Int) = Except.ok 1 ∧
      ∃ r, updateNodeTypeAfterNeighbourChanged 1 ⟨chainDummyMid, [openChain3], []⟩
          ((1 : Nat) : Int) = Except.ok (r, true) ∧
        r.mPrev = [openChain3] ∧ r.mNext = [] ∧ r.mNodes.length = 3 ∧
        r.mNodes[0]? = some (linkNode NodeType.NORMAL (-1) 1) ∧
        r.mNodes[2]? = some (linkNode NodeType.NORMAL 1 (-1)) ∧
        typeAt r.mNodes 1 = some NodeType.DISSOLVED ∧
        prevAt r.mNodes 1 = some 0 ∧ nextAt r.mNodes 1 = some 2) := by
  refine ⟨⟨rfl, (updateNodeType_flag_and_frame 0
      ⟨openSegment3 Node.blank Node.blank Node.blank, [], []⟩ 0
      (linkNode NodeType.NORMAL (-1) 1) rfl).1 (Or.inl rfl)⟩, ⟨rfl, ?_⟩, ⟨rfl, rfl, rfl, ?_⟩⟩
  · have thm := updateNodeType_flag_and_frame 0
      ⟨openSegment3 Node.blank Node.blank Node.blank, [], []⟩ 1
      (linkNode NodeType.DISSOLVED 0 2) rfl
    obtain ⟨r, b, hrb⟩ := thm.2.2 (fun s rest h => by cases h) (fun s rest h => by cases h)
      (fun h => by cases h)
    obtain ⟨h1, h2, h3, h4, N1, hN1, hp, hn, _, _, _, hb, _, _, hty⟩ := thm.2.1 r b hrb
    have hty1 := hty (by decide) (by decide)
    rw [if_neg (by decide)] at hty1
    have hbt : b = true := hb.mpr (by rw [hty1]; decide)
    subst hbt
    refine ⟨r, hrb, h1, h2, h3, ?_, ?_, ?_, ?_, ?_⟩
    · rw [h4 0 (by decide)]; rfl
    · rw [h4 2 (by decide)]; rfl
    · simp [typeAt, hN1, hty1]
    · simp [prevAt, hN1, hp]; rfl
    · simp [nextAt, hN1, hn]; rfl
  · have thm := updateNodeType_flag_and_frame 1 ⟨chainDummyMid, [openChain3], []⟩ 1
      (linkNode NodeType.DUMMY 0 2) rfl
    obtain ⟨r, b, hrb⟩ := thm.2.2
      (fun s rest h => by
        injection h with h1 h2
        subst h1
        decide)
      (fun s rest h => by cases h)
      (fun _ _ => ⟨0, 1, rfl, rfl⟩)
    obtain ⟨h1, h2, h3, h4, N1, hN1, hp, hn, _, _, _, hb, _, _, hty⟩ := thm.2.1 r b hrb
    have hty1 := hty (by decide) (by decide)
    rw [if_pos (by decide)] at hty1
    have hbt : b = true := hb.mpr (by rw [hty1]; decide)
    subst hbt
    refine ⟨r, hrb, h1, h2, h3, ?_, ?_, ?_, ?_, ?_⟩
    · rw [h4 0 (by decide)]; rfl
    · rw [h4 2 (by decide)]; rfl
    · simp [typeAt, hN1, hty1]
    · simp [prevAt, hN1, hp]; rfl
    · simp [nextAt, hN1, hn]; rfl

/-- C23 (defect found): the open chain `0 -> 1 -> 2` with a sibling of the same length.
`insertNodeAfter(0, blueprint, NEXT)` stores the new node at index 1 of the list and the blank
node at index 3 of the next sibling, not at index 1: the sibling is called with the local
`nextId` (here 2), not with `prevId`.  The same happens with PREV and a previous sibling, and
for the last node (`nextId = -1`) the sibling call reads `mNodes[-1]`. -/
theorem insertNodeAfter_propagates_misaligned :
    (insertNodeAfter ⟨openChain3, [], [openChain3]⟩ 0 (linkNode NodeType.NORMAL (-1) (-1))
        Neighbour.NEXT).map
      (fun r => (r.1.mNodes.map Node.mType, r.1.mNext.map (fun s => s.map Node.mType), r.2)) =
    Except.ok ([NodeType.NORMAL, NodeType.NORMAL, NodeType.NORMAL, NodeType.NORMAL],
      [[NodeType.NORMAL, NodeType.NORMAL, NodeType.NORMAL, NodeType.DUMMY]], 1) ∧
    (insertNodeAfter ⟨openChain3, [openChain3], []⟩ 0 (linkNode NodeType.NORMAL (-1) (-1))
        Neighbour.PREV).map
      (fun r => (r.1.mNodes.map Node.mType, r.1.mPrev.map (fun s => s.map Node.mType), r.2)) =
    Except.ok ([NodeType.NORMAL, NodeType.NORMAL, NodeType.NORMAL, NodeType.NORMAL],
      [[NodeType.NORMAL, NodeType.NORMAL, NodeType.NORMAL, NodeType.DUMMY]], 1) ∧
    insertNodeAfter ⟨openChain3, [], [openChain3]⟩ 2 (linkNode NodeType.NORMAL (-1) (-1))
        Neighbour.NEXT = Except.error Err.IndexOutOfRange :=
  ⟨rfl, rfl, rfl⟩

/-- C24 (counterexample): three NORMAL nodes with links `[(-1,1), (0,-1), (0,-1)]` (in range,
link symmetry holds: the only next link `0 -> 1` is mirrored).  `moveNodeAfter(2, 0)`, with
`2 != 0` and the next link of node 0 not 2, gives `[(-1,2), (0,-1), (0,-1)]`: node 2 gets
next link -1, not 1 (the former next of node 0), and node 1 keeps previous link 0. -/
theorem moveNodeAfter_danglingPrev :
    LinksInRange danglingPrev ∧ LinkSymmetry danglingPrev ∧
    linksOf danglingPrev = [(-1, 1), (0, -1), (0, -1)] ∧
    (moveNodeAfter danglingPrev 2 0).map linksOf = Except.ok [(-1, 2), (0, -1), (0, -1)] :=
  ⟨by decide, by decide, rfl, rfl⟩

/-- C24 (amended): for every list (no symmetry of the links is assumed) and every valid id `m`
that is neither its own previous nor its own next node: `moveNodeAfter(m, a)` for a valid
`a != m` whose next link is not `m`, such that the previous node of `m` is not `a` and the
next links of `a` and `m` do not name the same node, succeeds, keeps the node count and the
handles, anchor, `t` and type of every node; afterwards `a.next = m`, `m.prev = a`,
`m.next = x` and `x.prev = m` (`x` the former next of `a`, if it names a node), the former
previous and the former next of `m` are linked to each other, and no other link is changed.
Symmetrically `moveNodeBefore(m, b)` for a valid `b != m` whose previous link is not `m`,
such that the next node of `m` is not `b` and the previous links of `b` and `m` do not name
the same node.  When the links are symmetric in both directions these side conditions follow
from `m != a`, `a.next != m` (resp. `b.prev != m`) and `m` not being its own previous node. -/
theorem moveNode_relinks (L : List Node) (m : Nat) (M : Node)
    (hM : L[m]? = some M) (hself : M.mPrevNodeId ≠ (m : Int))
    (hself2 : M.mNextNodeId ≠ (m : Int)) :
    (∀ (a : Nat) (A : Node), L[a]? = some A → m ≠ a → A.mNextNodeId ≠ (m : Int) →
      M.mPrevNodeId ≠ (a : Int) →
      (∀ q : Nat, q < L.length → M.mNextNodeId = (q : Int) → A.mNextNodeId ≠ (q : Int)) →
      ∃ L1, moveNodeAfter L m a = Except.ok L1 ∧ L1.length = L.length ∧
        (∀ j, payloadAt L1 j = payloadAt L j) ∧
        nextAt L1 a = some (m : Int) ∧ prevAt L1 m = some (a : Int) ∧
        nextAt L1 m = some A.mNextNodeId ∧
        (∀ x : Nat, A.mNextNodeId = (x : Int) → x < L.length → prevAt L1 x = some (m : Int)) ∧
        (∀ p : Nat, M.mPrevNodeId = (p : Int) → p < L.length →
          nextAt L1 p = some M.mNextNodeId) ∧
        (∀ q : Nat, M.mNextNodeId = (q : Int) → q < L.length →
          prevAt L1 q = some M.mPrevNodeId) ∧
        (∀ j : Nat, j ≠ m → j ≠ a → M.mPrevNodeId ≠ (j : Int) → nextAt L1 j = nextAt L j) ∧
        (∀ j : Nat, j ≠ m → A.mNextNodeId ≠ (j : Int) → M.mNextNodeId ≠ (j : Int) →
          prevAt L1 j = prevAt L j)) ∧
    (∀ (b : Nat) (B : Node), L[b]? = some B → m ≠ b → B.mPrevNodeId ≠ (m : Int) →
      M.mNextNodeId ≠ (b : Int) →
      (∀ p : Nat, p < L.length → M.mPrevNodeId = (p : Int) → B.mPrevNodeId ≠ (p : Int)) →
      ∃ L1, moveNodeBefore L m b = Except.ok L1 ∧ L1.length = L.length ∧
        (∀ j, payloadAt L1 j = payloadAt L j) ∧
        prevAt L1 b = some (m : Int) ∧ nextAt L1 m = some (b : Int) ∧
        prevAt L1 m = some B.mPrevNodeId ∧
        (∀ y : Nat, B.mPrevNodeId = (y : Int) → y < L.length → nextAt L1 y = some (m : Int)) ∧
        (∀ p : Nat, M.mPrevNodeId = (p : Int) → p < L.length →
          nextAt L1 p = some M.mNextNodeId) ∧
        (∀ q : Nat, M.mNextNodeId = (q : Int) → q < L.length →
          prevAt L1 q = some M.mPrevNodeId) ∧
        (∀ j : Nat, j ≠ m → B.mPrevNodeId ≠ (j : Int) → M.mPrevNodeId ≠ (j : Int) →
          nextAt L1 j = nextAt L j) ∧
        (∀ j : Nat, j ≠ m → j ≠ b → M.mNextNodeId ≠ (j : Int) → prevAt L1 j = prevAt L j)) ∧
    (LinkSymmetryBoth L →
      (∀ (a : Nat) (A : Node), L[a]? = some A → m ≠ a → A.mNextNodeId ≠ (m : Int) →
        M.mPrevNodeId ≠ (a : Int) ∧
        ∀ q : Nat, q < L.length → M.mNextNodeId = (q : Int) → A.mNextNodeId ≠ (q : Int)) ∧
      (∀ (b : Nat) (B : Node), L[b]? = some B → m ≠ b → B.mPrevNodeId ≠ (m : Int) →
        M.mNextNodeId ≠ (b : Int) ∧
        ∀ p : Nat, p < L.length → M.mPrevNodeId = (p : Int) → B.mPrevNodeId ≠ (p : Int))) :=
  ⟨fun a A hA hne han hmpa hnx =>
      moveNodeAfter_relinks L m a M A hM hA hne han hself hself2 hmpa hnx,
    fun b B hB hne hbp hmnb hpx =>
      moveNodeBefore_relinks L m b M B hM hB hne hbp hself hself2 hmnb hpx,
    fun hb => (symBoth_side_conditions hb hM).2⟩

/-- Witness for C24: the chain `0 -> 1 -> 2` whose middle node is a MOVE node without previous
link (link symmetry holds, the links are not symmetric in both directions).  Moving node 2
after node 0 gives `0 -> 2 -> 1`: the links become `[(-1,2), (2,-1), (0,1)]`. -/
theorem moveNode_relinks_witness :
    LinksInRange moveStartsChain ∧ LinkSymmetry moveStartsChain ∧
    moveStartsChain[2]? = some (linkNode NodeType.NORMAL 1 (-1)) ∧
    moveStartsChain[0]? = some (linkNode NodeType.NORMAL (-1) 1) ∧
    linksOf moveStartsChain = [(-1, 1), (-1, 2), (1, -1)] ∧
    ∃ L1, moveNodeAfter moveStartsChain (2 : Nat) (0 : Nat) = Except.ok L1 ∧
      L1.length = moveStartsChain.length ∧
      (∀ j, payloadAt L1 j = payloadAt moveStartsChain j) ∧
      nextAt L1 0 = some ((2 : Nat) : Int) ∧ prevAt L1 2 = some ((0 : Nat) : Int) ∧
      nextAt L1 2 = some 1 ∧ prevAt L1 1 = some ((2 : Nat) : Int) ∧
      nextAt L1 1 = some (-1) ∧ prevAt L1 0 = some (-1) := by
  refine ⟨by decide, by decide, rfl, rfl, rfl, ?_⟩
  obtain ⟨L1, hok, hlen, hpay, h1, h2, h3, h4, h5, _, _, h8⟩ :=
    (moveNode_relinks moveStartsChain 2 (linkNode NodeType.NORMAL 1 (-1)) rfl
      (by decide) (by decide)).1 0 (linkNode NodeType.NORMAL (-1) 1) rfl (by decide)
      (by decide) (by decide)
      (fun q _ hq => by
        have : (linkNode NodeType.NORMAL 1 (-1)).mNextNodeId = -1 := rfl
        omega)
  exact ⟨L1, hok, hlen, hpay, h1, h2, h3, h4 1 rfl (by decide), h5 1 rfl (by decide),
    (h8 0 (by decide) (by decide) (by decide)).trans rfl⟩

/-- C25 (counterexample): the open chain `0 -> 1 -> 2` of NORMAL nodes has no MOVE node.  After
`insertNodeAfter(1, MOVE blueprint)`, and also after `splitNodeAndDisconnect(1)`, the MOVE
node stored at id 2 has previous link 1 (and no next link). -/
theorem insertNodeAfter_move_openChain3 :
    NoMoveNode openChain3 ∧ LinksInRange openChain3 ∧ LinkSymmetry openChain3 ∧
    (insertNodeAfter ⟨openChain3, [], []⟩ 1 Node.move Neighbour.NONE).map
        (fun r => r.1.mNodes.map (fun n => (n.mType, n.mPrevNodeId, n.mNextNodeId))) =
      Except.ok [(NodeType.NORMAL, -1, 1), (NodeType.NORMAL, 0, 2), (NodeType.MOVE, 1, -1),
        (NodeType.NORMAL, -1, -1)] ∧
    (splitNodeAndDisconnect ⟨openChain3, [], []⟩ 1).map
        (fun r => r.mNodes.map (fun n => (n.mType, n.mPrevNodeId, n.mNextNodeId))) =
      Except.ok [(NodeType.NORMAL, -1, 1), (NodeType.NORMAL, 0, 2), (NodeType.MOVE, 1, -1),
        (NodeType.NORMAL, -1, 4), (NodeType.NORMAL, 3, -1)] :=
  ⟨by decide, by decide, by decide, rfl, rfl⟩

/-- C25 (amended): for every list and valid id `p` with node `P`, `insertNodeAfter(p, MOVE
blueprint)` (no propagation) succeeds and stores at `p + 1` a MOVE node with previous link
`p` and no next link.  Every old node keeps all its fields but the links: its next link is
`p + 1` for node `p` and the renumbered old one otherwise, its previous link is none for the
node that followed `p` and the renumbered old one otherwise.  So the former next node of `p`
has no previous link, and every node that had no previous link still has none.  After
`splitNodeAndDisconnect(p)` too the node at `p + 1` is a MOVE node with previous link `p`
and no next link, and the node that follows it in storage, the duplicate of `P` at `p + 2`,
has no previous link. -/
theorem insertNodeAfter_move_spec (self : NodeList) (p : Nat) (P : Node)
    (hP : self.mNodes[p]? = some P) :
    (∃ L4, insertNodeAfter self (p : Int) Node.move Neighbour.NONE =
        Except.ok (⟨L4, self.mPrev, self.mNext⟩, (p : Int) + 1) ∧
      L4.length = self.mNodes.length + 1 ∧
      L4[p + 1]? = some { Node.move with mPrevNodeId := (p : Int), mNextNodeId := -1 } ∧
      (∀ (i : Nat) (N : Node), self.mNodes[i]? = some N →
        L4[shiftIdx (p + 1) i]? = some { N with
          mPrevNodeId :=
            if P.mNextNodeId = (i : Int) then -1 else shiftUp ((p : Int) + 1) N.mPrevNodeId,
          mNextNodeId :=
            if i = p then (p : Int) + 1 else shiftUp ((p : Int) + 1) N.mNextNodeId }) ∧
      (∀ (j : Nat) (J : Node), self.mNodes[j]? = some J → P.mNextNodeId = (j : Int) →
        prevAt L4 (shiftIdx (p + 1) j) = some (-1)) ∧
      (∀ (i : Nat) (N : Node), self.mNodes[i]? = some N → N.mPrevNodeId = -1 →
        prevAt L4 (shiftIdx (p + 1) i) = some (-1))) ∧
    (∃ L5 K2, splitNodeAndDisconnect self (p : Int) =
        Except.ok ⟨L5, self.mPrev, self.mNext⟩ ∧
      L5[p + 1]? = some { Node.move with mPrevNodeId := (p : Int), mNextNodeId := -1 } ∧
      L5[p + 2]? = some K2 ∧ K2.mPrevNodeId = -1 ∧ K2.mType = P.mType) := by
  refine ⟨?_, ?_⟩
  · obtain ⟨L4, hok, hlen, hnew, hold⟩ := insertNodeAfterThis_ok self.mNodes p Node.move P hP
    have hcast : ((p : Int) + 1) = ((p + 1 : Nat) : Int) := by push_cast; rfl
    have hrec : ∀ (i : Nat) (N : Node), self.mNodes[i]? = some N →
        L4[shiftIdx (p + 1) i]? = some { N with
          mPrevNodeId :=
            if P.mNextNodeId = (i : Int) then -1 else shiftUp ((p : Int) + 1) N.mPrevNodeId,
          mNextNodeId :=
            if i = p then (p : Int) + 1 else shiftUp ((p : Int) + 1) N.mNextNodeId } := by
      intro i N hN
      rw [hold i N hN]
      have e : (shiftUp ((p : Int) + 1) P.mNextNodeId = ((shiftIdx (p + 1) i : Nat) : Int)) ↔
          P.mNextNodeId = (i : Int) := by
        rw [hcast]
        exact shiftUp_eq_shiftIdx (p + 1) P.mNextNodeId i
      have hmv : Node.move.isMove = true := rfl
      by_cases h : P.mNextNodeId = (i : Int)
      · rw [if_pos (e.mpr h), if_pos h, if_pos hmv]
      · have h1 : ¬ (shiftUp ((p : Int) + 1) P.mNextNodeId =
            ((shiftIdx (p + 1) i : Nat) : Int)) := fun h2 => h (e.mp h2)
        rw [if_neg h1, if_neg h]
    refine ⟨L4, ?_, hlen, ?_, hrec, ?_, ?_⟩
    · rw [insertNodeAfter_NONE, hok]
      rfl
    · rw [hnew]
      simp [Node.isMove, Node.move]
    · intro j J hJ hj
      rw [prevAt, hrec j J hJ]
      simp [hj]
    · intro i N hN h
      have e : shiftUp ((p : Int) + 1) (-1) = -1 := by
        unfold shiftUp
        rw [if_neg (by omega)]
      rw [prevAt, hrec i N hN]
      simp [h, e]
  · obtain ⟨L5, _, K2, hok, _, _, _, _, hM, hK2, hK2p, hK2t, _⟩ :=
      splitNodeAndDisconnect_ok self p P hP
    exact ⟨L5, K2, hok, hM, hK2, hK2p, hK2t⟩

/-- Witness for C25: inserting a MOVE node after node 1 of the open chain `0 -> 1 -> 2`: the
MOVE node at id 2 has previous link 1 and no next link, and the former next node of node 1,
now stored at id 3, which had previous link 1, has none. -/
theorem insertNodeAfter_move_spec_witness :
    openChain3[1]? = some (linkNode NodeType.NORMAL 0 2) ∧
    prevAt openChain3 2 = some 1 ∧
    ∃ L4, insertNodeAfter ⟨openChain3, [], []⟩ ((1 : Nat) : Int) Node.move Neighbour.NONE =
        Except.ok (⟨L4, [], []⟩, ((1 : Nat) : Int) + 1) ∧
      L4.length = openChain3.length + 1 ∧
      L4[1 + 1]? = some { Node.move with mPrevNodeId := ((1 : Nat) : Int), mNextNodeId := -1 } ∧
      prevAt L4 3 = some (-1) ∧
      L4[1]? = some (linkNode NodeType.NORMAL 0 2) ∧
      L4[0]? = some (linkNode NodeType.NORMAL (-1) 1) := by
  refine ⟨rfl, rfl, ?_⟩
  obtain ⟨L4, hok, hlen, hnew, hrec, hfol, _⟩ :=
    (insertNodeAfter_move_spec ⟨openChain3, [], []⟩ 1 (linkNode NodeType.NORMAL 0 2) rfl).1
  exact ⟨L4, hok, hlen, hnew, hfol 2 (linkNode NodeType.NORMAL 1 (-1)) rfl rfl,
    (hrec 1 (linkNode NodeType.NORMAL 0 2) rfl).trans rfl,
    (hrec 0 (linkNode NodeType.NORMAL (-1) 1) rfl).trans rfl⟩

/-- C26 (defect found): the list of two disjoint open chains, `segA` (a NORMAL node followed
by a trailing DISSOLVED marker at `t = 1/2`, ids 0 and 1) and `segB` (two NORMAL nodes, ids
2 and 3).  Alone, `segA` gives `moveTo (1,1)` and `segB` gives `moveTo (5,5)` and one
`cubicTo`.  Together, the commands of the second chain are `moveTo (5,5)` and two `cubicTo`:
its curve is cut at `t = 1/2`, the parameter of the marker of the first chain, which is
still pending in `dissolvedTs` when the second chain is walked. -/
theorem toSkPath_twoSegs (fuel : Nat) :
    LinksInRange twoSegs ∧ LinkSymmetry twoSegs ∧
    toSkPath (fuel + 2) segA = Except.ok [PathCmd.moveTo ⟨1, 1⟩] ∧
    toSkPath (fuel + 2) segB = Except.ok [PathCmd.moveTo ⟨5, 5⟩,
      PathCmd.cubicTo ⟨6, 5⟩ ⟨7, 8⟩ ⟨9, 9⟩] ∧
    toSkPath (fuel + 3) twoSegs = Except.ok [PathCmd.moveTo ⟨1, 1⟩, PathCmd.moveTo ⟨5, 5⟩,
      PathCmd.cubicTo ⟨11 / 2, 5⟩ ⟨6, 23 / 4⟩ ⟨53 / 8, 53 / 8⟩,
      PathCmd.cubicTo ⟨29 / 4, 15 / 2⟩ ⟨8, 17 / 2⟩ ⟨9, 9⟩] := by
  refine ⟨by decide, by decide, rfl, rfl, ?_⟩
  have h : toSkPath (fuel + 3) twoSegs = Except.ok (PathCmd.moveTo ⟨1, 1⟩ ::
      PathCmd.moveTo ⟨5, 5⟩ :: gCubicTo segB0 segB1 [1 / 2] []) := rfl
  rw [h]
  simp only [gCubicTo, gCubicToLoop, qCubicSegment2D.dividedAtT, lerp, gMapTToFragment, segB0,
    segB1]
  norm_num

/-- C27 (defect found): the open chain `0 -> 1 -> 2` whose first node is a DUMMY node and
whose nodes 1 and 2 are NORMAL.  The segment is open (`segmentClosed(1)` is false), yet
`toSkPath` emits the closing `cubicTo` back to the first NORMAL node and `close`: `close` is
set from the previous link of the first NORMAL node (node 1, whose previous node is the
DUMMY node), not from the first node of the segment. -/
theorem toSkPath_dummyFirst (fuel : Nat) :
    LinksInRange dummyFirst ∧ LinkSymmetry dummyFirst ∧
    segmentClosed (fuel + 2) dummyFirst 1 = Except.ok false ∧
    toSkPath (fuel + 3) dummyFirst = Except.ok [PathCmd.moveTo ⟨1, 1⟩,
      PathCmd.cubicTo ⟨2, 1⟩ ⟨4, 5⟩ ⟨5, 5⟩, PathCmd.cubicTo ⟨6, 5⟩ ⟨0, 1⟩ ⟨1, 1⟩,
      PathCmd.close] :=
  ⟨by decide, by decide, rfl, rfl⟩

/-- C28: whenever `firstSegmentNode` returns `f1` for `a` and `f2` for `b`,
`nodesInSameSagment(a, b)` is true exactly when `f1 = f2` and `f1` is not 0.  So it is false
when the segment of `a` starts at node 0, and true for two ids outside the list. -/
theorem nodesInSameSagment_spec (fuel : Nat) (L : List Node) (a b f1 f2 : Int)
    (h1 : firstSegmentNode fuel L a = Except.ok f1)
    (h2 : firstSegmentNode fuel L b = Except.ok f2) :
    nodesInSameSagment fuel L a b = Except.ok (decide (f1 = f2 ∧ f1 ≠ 0)) ∧
    (f1 = 0 → nodesInSameSagment fuel L a b = Except.ok false) ∧
    ((a < 0 ∨ (L.length : Int) ≤ a) → (b < 0 ∨ (L.length : Int) ≤ b) →
      nodesInSameSagment fuel L a b = Except.ok true) := by
  have h : nodesInSameSagment fuel L a b = Except.ok (decide (f1 = f2 ∧ f1 ≠ 0)) := by
    unfold nodesInSameSagment
    rw [h1, bind_ok, h2, bind_ok]
    show Except.ok _ = Except.ok _
    congr 1
    by_cases e1 : f1 = 0 <;> by_cases e2 : f1 = f2 <;> simp [e1, e2]
  refine ⟨h, ?_, ?_⟩
  · intro e; rw [h]; simp [e]
  · intro ha hb
    rw [firstSegmentNode_outside fuel L a ha] at h1
    rw [firstSegmentNode_outside fuel L b hb] at h2
    injection h1 with h1
    injection h2 with h2
    rw [h, ← h1, ← h2]
    rfl

/-- Witness for C28: nodes 1 and 2 of the open chain `0 -> 1 -> 2`, whose segment starts at
node 0, are reported as not in the same segment. -/
theorem nodesInSameSagment_spec_witness :
    firstSegmentNode 3 openChain3 1 = Except.ok 0 ∧
    firstSegmentNode 3 openChain3 2 = Except.ok 0 ∧
    nodesInSameSagment 3 openChain3 1 2 = Except.ok false :=
  ⟨rfl, rfl, (nodesInSameSagment_spec 3 openChain3 1 2 0 0 rfl rfl).2.1 rfl⟩

/-- C29 (defect found): three NORMAL nodes with links in range whose previous links are
`0 -> 1`, `1 -> 2`, `2 -> 1`.  `firstSegmentNode(0)` never returns: whatever the fuel, the loop
is still running when the fuel is used up, going round the cycle `1, 2`, which never comes
back to the smallest id 0. -/
theorem firstSegmentNode_prevCycle (fuel : Nat) : LinksInRange prevCycle ∧
    firstSegmentNode fuel prevCycle 0 = Except.error Err.OutOfFuel := by
  refine ⟨by decide, ?_⟩
  have h : ∀ f, firstSegmentNodeLoop prevCycle f (linkNode NodeType.NORMAL 2 (-1)) 0 1 =
        Except.error Err.OutOfFuel ∧
      firstSegmentNodeLoop prevCycle f (linkNode NodeType.NORMAL 1 (-1)) 0 2 =
        Except.error Err.OutOfFuel := by
    intro f
    induction f with
    | zero => exact ⟨rfl, rfl⟩
    | succ f ih =>
      refine ⟨?_, ?_⟩
      · have : firstSegmentNodeLoop prevCycle (f + 1) (linkNode NodeType.NORMAL 2 (-1)) 0 1 =
            firstSegmentNodeLoop prevCycle f (linkNode NodeType.NORMAL 1 (-1)) 0 2 := rfl
        rw [this]; exact ih.2
      · have : firstSegmentNodeLoop prevCycle (f + 1) (linkNode NodeType.NORMAL 1 (-1)) 0 2 =
            firstSegmentNodeLoop prevCycle f (linkNode NodeType.NORMAL 2 (-1)) 0 1 := rfl
        rw [this]; exact ih.1
  match fuel with
  | 0 => rfl
  | f + 1 =>
    have : firstSegmentNode (f + 1) prevCycle 0 =
        firstSegmentNodeLoop prevCycle f (linkNode NodeType.NORMAL 2 (-1)) 0 1 := rfl
    rw [this]; exact (h f).1

/-- C30: on every list whose links are in range and symmetric in both directions,
`firstSegmentNode` returns -1 at once for an id outside the list, and for a valid id `n` its
loop stops in an iteration `i < 2 * count` (so after at most `2 * count` iterations) through
one of its exits: at a node without previous link, at a node that is its own previous node
(failure "Node points to itself"), at a node whose previous link is the smallest id seen so
far, or at a node whose previous node is a MOVE node; every fuel of at least `i + 1`, and so
every fuel of at least `2 * count`, gives that result. -/
theorem firstSegmentNode_terminates (L : List Node) (hr : LinksInRange L)
    (hb : LinkSymmetryBoth L) :
    (∀ (x : Int) (fuel : Nat), x < 0 ∨ (L.length : Int) ≤ x →
      firstSegmentNode fuel L x = Except.ok (-1)) ∧
    ∀ n : Nat, n < L.length →
      ∃ i res, i < 2 * L.length ∧ StopsAt L n i res ∧
        (∀ fuel, i + 1 ≤ fuel → firstSegmentNode fuel L (n : Int) = res) ∧
        ∀ fuel, 2 * L.length ≤ fuel → firstSegmentNode fuel L (n : Int) = res := by
  refine ⟨fun x fuel h => firstSegmentNode_outside fuel L x h, ?_⟩
  intro n hn
  obtain ⟨i, res, hi, hstop, hres⟩ := firstSegmentNode_stops hr hb hn
  exact ⟨i, res, hi, hstop, hres, fun fuel hf => hres fuel (by omega)⟩

/-- Witness for C30: node C (id 2) of the closed square. -/
theorem firstSegmentNode_terminates_witness :
    LinksInRange square ∧ LinkSymmetryBoth square ∧
    ∃ i res, i < 2 * square.length ∧ StopsAt square 2 i res ∧
      (∀ fuel, i + 1 ≤ fuel → firstSegmentNode fuel square ((2 : Nat) : Int) = res) ∧
      ∀ fuel, 2 * square.length ≤ fuel → firstSegmentNode fuel square ((2 : Nat) : Int) = res :=
  ⟨by decide, by decide,
    (firstSegmentNode_terminates square (by decide) (by decide)).2 2 (by decide)⟩

end Enve
